import Mathlib

/-!
# mgo wire socket: a shallow embedding of `mgo/socket.go`

The development models the socket runtime of the MongoDB driver: the
little-endian integer codec, the serialisation of request operations into
wire envelopes, request-id allocation in `Query`, the failure fan-out of
`kill`, the reply reader (`readLoop`), the ownership calls (`Acquired`,
`Acquire`, `Release`), and the handoff of `SimpleQuery`.  Package `bson`
(the document frame, the element codec with `Marshal` and `Unmarshal`, and
the parts of an object id) is covered as far as its test suite and its
description go.

Modelling conventions.

* A Go `byte` is a `Nat` below 256; a `[]byte` or a `string` is a `List Nat`.
* `int32`, `int64` and `int` values are `Int`; `uint32` values are `Nat`.
  Conversions between widths are explicit (`toInt32`, `toInt64`,
  `toUint32`, `toByte`).  The width of `int` is a parameter (`Platform`, 32
  or 64 bits): the reference count of a socket and the counter of the
  document loop wrap at that width (`toInt`).  Lengths of byte slices and
  positions in them are natural numbers.
* `os.Error` is a `String`, the nil error is `none`.
* A `replyFunc` is a callback identifier; invoking it appends a `Call`
  record to a trace, so "which callbacks ran, in which order, with which
  arguments" is a value the theorems can talk about.
* A Go panic is the fault `Fault.panic`; a returned `os.Error` inside the
  serialiser is `Fault.error`.
* `bson.Marshal` lives in another package; for the socket it is a
  parameter `Marshal`.
* The socket mutex is not modelled: every operation on the socket is one
  atomic step.  The local mutex of `SimpleQuery` is a flag, and the
  callback invocations that other goroutines make while `SimpleQuery` waits
  are parameters of its model.
* A `*mongoServer` is an `Option Nat`, the nil pointer being `none`.
* A `bson.M` is the list of its entries in the order in which the encoder
  visits them; a `float64` is its 64-bit pattern; a Go `int` inside a
  document is 32 bits wide.
-/

namespace Mgo

/-- A byte string (`[]byte`, or the bytes of a Go `string`). -/
abbrev Bytes := List Nat

/-- Ways a computation can stop early: an `os.Error` handed back to the
caller, or a run-time panic. -/
inductive Fault where
  | error (e : String)
  | panic (msg : String)
  deriving DecidableEq, Repr

/-! ## Integer conversions -/

/-- Go conversion `byte(x)`: the low eight bits. -/
def toByte (x : Int) : Nat := (x % 256).toNat

/-- Go conversion `int32(x)`: wrap into the signed 32-bit range. -/
def toInt32 (x : Int) : Int := (x + 2147483648) % 4294967296 - 2147483648

/-- Go conversion `int64(x)`: wrap into the signed 64-bit range. -/
def toInt64 (x : Int) : Int :=
  (x + 9223372036854775808) % 18446744073709551616 - 9223372036854775808

/-- Go conversion `uint32(x)`: the low 32 bits as an unsigned number. -/
def toUint32 (x : Int) : Nat := (x % 4294967296).toNat

/-- Membership in the `int32` range. -/
def isInt32 (x : Int) : Prop := -2147483648 ≤ x ∧ x < 2147483648

/-- Membership in the `int64` range. -/
def isInt64 (x : Int) : Prop := -9223372036854775808 ≤ x ∧ x < 9223372036854775808

/-- Every element is a byte value. -/
def isBytes (b : Bytes) : Prop := ∀ x ∈ b, x < 256

instance (x : Int) : Decidable (isInt32 x) := by unfold isInt32; infer_instance
instance (x : Int) : Decidable (isInt64 x) := by unfold isInt64; infer_instance
instance (b : Bytes) : Decidable (isBytes b) := by unfold isBytes; infer_instance

/-! ## The width of `int` -/

/-- The Go language leaves the width of `int` to the implementation: 32 or
64 bits.  The width is a parameter of the development: the functions that
compute with an `int` that can overflow (a reference count, a loop counter)
take it from here. -/
class Platform where
  intBits : Nat
  width : intBits = 32 ∨ intBits = 64

/-- An implementation with a 32-bit `int`. -/
def Platform.int32 : Platform := ⟨32, Or.inl rfl⟩

/-- An implementation with a 64-bit `int`; the worked instances run on
it. -/
instance Platform.int64 : Platform := ⟨64, Or.inr rfl⟩

/-- The largest `int`: 2^31 - 1 or 2^63 - 1. -/
def maxInt [Platform] : Int := ((2 ^ (Platform.intBits - 1) : Nat) : Int) - 1

/-- Go arithmetic on `int`: a result outside the signed range wraps around
into it. -/
def toInt [Platform] (x : Int) : Int :=
  (x + (maxInt + 1)) % (2 * (maxInt + 1)) - (maxInt + 1)

/-! ## Byte-level codec (`socket.go`, lines 462-519) -/

/-- The indexed store `b[pos] = v`; out of range it panics. -/
def setByte (b : Bytes) (pos : Nat) (v : Nat) : Except Fault Bytes :=
  if pos < b.length then .ok (b.set pos v) else .error (.panic "index out of range")

/-- The indexed load `b[pos]`; out of range it panics. -/
def getByte (b : Bytes) (pos : Nat) : Except Fault Nat :=
  match b[pos]? with
  | some v => .ok v
  | none => .error (.panic "index out of range")

/-- The sixteen zero bytes of `emptyHeader`. -/
def emptyHeader : Bytes := [0, 0, 0, 0, 0, 0, 0, 0, 0, 0, 0, 0, 0, 0, 0, 0]

/-- `addHeader(b, opcode)`: append sixteen zero bytes, then store the two low
bytes of the opcode at offsets 12 and 13 of the new header. -/
def addHeader (b : Bytes) (opcode : Int) : Except Fault Bytes := do
  let i := b.length
  let b := b ++ emptyHeader
  let b ← setByte b (i + 12) (toByte opcode)
  let b ← setByte b (i + 13) (toByte (opcode >>> (8 : Nat)))
  pure b

/-- `addInt32(b, i)`. -/
def addInt32 (b : Bytes) (i : Int) : Bytes :=
  b ++ [toByte i, toByte (i >>> (8 : Nat)), toByte (i >>> (16 : Nat)), toByte (i >>> (24 : Nat))]

/-- `addInt64(b, i)`. -/
def addInt64 (b : Bytes) (i : Int) : Bytes :=
  b ++ [toByte i, toByte (i >>> (8 : Nat)), toByte (i >>> (16 : Nat)), toByte (i >>> (24 : Nat)),
        toByte (i >>> (32 : Nat)), toByte (i >>> (40 : Nat)), toByte (i >>> (48 : Nat)), toByte (i >>> (56 : Nat))]

/-- `addCString(b, s)`: the bytes of `s`, then one NUL. -/
def addCString (b : Bytes) (s : Bytes) : Bytes :=
  (b ++ s) ++ [0]

/-- `addBSON(b, doc)`: on a marshalling error the buffer comes back unchanged
together with the error. -/
def addBSON {Doc : Type} (Marshal : Option Doc → Except String Bytes)
    (b : Bytes) (doc : Option Doc) : Bytes × Option String :=
  match Marshal doc with
  | .error err => (b, some err)
  | .ok data => (b ++ data, none)

/-- `setInt32(b, pos, i)`: four indexed stores, least significant byte
first. -/
def setInt32 (b : Bytes) (pos : Nat) (i : Int) : Except Fault Bytes := do
  let b ← setByte b pos (toByte i)
  let b ← setByte b (pos + 1) (toByte (i >>> (8 : Nat)))
  let b ← setByte b (pos + 2) (toByte (i >>> (16 : Nat)))
  let b ← setByte b (pos + 3) (toByte (i >>> (24 : Nat)))
  pure b

/-- `getInt32(b, pos)`: four indexed loads combined with shifts and ors in
32-bit arithmetic; the combined bit pattern is read as a signed number. -/
def getInt32 (b : Bytes) (pos : Nat) : Except Fault Int := do
  let b0 ← getByte b (pos + 0)
  let b1 ← getByte b (pos + 1)
  let b2 ← getByte b (pos + 2)
  let b3 ← getByte b (pos + 3)
  pure (toInt32 ((b0 ||| (b1 <<< 8) ||| (b2 <<< 16) ||| (b3 <<< 24) : Nat) : Int))

/-- `getInt64(b, pos)`: eight indexed loads combined in 64-bit arithmetic. -/
def getInt64 (b : Bytes) (pos : Nat) : Except Fault Int := do
  let b0 ← getByte b (pos + 0)
  let b1 ← getByte b (pos + 1)
  let b2 ← getByte b (pos + 2)
  let b3 ← getByte b (pos + 3)
  let b4 ← getByte b (pos + 4)
  let b5 ← getByte b (pos + 5)
  let b6 ← getByte b (pos + 6)
  let b7 ← getByte b (pos + 7)
  pure (toInt64 ((b0 ||| (b1 <<< 8) ||| (b2 <<< 16) ||| (b3 <<< 24) |||
                  (b4 <<< 32) ||| (b5 <<< 40) ||| (b6 <<< 48) ||| (b7 <<< 56) : Nat) : Int))

/-! ## Data model (`socket.go`, lines 41-103) -/

/-- A reply callback, named by an identifier.  Calling it is recorded as a
`Call`; what the callback does with its arguments is outside the socket. -/
abbrev replyFunc := Nat

/-- The fixed fields of an inbound reply. -/
structure replyOp where
  flags : Nat
  cursorId : Int
  firstDoc : Int
  replyDocs : Int
  deriving DecidableEq, Repr

/-- One invocation `f(err, reply, docNum, docData)` of a reply callback. -/
structure Call where
  fn : replyFunc
  err : Option String
  reply : Option replyOp
  docNum : Int
  docData : Option Bytes
  deriving DecidableEq, Repr

structure queryOp (Doc : Type) where
  collection : Bytes
  query : Option Doc
  skip : Int
  limit : Int
  selector : Option Doc
  flags : Nat
  replyFunc : Option Mgo.replyFunc

structure getMoreOp where
  collection : Bytes
  limit : Int
  cursorId : Int
  replyFunc : Option Mgo.replyFunc

structure insertOp (Doc : Type) where
  collection : Bytes
  documents : List (Option Doc)

structure updateOp (Doc : Type) where
  collection : Bytes
  selector : Option Doc
  update : Option Doc
  flags : Nat

structure deleteOp (Doc : Type) where
  collection : Bytes
  selector : Option Doc
  flags : Nat

/-- The operation types `Query` accepts (its type switch); any other dynamic
type makes the source panic and has no counterpart here. -/
inductive Op (Doc : Type) where
  | update (op : updateOp Doc)
  | insert (op : insertOp Doc)
  | query (op : queryOp Doc)
  | getMore (op : getMoreOp)
  | delete (op : deleteOp Doc)

/-- A request that expects a reply: where its envelope starts in the buffer
and its callback.  Only ops with a non-nil callback are recorded. -/
structure requestInfo where
  bufferPos : Nat
  replyFunc : Mgo.replyFunc
  deriving DecidableEq, Repr

/-- The TCP connection as the socket sees it: the chunks `Read` will still
deliver, the error `Read` reports afterwards, the buffers handed to `Write`
so far, and whether `Close` was called. -/
structure TCPConn where
  incoming : List Bytes
  readErr : String
  written : List Bytes
  closed : Bool
  deriving DecidableEq, Repr

/-- The reply-callback map `map[uint32]replyFunc`. -/
abbrev ReplyMap := AList (fun _ : Nat => replyFunc)

/-- The socket state.  The authentication fields (`auth`, `logout`,
`cachedNonce`, `gotNonce`) and the debugging address are not modelled. -/
structure mongoSocket where
  server : Option Nat
  conn : TCPConn
  nextRequestId : Nat
  replyFuncs : ReplyMap
  references : Int
  dead : Option String
  deriving DecidableEq

/-! ## Serialising operations (`Query`, lines 236-319) -/

/-- The pattern `buf, err = addBSON(..); if err != nil { return err }`. -/
def checkErr (r : Bytes × Option String) : Except Fault Bytes :=
  match r.2 with
  | some err => .error (.error err)
  | none => .ok r.1

/-- The loop over `op.documents` of an insert. -/
def addDocuments {Doc : Type} (Marshal : Option Doc → Except String Bytes) :
    Bytes → List (Option Doc) → Except Fault Bytes
  | buf, [] => .ok buf
  | buf, doc :: docs => do
      let buf ← checkErr (addBSON Marshal buf doc)
      addDocuments Marshal buf docs

/-- The type switch of the serialisation loop: append one op to the buffer
and report its reply callback (nil for update, insert and delete). -/
def serializeOp {Doc : Type} (Marshal : Option Doc → Except String Bytes) (buf : Bytes) :
    Op Doc → Except Fault (Bytes × Option replyFunc)
  | .update op => do
      let buf ← addHeader buf 2001
      let buf := addInt32 buf 0
      let buf := addCString buf op.collection
      let buf := addInt32 buf (toInt32 op.flags)
      let buf ← checkErr (addBSON Marshal buf op.selector)
      let buf ← checkErr (addBSON Marshal buf op.update)
      pure (buf, none)
  | .insert op => do
      let buf ← addHeader buf 2002
      let buf := addInt32 buf 0
      let buf := addCString buf op.collection
      let buf ← addDocuments Marshal buf op.documents
      pure (buf, none)
  | .query op => do
      let buf ← addHeader buf 2004
      let buf := addInt32 buf (toInt32 op.flags)
      let buf := addCString buf op.collection
      let buf := addInt32 buf op.skip
      let buf := addInt32 buf op.limit
      let buf ← checkErr (addBSON Marshal buf op.query)
      let buf ← match op.selector with
        | some sel => checkErr (addBSON Marshal buf (some sel))
        | none => pure buf
      pure (buf, op.replyFunc)
  | .getMore op => do
      let buf ← addHeader buf 2005
      let buf := addInt32 buf 0
      let buf := addCString buf op.collection
      let buf := addInt32 buf op.limit
      let buf := addInt64 buf op.cursorId
      pure (buf, op.replyFunc)
  | .delete op => do
      let buf ← addHeader buf 2006
      let buf := addInt32 buf 0
      let buf := addCString buf op.collection
      let buf := addInt32 buf (toInt32 op.flags)
      let buf ← checkErr (addBSON Marshal buf op.selector)
      pure (buf, none)

/-- The serialisation loop of `Query`: for each op, serialise it, back-patch
the envelope length at its start, and record a request when the op has a
callback.  `requests` holds the first `requestCount` slots of the source
array. -/
def serializeOps {Doc : Type} (Marshal : Option Doc → Except String Bytes) :
    List (Op Doc) → Bytes → List requestInfo → Except Fault (Bytes × List requestInfo)
  | [], buf, requests => .ok (buf, requests)
  | op :: ops, buf, requests => do
      let start := buf.length
      let (buf, replyFunc) ← serializeOp Marshal buf op
      let buf ← setInt32 buf start (toInt32 ((buf.length : Int) - (start : Int)))
      let requests := match replyFunc with
        | some f => requests ++ [{ bufferPos := start, replyFunc := f }]
        | none => requests
      serializeOps Marshal ops buf requests

/-! ## `Query` under the lock (lines 323-356) -/

/-- The id loop: patch each request id into the buffer, register the
callback under that id, and step the id (a `uint32` increment). -/
def assignIds : List requestInfo → Nat → Bytes → ReplyMap → Except Fault (Bytes × ReplyMap)
  | [], _, buf, fs => .ok (buf, fs)
  | request :: rest, requestId, buf, fs => do
      let buf ← setInt32 buf (request.bufferPos + 4) (toInt32 requestId)
      assignIds rest ((requestId + 1) % 4294967296) buf (fs.insert requestId request.replyFunc)

/-- `conn.Write(buf)`: the buffer is handed to the connection. -/
def TCPConn.Write (c : TCPConn) (buf : Bytes) : TCPConn :=
  { c with written := c.written ++ [buf] }

/-- What one `Query` call did: the socket afterwards, the error it returned
and the callbacks it invoked, in order. -/
structure QueryResult where
  socket : mongoSocket
  err : Option String
  calls : List Call
  deriving DecidableEq

/-- `socket.Query(ops...)`.  `lops` is what `socket.flushLogout()` returned
(that method is in another file and touches only the logout list), and
`writeErr` is the error `conn.Write` reports.  The result is `none` when the
call panics. -/
def Query {Doc : Type} (Marshal : Option Doc → Except String Bytes) (socket : mongoSocket)
    (lops ops : List (Op Doc)) (writeErr : Option String) : Option QueryResult :=
  let ops := if lops.length > 0 then lops ++ ops else ops
  match serializeOps Marshal ops [] [] with
  | .error (.error err) => some { socket := socket, err := some err, calls := [] }
  | .error (.panic _) => none
  | .ok (buf, requests) =>
    match socket.dead with
    | some dead =>
      some { socket := socket, err := some dead,
             calls := requests.map fun request =>
               { fn := request.replyFunc, err := some dead, reply := none,
                 docNum := -1, docData := none } }
    | none =>
      let requestId := (socket.nextRequestId + 1) % 4294967296
      let requestId := if requestId = 0 then (requestId + 1) % 4294967296 else requestId
      let next := (requestId + toUint32 requests.length) % 4294967296
      match assignIds requests requestId buf socket.replyFuncs with
      | .error _ => none
      | .ok (buf, fs) =>
        some { socket := { socket with nextRequestId := next, replyFuncs := fs,
                                       conn := socket.conn.Write buf },
               err := writeErr, calls := [] }

/-! ## `kill` (lines 180-198) -/

/-- `conn.Close()`. -/
def TCPConn.Close (c : TCPConn) : TCPConn :=
  { c with closed := true }

/-- `socket.kill(err)`: a second kill changes nothing; the first one records
the reason, closes the connection, swaps in an empty callback map and calls
every callback of the old map with `(err, nil, -1, nil)`.  Go leaves the
iteration order of a map open; the trace lists the calls in the order of the
stored entries. -/
def kill (socket : mongoSocket) (err : String) : mongoSocket × List Call :=
  match socket.dead with
  | some _ => (socket, [])
  | none =>
    let replyFuncs := socket.replyFuncs
    ({ socket with dead := some err, conn := socket.conn.Close, replyFuncs := ∅ },
     replyFuncs.entries.map fun e =>
       { fn := e.2, err := some err, reply := none, docNum := -1, docData := none })

/-! ## Reading from the connection (`fill`, lines 359-368) -/

/-- Model of the library call `conn.Read(b)` with `len(b) = n`: a read into
an empty buffer returns at once; otherwise it delivers at most one pending
chunk, cut to `n` bytes, and reports the connection's error once nothing is
pending.  On a closed connection every read fails.  The result is the bytes
stored at the front of `b`, the error, and the connection afterwards. -/
def TCPConn.Read (c : TCPConn) (n : Nat) : Bytes × Option String × TCPConn :=
  if c.closed then ([], some c.readErr, c)
  else if n = 0 then ([], none, c)
  else
    match c.incoming with
    | [] => ([], some c.readErr, c)
    | chunk :: rest =>
      if chunk.length ≤ n then (chunk, none, { c with incoming := rest })
      else (chunk.take n, none, { c with incoming := chunk.drop n :: rest })

/-- The loop `for n != l && err == nil` of `fill`; `b` holds the `n` bytes
read so far.  The first argument bounds the number of iterations. -/
def fillLoop : Nat → TCPConn → Nat → Bytes → Option String → Bytes × Option String × TCPConn
  | 0, c, _, b, err => (b, err, c)
  | fuel + 1, c, l, b, err =>
    if b.length ≠ l ∧ err = none then
      let (data, err, c) := c.Read (l - b.length)
      fillLoop fuel c l (b ++ data) err
    else (b, err, c)

/-- `fill(r, b)` with `len(b) = l`: read until `b` is full or a read fails.
Every read that leaves the loop running consumes a whole pending chunk, so
one more iteration than there are chunks is enough. -/
def fill (c : TCPConn) (l : Nat) : Bytes × Option String × TCPConn :=
  let (data, err, c) := c.Read l
  fillLoop (c.incoming.length + 1) c l data err

/-! ## The reader (`readLoop`, lines 372-460) -/

/-- How one pass of the reader ends: the loop goes on (`next`), the reader
returns after killing the socket (`stop`), a run-time panic (`crash`), or
the iteration bound of the model ran out (`unfinished`).  Each carries the
socket and the callback trace at that point. -/
inductive LoopStep where
  | next (socket : mongoSocket) (calls : List Call)
  | stop (socket : mongoSocket) (calls : List Call)
  | crash (socket : mongoSocket) (calls : List Call)
  | unfinished (socket : mongoSocket) (calls : List Call)
  deriving DecidableEq

/-- Bytes the connection will still deliver. -/
def TCPConn.pending (c : TCPConn) : Nat :=
  (c.incoming.map List.length).sum

/-- Lines 384-386: total length, `responseTo` and opcode of the envelope. -/
def readEnvelope (p : Bytes) : Except Fault (Int × Int × Int) := do
  let totalLen ← getInt32 p 0
  let responseTo ← getInt32 p 8
  let opCode ← getInt32 p 12
  pure (totalLen, responseTo, opCode)

/-- Lines 398-403: the reply built from the twenty fixed bytes after the
envelope. -/
def readReply (p : Bytes) : Except Fault replyOp := do
  let flags ← getInt32 p 16
  let cursorId ← getInt64 p 20
  let firstDoc ← getInt32 p 28
  let replyDocs ← getInt32 p 32
  pure { flags := toUint32 flags, cursorId := cursorId, firstDoc := firstDoc,
         replyDocs := replyDocs }

/-- Lines 422-428: allocate the document buffer and copy the four length
bytes into it.  A negative length makes the allocation panic, a length
below four one of the stores. -/
def newDocBuffer (s : Bytes) : Except Fault Bytes := do
  let n ← getInt32 s 0
  if n < 0 then
    throw (.panic "makeslice: len out of range")
  else
    let b := List.replicate n.toNat 0
    let s0 ← getByte s 0
    let b ← setByte b 0 s0
    let s1 ← getByte s 1
    let b ← setByte b 1 s1
    let s2 ← getByte s 2
    let b ← setByte b 2 s2
    let s3 ← getByte s 3
    let b ← setByte b 3 s3
    pure b

/-- The per-document loop `for i := 0; i != int(reply.replyDocs); i++`
(lines 415-448), entered with the current `i`.  The counter is an `int`,
so `i++` wraps at the largest `int`.  The first argument bounds the number
of iterations. -/
def docLoop [Platform] (replyFunc : Option replyFunc) (reply : replyOp) :
    Nat → Int → mongoSocket → List Call → LoopStep
  | 0, _, socket, calls => .unfinished socket calls
  | fuel + 1, i, socket, calls =>
    if i ≠ reply.replyDocs then
      let (s, err, conn) := fill socket.conn 4
      let socket := { socket with conn := conn }
      match err with
      | some err =>
        let (socket, killed) := kill socket err
        .stop socket (calls ++ killed)
      | none =>
        match newDocBuffer s with
        | .error _ => .crash socket calls
        | .ok b =>
          let (data, err, conn) := fill socket.conn (b.length - 4)
          let socket := { socket with conn := conn }
          let b := b.take 4 ++ data
          match err with
          | some err =>
            let (socket, killed) := kill socket err
            .stop socket (calls ++ killed)
          | none =>
            let calls := match replyFunc with
              | some f => calls ++ [{ fn := f, err := none, reply := some reply,
                                      docNum := i, docData := some b }]
              | none => calls
            docLoop replyFunc reply fuel (toInt (i + 1)) socket calls
    else .next socket calls

/-- Lines 408-456: look the callback up, deliver the reply (one call with
document number -1 when the reply is empty and a callback is registered,
the document loop otherwise), and only then remove the callback.  Every
document costs at least four bytes of input, so the pending byte count
bounds the document loop. -/
def dispatchReply [Platform] (socket : mongoSocket) (responseTo : Int) (reply : replyOp) : LoopStep :=
  let replyFunc := socket.replyFuncs.lookup (toUint32 responseTo)
  let replyFuncFound := replyFunc.isSome
  let delivered :=
    match replyFunc, decide (reply.replyDocs = 0) with
    | some f, true =>
      LoopStep.next socket [{ fn := f, err := none, reply := some reply,
                              docNum := -1, docData := none }]
    | _, _ => docLoop replyFunc reply (socket.conn.pending + 1) 0 socket []
  match delivered with
  | .next socket calls =>
    let socket :=
      if replyFuncFound then
        { socket with replyFuncs := socket.replyFuncs.erase (toUint32 responseTo) }
      else socket
    .next socket calls
  | other => other

/-- One pass of the outer `for` of `readLoop`: read a 36-byte header, check
the opcode, build the reply and dispatch it. -/
def readFrame [Platform] (socket : mongoSocket) : LoopStep :=
  let (p, err, conn) := fill socket.conn 36
  let socket := { socket with conn := conn }
  match err with
  | some err =>
    let (socket, killed) := kill socket err
    .stop socket killed
  | none =>
    match readEnvelope p with
    | .error _ => .crash socket []
    | .ok (_, responseTo, opCode) =>
      if opCode ≠ 1 then
        let (socket, killed) := kill socket "opcode != 1, corrupted data?"
        .stop socket killed
      else
        match readReply p with
        | .error _ => .crash socket []
        | .ok reply => dispatchReply socket responseTo reply

/-- The outer `for` of `readLoop`, run for at most the given number of
frames, with the trace so far. -/
def readLoop [Platform] : Nat → mongoSocket → List Call → LoopStep
  | 0, socket, calls => .unfinished socket calls
  | fuel + 1, socket, calls =>
    match readFrame socket with
    | .next socket more => readLoop fuel socket (calls ++ more)
    | .stop socket more => .stop socket (calls ++ more)
    | .crash socket more => .crash socket (calls ++ more)
    | .unfinished socket more => .unfinished socket (calls ++ more)

/-! ## Ownership (`newSocket`, `Acquired`, `Acquire`, `Release`, `Close`; lines 105-178) -/

/-- What `Release` does outside the socket once the last reference is gone:
`socket.LogoutAll()` and `server.RecycleSocket(socket)`.  Both methods are
in other files; they are recorded as effects and taken not to touch the
fields modelled here. -/
inductive Effect where
  | logoutAll
  | recycleSocket (server : Option Nat)
  deriving DecidableEq, Repr

/-- `socket.Acquired(server)`: panic on a socket that has an owner, return
the dead reason of a dead socket, panic on a cached socket with references,
otherwise take the server and the first reference.  The count is an `int`
and `references++` wraps at the largest `int`.  The result is `none` when
the call panics, else the socket afterwards and the returned error. -/
def Acquired [Platform] (socket : mongoSocket) (server : Option Nat) : Option (mongoSocket × Option String) :=
  match socket.server with
  | some _ => none
  | none =>
    match socket.dead with
    | some dead => some (socket, some dead)
    | none =>
      if socket.references > 0 then none
      else
        some ({ socket with server := server, references := toInt (socket.references + 1) },
          none)

/-- `socket.Acquire()`: panic without references, else one more reference;
`references++` wraps at the largest `int`.  `isMaster` is what
`socket.server.IsMaster()` reports (that method is in another file).  The
result is `none` when the call panics. -/
def Acquire [Platform] (socket : mongoSocket) (isMaster : Bool) : Option (mongoSocket × Bool) :=
  if socket.references = 0 then none
  else some ({ socket with references := toInt (socket.references + 1) }, isMaster)

/-- `socket.Release()`: panic without references, else one reference less
(`references--` wraps at the smallest `int`);
when none is left the server is cleared, the logouts are flushed and the
socket goes back to its server.  The result is `none` when the call panics,
else the socket afterwards and the outside effects in order. -/
def Release [Platform] (socket : mongoSocket) : Option (mongoSocket × List Effect) :=
  if socket.references = 0 then none
  else
    let socket := { socket with references := toInt (socket.references - 1) }
    if socket.references = 0 then
      let server := socket.server
      some ({ socket with server := none }, [.logoutAll, .recycleSocket server])
    else some (socket, [])

/-- `socket.Close()`. -/
def Close (socket : mongoSocket) : mongoSocket × List Call :=
  kill socket "Closed explicitly"

/-- `newSocket(server, conn)`: a socket on the connection with an empty
callback map, acquired for the server.  Reading `server.Addr` panics on a
nil server.  The nonce reset (another file) and the start of the reader are
not part of the value. -/
def newSocket [Platform] (server : Option Nat) (conn : TCPConn) : Option mongoSocket :=
  match server with
  | none => none
  | some srv =>
    let socket : mongoSocket :=
      { server := none, conn := conn, nextRequestId := 0, replyFuncs := ∅, references := 0,
        dead := none }
    match Acquired socket (some srv) with
    | none => none
    | some (socket, _) => some socket

/-! ## `SimpleQuery` (lines 200-219) -/

/-- The variables `SimpleQuery` shares with the callback it installs: the
local mutex and the two result variables. -/
structure Handoff where
  locked : Bool
  replyData : Option Bytes
  replyErr : Option String
  deriving DecidableEq, Repr

/-- The callback installed by `SimpleQuery` (lines 205-209), on one
invocation: it stores the data and the error it is given and unlocks the
mutex.  Unlocking a mutex that is not locked is a run-time error, the
result `none`. -/
def simpleReplyFunc (h : Handoff) (c : Call) : Option Handoff :=
  let h := { h with replyData := c.docData, replyErr := c.err }
  if h.locked then some { h with locked := false } else none

/-- The callback of `SimpleQuery` run on several invocations in a row. -/
def simpleReplies : Handoff → List Call → Option Handoff
  | h, [] => some h
  | h, c :: cs =>
    match simpleReplyFunc h c with
    | none => none
    | some h => simpleReplies h cs

/-- How a call of `SimpleQuery` ends: it returns data and an error, the
program stops on a run-time error, or the call waits for ever. -/
inductive SimpleResult where
  | returned (data : Option Bytes) (err : Option String)
  | panicked
  | blocked
  deriving DecidableEq, Repr

/-- `socket.SimpleQuery(op)`.  The closure it installs is the callback with
identifier `f`; `lops` and `writeErr` are as for `Query`.  The invocations
`Query` itself makes run first.  When `Query` returns no error the call
waits on the mutex: `early` are the invocations of the callback made by the
reader or by a kill before the wait ends, `late` those made between the end
of the wait and the reads of the result variables (the two reads are taken
as one step). -/
def SimpleQuery {Doc : Type} (Marshal : Option Doc → Except String Bytes) (socket : mongoSocket)
    (op : queryOp Doc) (f : replyFunc) (lops : List (Op Doc)) (writeErr : Option String)
    (early late : List Call) : SimpleResult :=
  let h : Handoff := { locked := true, replyData := none, replyErr := none }
  let op := { op with replyFunc := some f }
  match Query Marshal socket lops [.query op] writeErr with
  | none => .panicked
  | some r =>
    match simpleReplies h (r.calls.filter fun c => c.fn = f) with
    | none => .panicked
    | some h =>
      match r.err with
      | some err => .returned none (some err)
      | none =>
        match simpleReplies h early with
        | none => .panicked
        | some h =>
          if h.locked then .blocked
          else
            let h := { h with locked := true }
            match simpleReplies h late with
            | none => .panicked
            | some h =>
              match h.replyErr with
              | some err => .returned none (some err)
              | none => .returned h.replyData none

/-! ## Wire format as the protocol tables state it

These definitions follow the envelope and payload tables of the protocol,
independently of the code above; the theorems below compare the two. -/

/-- The four bytes of a 32-bit integer, least significant first. -/
def int32LE (i : Int) : Bytes :=
  [(i % 256).toNat, (i / 256 % 256).toNat, (i / 65536 % 256).toNat, (i / 16777216 % 256).toNat]

/-- The eight bytes of a 64-bit integer, least significant first. -/
def int64LE (i : Int) : Bytes :=
  [(i % 256).toNat, (i / 256 % 256).toNat, (i / 65536 % 256).toNat,
   (i / 16777216 % 256).toNat, (i / 4294967296 % 256).toNat,
   (i / 1099511627776 % 256).toNat, (i / 281474976710656 % 256).toNat,
   (i / 72057594037927936 % 256).toNat]

/-- The unsigned number a byte string denotes, least significant byte
first. -/
def leValue : Bytes → Nat
  | [] => 0
  | b :: bs => b + 256 * leValue bs

/-- Little-endian signed 32-bit field at `pos`, as a total function. -/
def int32At (b : Bytes) (pos : Nat) : Int :=
  toInt32 (leValue ((b.drop pos).take 4))

/-- Little-endian signed 64-bit field at `pos`, as a total function. -/
def int64At (b : Bytes) (pos : Nat) : Int :=
  toInt64 (leValue ((b.drop pos).take 8))

/-- Whether `bson.Marshal` accepts the document. -/
def marshals {Doc : Type} (Marshal : Option Doc → Except String Bytes) (d : Option Doc) : Bool :=
  match Marshal d with
  | .ok _ => true
  | .error _ => false

/-- The bytes `bson.Marshal` produces for the document (empty when it
fails). -/
def encoded {Doc : Type} (Marshal : Option Doc → Except String Bytes) (d : Option Doc) : Bytes :=
  match Marshal d with
  | .ok data => data
  | .error _ => []

/-- The opcode of an operation. -/
def Op.opcode {Doc : Type} : Op Doc → Int
  | .update _ => 2001
  | .insert _ => 2002
  | .query _ => 2004
  | .getMore _ => 2005
  | .delete _ => 2006

/-- The reply callback an operation carries (nil for update, insert and
delete, which have no such field). -/
def Op.callback {Doc : Type} : Op Doc → Option replyFunc
  | .update _ => none
  | .insert _ => none
  | .query op => op.replyFunc
  | .getMore op => op.replyFunc
  | .delete _ => none

/-- The documents embedded in an operation, in wire order; a query's
selector counts only when it is non-nil. -/
def Op.docs {Doc : Type} : Op Doc → List (Option Doc)
  | .update op => [op.selector, op.update]
  | .insert op => op.documents
  | .query op =>
    match op.selector with
    | some sel => [op.query, some sel]
    | none => [op.query]
  | .getMore _ => []
  | .delete op => [op.selector]

/-- All embedded documents of the operation encode successfully. -/
def Op.encodes {Doc : Type} (Marshal : Option Doc → Except String Bytes) (op : Op Doc) : Bool :=
  op.docs.all (marshals Marshal)

/-- The payload column of the opcode table. -/
def Op.payload {Doc : Type} (Marshal : Option Doc → Except String Bytes) : Op Doc → Bytes
  | .update op =>
    int32LE 0 ++ op.collection ++ [0] ++ int32LE op.flags ++
      encoded Marshal op.selector ++ encoded Marshal op.update
  | .insert op =>
    int32LE 0 ++ op.collection ++ [0] ++ (op.documents.map (encoded Marshal)).flatten
  | .query op =>
    int32LE op.flags ++ op.collection ++ [0] ++ int32LE op.skip ++ int32LE op.limit ++
      encoded Marshal op.query ++
      (match op.selector with
        | some sel => encoded Marshal (some sel)
        | none => [])
  | .getMore op =>
    int32LE 0 ++ op.collection ++ [0] ++ int32LE op.limit ++ int64LE op.cursorId
  | .delete op =>
    int32LE 0 ++ op.collection ++ [0] ++ int32LE op.flags ++ encoded Marshal op.selector

/-- A message of the protocol: the 16-byte header (total length, request
id, `responseTo` 0 as in every request, opcode) followed by the payload. -/
def frame (opcode : Int) (requestId : Nat) (payload : Bytes) : Bytes :=
  int32LE (16 + payload.length : Nat) ++ int32LE requestId ++ int32LE 0 ++ int32LE opcode ++
    payload

/-- The envelope of an operation carrying the given request id. -/
def envelope {Doc : Type} (Marshal : Option Doc → Except String Bytes) (op : Op Doc)
    (requestId : Nat) : Bytes :=
  frame op.opcode requestId (op.payload Marshal)

/-- The first id of a batch when the counter holds `next`: the counter plus
one, stepping over 0. -/
def firstId (next : Nat) : Nat :=
  if (next + 1) % 4294967296 = 0 then 1 else (next + 1) % 4294967296

/-- The callbacks of the reply-expecting ops of a batch, in input order. -/
def callbacks {Doc : Type} (ops : List (Op Doc)) : List replyFunc :=
  ops.filterMap Op.callback

/-- The batch on the wire when ids are handed out from `id` on: every op
with a callback takes the current id and steps it (modulo 2^32), every
other op carries id 0. -/
def wire {Doc : Type} (Marshal : Option Doc → Except String Bytes) :
    List (Op Doc) → Nat → Bytes
  | [], _ => []
  | op :: ops, id =>
    match op.callback with
    | some _ => envelope Marshal op id ++ wire Marshal ops ((id + 1) % 4294967296)
    | none => envelope Marshal op 0 ++ wire Marshal ops id

/-- The envelopes of the batch on the wire, one per op, with ids handed out
as in `wire`. -/
def wireEnvelopes {Doc : Type} (Marshal : Option Doc → Except String Bytes) :
    List (Op Doc) → Nat → List Bytes
  | [], _ => []
  | op :: ops, id =>
    match op.callback with
    | some _ => envelope Marshal op id :: wireEnvelopes Marshal ops ((id + 1) % 4294967296)
    | none => envelope Marshal op 0 :: wireEnvelopes Marshal ops id

/-- The callback map after registering the callbacks under consecutive ids
(modulo 2^32) starting at `id`. -/
def register : List replyFunc → Nat → ReplyMap → ReplyMap
  | [], _, m => m
  | f :: fs, id, m => register fs ((id + 1) % 4294967296) (m.insert id f)

/-- The trace of a failure fan-out: each callback once, with
`(err, nil, -1, nil)`. -/
def failCalls (fs : List replyFunc) (err : String) : List Call :=
  fs.map fun f => { fn := f, err := some err, reply := none, docNum := -1, docData := none }

/-- The batch as serialised before ids are assigned: every id field is 0. -/
def wireZero {Doc : Type} (Marshal : Option Doc → Except String Bytes)
    (ops : List (Op Doc)) : Bytes :=
  (ops.map fun op => envelope Marshal op 0).flatten

/-- The requests recorded for a batch whose first envelope starts at
`start`: one per op with a callback, at the offset where that op's envelope
begins. -/
def requestsFrom {Doc : Type} (Marshal : Option Doc → Except String Bytes) :
    Nat → List (Op Doc) → List requestInfo
  | _, [] => []
  | start, op :: ops =>
    (match op.callback with
      | some f => [{ bufferPos := start, replyFunc := f }]
      | none => []) ++
      requestsFrom Marshal (start + (envelope Marshal op 0).length) ops

/-! ## Documents of package `bson` (`gobson_test.go`, lines 57-62) -/

/-- `binary.LittleEndian.PutUint32(b, v)` on a buffer of at least four
bytes: the first four bytes become those of the `uint32` `v`, least
significant first. -/
def putUint32 (b : Bytes) (v : Nat) : Bytes :=
  [v % 256, v / 256 % 256, v / 65536 % 256, v / 16777216 % 256] ++ b.drop 4

/-- `wrapInDoc(data)` of the test suite: a zeroed buffer of `len(data) + 5`
bytes, its length stored as a `uint32` at the front, and `data` copied in
from offset 4. -/
def wrapInDoc (data : Bytes) : Bytes :=
  let result := List.replicate (data.length + 5) 0
  let result := putUint32 result ((data.length + 5) % 4294967296)
  result.take 4 ++ data ++ result.drop (4 + data.length)

/-- A value handed to `bson.Marshal` as the document root: a raw view
`bson.Raw` with its kind and data, or any other value. -/
inductive Root (V : Type) where
  | raw (kind : Nat) (data : Bytes)
  | value (v : V)

/-- Modelled from the spec: the document encoder of package `bson` is not
among the sources, only its tests are.  The document codec is described
as: reserve 4 bytes, write the elements, append 0x00, patch the front with
the final length, an `int32`. -/
def bson.encodeDocument (elements : Bytes) : Bytes :=
  let buf := [0, 0, 0, 0] ++ elements ++ [0]
  int32LE (toInt32 (buf.length : Nat)) ++ buf.drop 4

/-- Modelled from the spec: `bson.Marshal` is not among the sources, only
its tests are.  A raw view of kind 0x03 at the root is emitted verbatim
(the test table `marshalItems` has the zero kind emitted verbatim as well),
a raw view of another kind fails, and any other root is encoded as the
document of its elements.  The element codec is the parameter `elements`:
the element bytes of a root value, or the error of encoding it. -/
def bson.Marshal {V : Type} (elements : V → Except String Bytes) : Root V → Except String Bytes
  | .raw kind data =>
    if kind = 3 ∨ kind = 0 then .ok data
    else .error ("Attempted to unmarshal Raw kind " ++ toString kind ++ " as a document")
  | .value v =>
    match elements v with
    | .error err => .error err
    | .ok body => .ok (bson.encodeDocument body)

/-! ## Concrete inputs for the worked instances -/

/-- A stand-in for `bson.Marshal` over documents named by numbers: document
`n` encodes as a frame with `n` filler bytes, the nil document is
rejected. -/
def sampleMarshal : Option Nat → Except String Bytes
  | none => .error "Can't marshal <nil> as a BSON document"
  | some n => .ok (int32LE (n + 5 : Nat) ++ List.replicate n 1 ++ [0])

/-- A socket owned by server 1 with one reference and an idle connection. -/
def sampleSocket (next : Nat) (fs : ReplyMap) (dead : Option String) : mongoSocket :=
  { server := some 1, conn := { incoming := [], readErr := "EOF", written := [], closed := false },
    nextRequestId := next, replyFuncs := fs, references := 1, dead := dead }

/-- A get-more op on collection "a" with the given callback. -/
def sampleGetMore (f : Option replyFunc) : Op Nat :=
  .getMore { collection := [97], limit := 3, cursorId := -2, replyFunc := f }

/-- A query op on collection "a" with the given callback. -/
def sampleQuery (f : Option replyFunc) : Op Nat :=
  .query { collection := [97], query := some 1, skip := 2, limit := 3, selector := none,
           flags := 4, replyFunc := f }

/-- An insert op on collection "a" with two documents. -/
def sampleInsert : Op Nat :=
  .insert { collection := [97], documents := [some 1, some 2] }

/-! ## Reply frames as the protocol table states them -/

/-- The reply fields of a 36-byte reply header: after the 16-byte envelope
come flags (`int32`, kept as `uint32`), cursor id (`int64`), first document
(`int32`) and document count (`int32`). -/
def replyOf (p : Bytes) : replyOp :=
  { flags := toUint32 (int32At p 16), cursorId := int64At p 20, firstDoc := int32At p 28,
    replyDocs := int32At p 32 }

/-- A framed document on the stream: at least the four length bytes, and
the little-endian `int32` they hold is the length of the whole document. -/
def framedDoc (d : Bytes) : Prop :=
  isBytes d ∧ 4 ≤ d.length ∧ int32At d 0 = (d.length : Int)

instance (d : Bytes) : Decidable (framedDoc d) := by unfold framedDoc; infer_instance

/-- The calls that deliver the documents `docs` of a reply to callback `f`,
numbered consecutively from `i` as the `int` counter of the loop counts:
the number after the largest `int` is the smallest. -/
def docCalls [Platform] (f : replyFunc) (reply : replyOp) : Int → List Bytes → List Call
  | _, [] => []
  | i, d :: ds =>
    { fn := f, err := none, reply := some reply, docNum := i, docData := some d } ::
      docCalls f reply (toInt (i + 1)) ds

/-- The calls that deliver a whole reply to callback `f`: one call with
document number -1 and no data when the reply has no documents, otherwise
one call per document, numbered from 0. -/
def replyCalls [Platform] (f : replyFunc) (reply : replyOp) : List Bytes → List Call
  | [] => [{ fn := f, err := none, reply := some reply, docNum := -1, docData := none }]
  | d :: ds => docCalls f reply 0 (d :: ds)

/-- The callback trace of a reader step. -/
def LoopStep.calls : LoopStep → List Call
  | .next _ calls => calls
  | .stop _ calls => calls
  | .crash _ calls => calls
  | .unfinished _ calls => calls

/-- The socket at the end of a reader step. -/
def LoopStep.socket : LoopStep → mongoSocket
  | .next socket _ => socket
  | .stop socket _ => socket
  | .crash socket _ => socket
  | .unfinished socket _ => socket

/-- The connection `c2` is `c` after `k` bytes were read from it. -/
def TCPConn.advanced (c c2 : TCPConn) (k : Nat) : Prop :=
  c2.incoming.flatten = c.incoming.flatten.drop k ∧ c2.readErr = c.readErr ∧
    c2.written = c.written ∧ c2.closed = c.closed

/-- A reply header: response to request `r`, opcode 1, flags 8, cursor id
2^63 + 9 as an unsigned pattern, first document 0, `n` documents. -/
def sampleHeader (r n : Nat) : Bytes :=
  [0, 0, 0, 0, 0, 0, 0, 0, r, 0, 0, 0, 1, 0, 0, 0,
   8, 0, 0, 0, 9, 0, 0, 0, 0, 0, 0, 128, 0, 0, 0, 0, n, 0, 0, 0]

/-- A live socket with callbacks 33 and 44 registered under ids 3 and 4,
whose connection will deliver the given chunks. -/
def sampleReader (chunks : List Bytes) : mongoSocket :=
  { server := some 1,
    conn := { incoming := chunks, readErr := "EOF", written := [], closed := false },
    nextRequestId := 4, replyFuncs := ((∅ : ReplyMap).insert 3 33).insert 4 44,
    references := 1, dead := none }


/-! ## Sequences of socket calls -/

/-- The socket after one `Acquire` per entry of the list, the entries being
the answers of `IsMaster`; `none` when one of the calls panics. -/
def acquireEach [Platform] : List Bool → mongoSocket → Option mongoSocket
  | [], socket => some socket
  | b :: bs, socket =>
    match Acquire socket b with
    | none => none
    | some (socket, _) => acquireEach bs socket

/-- The socket after `k` calls of `Release` and the outside effects of all
of them, in order; `none` when one of the calls panics. -/
def releaseTimes [Platform] : Nat → mongoSocket → Option (mongoSocket × List Effect)
  | 0, socket => some (socket, [])
  | k + 1, socket =>
    match Release socket with
    | none => none
    | some (socket, effects) =>
      match releaseTimes k socket with
      | none => none
      | some (socket, more) => some (socket, effects ++ more)

/-- One call on the socket from outside, with what the environment
contributes to it. -/
inductive SocketCall (Doc : Type) where
  | acquired (server : Nat)
  | acquire (isMaster : Bool)
  | release
  | kill (err : String)
  | close
  | query (lops ops : List (Op Doc)) (writeErr : Option String)

/-- The socket after the call; `none` when the call panics. -/
def SocketCall.apply [Platform] {Doc : Type} (Marshal : Option Doc → Except String Bytes) :
    SocketCall Doc → mongoSocket → Option mongoSocket
  | .acquired server, socket => (Acquired socket (some server)).map Prod.fst
  | .acquire isMaster, socket => (Acquire socket isMaster).map Prod.fst
  | .release, socket => (Release socket).map Prod.fst
  | .kill err, socket => some (Mgo.kill socket err).1
  | .close, socket => some (Mgo.Close socket).1
  | .query lops ops writeErr, socket => (Mgo.Query Marshal socket lops ops writeErr).map QueryResult.socket

/-- The socket after a sequence of calls; `none` when one of them
panics. -/
def applyCalls [Platform] {Doc : Type} (Marshal : Option Doc → Except String Bytes) :
    List (SocketCall Doc) → mongoSocket → Option mongoSocket
  | [], socket => some socket
  | call :: calls, socket =>
    match call.apply Marshal socket with
    | none => none
    | some socket => applyCalls Marshal calls socket

/-- The number of `Acquire` calls in a sequence of calls. -/
def acquires {Doc : Type} : List (SocketCall Doc) → Nat
  | [] => 0
  | .acquire _ :: calls => acquires calls + 1
  | _ :: calls => acquires calls

/-- The ownership invariant: the reference count is not negative, and the
socket has an owning server exactly when it has references. -/
def owned (socket : mongoSocket) : Prop :=
  0 ≤ socket.references ∧ (socket.server.isSome ↔ 0 < socket.references)

instance (socket : mongoSocket) : Decidable (owned socket) := by unfold owned; infer_instance

/-- An idle connection. -/
def sampleConn : TCPConn :=
  { incoming := [], readErr := "EOF", written := [], closed := false }

/-- A cached socket: live, no owner, no references. -/
def sampleCached : mongoSocket :=
  { server := none, conn := sampleConn, nextRequestId := 7, replyFuncs := ∅, references := 0,
    dead := none }

/-- A one-document command query without a callback of its own. -/
def sampleCommand : queryOp Nat :=
  { collection := [97], query := some 1, skip := 0, limit := -1, selector := none, flags := 0,
    replyFunc := none }

/-- An element codec over roots that are either nothing, which is
rejected, or a byte string, whose elements are the string itself. -/
def sampleElements : Option Bytes → Except String Bytes
  | none => .error "Can't marshal <nil> as a BSON document"
  | some v => .ok v


/-- The calls that deliver the documents `docs` of a reply, numbered from
`i`, to the callback found for it, if any. -/
def deliveries [Platform] (f : Option replyFunc) (reply : replyOp) (i : Int) (docs : List Bytes) :
    List Call :=
  match f with
  | some g => docCalls g reply i docs
  | none => []


/-! ## Object ids of package `bson` -/

/-- Modelled from the spec: `hex.DecodeString` as used by `bson.ObjectIdHex`
is not among the sources.  The value of one hexadecimal digit. -/
def bson.hexDigit (c : Char) : Option Nat :=
  if '0' ≤ c ∧ c ≤ '9' then some (c.toNat - 48)
  else if 'a' ≤ c ∧ c ≤ 'f' then some (c.toNat - 87)
  else if 'A' ≤ c ∧ c ≤ 'F' then some (c.toNat - 55)
  else none

/-- Modelled from the spec: the bytes that a string of hexadecimal digits
denotes, two digits per byte; `none` when a character is no digit or a
digit is left over. -/
def bson.hexBytes : List Char → Option Bytes
  | [] => some []
  | [_] => none
  | c :: d :: rest =>
    match bson.hexDigit c, bson.hexDigit d, bson.hexBytes rest with
    | some hi, some lo, some bs => some ((16 * hi + lo) :: bs)
    | _, _, _ => none

/-- Modelled from the spec: `bson.ObjectIdHex` is not among the sources,
only its tests are.  The object id written as 24 hexadecimal digits;
`none` is the panic on any other string. -/
def bson.ObjectIdHex (s : String) : Option Bytes :=
  match bson.hexBytes s.toList with
  | some id => if id.length = 12 then some id else none
  | none => none

/-- Modelled from the spec: `ObjectId.Timestamp` is not among the sources,
only its tests are.  The first four bytes, combined most significant first
in 32-bit arithmetic and returned as an `int32`; `none` is the panic on an
id that is too short. -/
def bson.ObjectId.Timestamp (id : Bytes) : Option Int :=
  match id with
  | b0 :: b1 :: b2 :: b3 :: _ =>
    some (toInt32 ((b3 ||| (b2 <<< 8) ||| (b1 <<< 16) ||| (b0 <<< 24) : Nat) : Int))
  | _ => none

/-- Modelled from the spec: `ObjectId.Machine` is not among the sources.
The slice `id[4:7]`. -/
def bson.ObjectId.Machine (id : Bytes) : Option Bytes :=
  if 7 ≤ id.length then some ((id.drop 4).take 3) else none

/-- Modelled from the spec: `ObjectId.Pid` is not among the sources.  The
bytes 7 and 8, combined most significant first as a `uint16`. -/
def bson.ObjectId.Pid (id : Bytes) : Option Nat :=
  match id.drop 7 with
  | b0 :: b1 :: _ => some ((b1 ||| (b0 <<< 8)) % 65536)
  | _ => none

/-- Modelled from the spec: `ObjectId.Counter` is not among the sources.
The bytes 9 to 11, combined most significant first in 32-bit arithmetic and
returned as an `int32`. -/
def bson.ObjectId.Counter (id : Bytes) : Option Int :=
  match id.drop 9 with
  | b0 :: b1 :: b2 :: _ => some (toInt32 (((b0 <<< 16) ||| (b1 <<< 8) ||| b2 : Nat) : Int))
  | _ => none

/-- The unsigned number a byte string denotes, most significant byte
first. -/
def beValue (b : Bytes) : Nat :=
  b.foldl (fun acc x => 256 * acc + x) 0

/-! ## The element codec of package `bson`

Package `bson` is not among the sources; only its test suite is.  The
definitions of this section and of the next are modelled from the
description of the codec: the table of element kinds, the kind mapping on
encode and the rules of the document codec. -/

mutual
/-- Modelled from the spec: the values of package `bson` that the table of
every type lists as two-way, as they sit in a `bson.M` (values of interface
type).  A `float64` is its 64-bit pattern, a string or byte slice is its
bytes, a `Timestamp` is a number of nanoseconds, an `int` has 32 bits. -/
inductive bson.Value where
  | float64 (bits : Nat)
  | string (s : Bytes)
  | document (m : bson.M)
  | array (items : bson.Items)
  | bytes (data : Bytes)
  | binary (kind : Nat) (data : Bytes)
  | undefined
  | objectId (id : Bytes)
  | bool (b : Bool)
  | timestamp (ns : Int)
  | null
  | regEx (pattern options : Bytes)
  | js (code : Bytes)
  | jsScope (code : Bytes) (scope : bson.M)
  | symbol (s : Bytes)
  | int (i : Int)
  | mongoTimestamp (t : Int)
  | int64 (i : Int)
  | maxKey
  | minKey
/-- Modelled from the spec: a map document `bson.M`, listed entry by entry
in the order in which the encoder ranges over it (Go leaves that order
open; the keys of a map are distinct). -/
inductive bson.M where
  | nil
  | cons (key : Bytes) (v : bson.Value) (rest : bson.M)
/-- Modelled from the spec: a slice `[]interface{}`. -/
inductive bson.Items where
  | nil
  | cons (v : bson.Value) (rest : bson.Items)
end

/-- Modelled from the spec: the type byte of a value (table of element
kinds and kind mapping on encode). -/
def bson.Value.kind : bson.Value → Nat
  | .float64 _ => 0x01
  | .string _ => 0x02
  | .document _ => 0x03
  | .array _ => 0x04
  | .bytes _ => 0x05
  | .binary _ _ => 0x05
  | .undefined => 0x06
  | .objectId _ => 0x07
  | .bool _ => 0x08
  | .timestamp _ => 0x09
  | .null => 0x0A
  | .regEx _ _ => 0x0B
  | .js _ => 0x0D
  | .jsScope _ _ => 0x0F
  | .symbol _ => 0x0E
  | .int _ => 0x10
  | .mongoTimestamp _ => 0x11
  | .int64 _ => 0x12
  | .maxKey => 0x7F
  | .minKey => 0xFF

/-- Modelled from the spec: the decimal digits of an array index, most
significant first; the first argument bounds the number of digits. -/
def bson.itoaLoop : Nat → Nat → Bytes → Bytes
  | 0, _, acc => acc
  | fuel + 1, n, acc =>
    if n < 10 then (48 + n) :: acc else bson.itoaLoop fuel (n / 10) ((48 + n % 10) :: acc)

/-- Modelled from the spec: the key of the array element with index `n`:
"0", "1", and so on. -/
def bson.itoa (n : Nat) : Bytes :=
  bson.itoaLoop (n + 1) n []

/-- Modelled from the spec: a string payload: the `int32` length, which
counts the trailing NUL, then the bytes, then NUL. -/
def bson.stringPayload (s : Bytes) : Bytes :=
  int32LE (toInt32 ((s.length + 1 : Nat) : Int)) ++ s ++ [0]

mutual
/-- Modelled from the spec: the payload of a value, by the table of element
kinds.  A millisecond timestamp is the nanoseconds divided by 10^6; binary
subtype 0x02 carries the extra inner length; an object id that does not
have 12 bytes is an error. -/
def bson.Value.payload : bson.Value → Except String Bytes
  | .float64 bits => .ok (int64LE (bits : Int))
  | .string s => .ok (bson.stringPayload s)
  | .document m => do
      let body ← m.elements
      pure (bson.encodeDocument body)
  | .array items => do
      let body ← items.elements 0
      pure (bson.encodeDocument body)
  | .bytes data => .ok (int32LE (toInt32 (data.length : Nat)) ++ [0] ++ data)
  | .binary kind data =>
    if kind = 2 then
      .ok (int32LE (toInt32 ((data.length + 4 : Nat) : Int)) ++ [2] ++
        int32LE (toInt32 (data.length : Nat)) ++ data)
    else .ok (int32LE (toInt32 (data.length : Nat)) ++ [kind] ++ data)
  | .undefined => .ok []
  | .objectId id =>
    if id.length = 12 then .ok id
    else .error ("ObjectIDs must be exactly 12 bytes long (got " ++ toString id.length ++ ")")
  | .bool b => .ok [if b then 1 else 0]
  | .timestamp ns => .ok (int64LE (Int.tdiv ns 1000000))
  | .null => .ok []
  | .regEx pattern options => .ok (pattern ++ [0] ++ options ++ [0])
  | .js code => .ok (bson.stringPayload code)
  | .jsScope code scope => do
      let body ← scope.elements
      let rest := bson.stringPayload code ++ bson.encodeDocument body
      pure (int32LE (toInt32 ((rest.length + 4 : Nat) : Int)) ++ rest)
  | .symbol s => .ok (bson.stringPayload s)
  | .int i => .ok (int32LE i)
  | .mongoTimestamp t => .ok (int64LE t)
  | .int64 i => .ok (int64LE i)
  | .maxKey => .ok []
  | .minKey => .ok []
/-- Modelled from the spec: the elements of a map document: for each entry
the type byte, the key as a C-string, and the payload. -/
def bson.M.elements : bson.M → Except String Bytes
  | .nil => .ok []
  | .cons key v rest => do
      let p ← v.payload
      let more ← rest.elements
      pure ([v.kind] ++ key ++ [0] ++ p ++ more)
/-- Modelled from the spec: the elements of an array: as for a document,
with the decimal indices as keys, counted from the given index. -/
def bson.Items.elements : Nat → bson.Items → Except String Bytes
  | _, .nil => .ok []
  | i, .cons v rest => do
      let p ← v.payload
      let more ← rest.elements (i + 1)
      pure ([v.kind] ++ bson.itoa i ++ [0] ++ p ++ more)
end

/-! ## The decoder of package `bson` -/

/-- The one error of every framing inconsistency. -/
def bson.corrupted : String := "Document is corrupted"

/-- Modelled from the spec: take `n` bytes from what is left of the
frame. -/
def bson.readBytes (n : Nat) (b : Bytes) : Except String (Bytes × Bytes) :=
  if n ≤ b.length then .ok (b.take n, b.drop n) else .error bson.corrupted

/-- Modelled from the spec: take a little-endian `int32`. -/
def bson.readInt32 (b : Bytes) : Except String (Int × Bytes) :=
  if 4 ≤ b.length then .ok (int32At b 0, b.drop 4) else .error bson.corrupted

/-- Modelled from the spec: take a little-endian `int64`. -/
def bson.readInt64 (b : Bytes) : Except String (Int × Bytes) :=
  if 8 ≤ b.length then .ok (int64At b 0, b.drop 8) else .error bson.corrupted

/-- Modelled from the spec: take a C-string: the bytes up to the first NUL
inside the frame, and the NUL. -/
def bson.readCStr : Bytes → Except String (Bytes × Bytes)
  | [] => .error bson.corrupted
  | x :: rest =>
    if x = 0 then .ok ([], rest)
    else
      match bson.readCStr rest with
      | .error e => .error e
      | .ok (s, after) => .ok (x :: s, after)

/-- Modelled from the spec: take a string: the length, that many bytes less
one, and a NUL. -/
def bson.readStr (b : Bytes) : Except String (Bytes × Bytes) :=
  match bson.readInt32 b with
  | .error e => .error e
  | .ok (l, b) =>
    if l < 1 then .error bson.corrupted
    else
      match bson.readBytes (l - 1).toNat b with
      | .error e => .error e
      | .ok (s, b) =>
        match b with
        | 0 :: rest => .ok (s, rest)
        | _ => .error bson.corrupted

/-- Modelled from the spec: take a framed document: the length must be at
least 5 and at most what is left, the last byte of the frame must be 0x00,
and the bytes between are handed to the reader of elements, which must use
them up. -/
def bson.readDoc (elems : Bytes → Except String bson.M) (b : Bytes) :
    Except String (bson.M × Bytes) :=
  match bson.readInt32 b with
  | .error e => .error e
  | .ok (n, _) =>
    if n < 5 ∨ (b.length : Int) < n then .error bson.corrupted
    else if (b.take n.toNat).getLast? ≠ some 0 then .error bson.corrupted
    else
      match elems (((b.take n.toNat).drop 4).dropLast) with
      | .error e => .error e
      | .ok m => .ok (m, b.drop n.toNat)

/-- The values of a document in order, without the keys. -/
def bson.M.items : bson.M → bson.Items
  | .nil => .nil
  | .cons _ v rest => .cons v rest.items

/-- Two hexadecimal digits for a byte. -/
def bson.hexByte (k : Nat) : String :=
  String.mk ["0123456789ABCDEF".toList.getD (k / 16 % 16) '0',
             "0123456789ABCDEF".toList.getD (k % 16) '0']

/-- Modelled from the spec: decode the payload of an element of the given
kind into a value of interface type.  Binary data of subtype 0x00 or 0x02
surfaces as a byte slice; a millisecond timestamp is multiplied by 10^6;
an array is read as a document whose keys are dropped; the total length of
code with scope must agree with what is read; an unknown kind is its own
error. -/
def bson.readElem (doc : Bytes → Except String (bson.M × Bytes)) (kind : Nat) (b : Bytes) :
    Except String (bson.Value × Bytes) :=
  if kind = 0x01 then
    match bson.readBytes 8 b with
    | .error e => .error e
    | .ok (bits, b) => .ok (.float64 (leValue bits), b)
  else if kind = 0x02 then
    match bson.readStr b with
    | .error e => .error e
    | .ok (s, b) => .ok (.string s, b)
  else if kind = 0x03 then
    match doc b with
    | .error e => .error e
    | .ok (m, b) => .ok (.document m, b)
  else if kind = 0x04 then
    match doc b with
    | .error e => .error e
    | .ok (m, b) => .ok (.array m.items, b)
  else if kind = 0x05 then
    match bson.readInt32 b with
    | .error e => .error e
    | .ok (l, b) =>
      match b with
      | [] => .error bson.corrupted
      | subtype :: b =>
        if l < 0 then .error bson.corrupted
        else if subtype = 2 then
          match bson.readInt32 b with
          | .error e => .error e
          | .ok (inner, b) =>
            if inner ≠ l - 4 ∨ inner < 0 then .error bson.corrupted
            else
              match bson.readBytes inner.toNat b with
              | .error e => .error e
              | .ok (data, b) => .ok (.bytes data, b)
        else
          match bson.readBytes l.toNat b with
          | .error e => .error e
          | .ok (data, b) =>
            if subtype = 0 then .ok (.bytes data, b) else .ok (.binary subtype data, b)
  else if kind = 0x06 then .ok (.undefined, b)
  else if kind = 0x07 then
    match bson.readBytes 12 b with
    | .error e => .error e
    | .ok (id, b) => .ok (.objectId id, b)
  else if kind = 0x08 then
    match b with
    | [] => .error bson.corrupted
    | x :: b => .ok (.bool (x = 1), b)
  else if kind = 0x09 then
    match bson.readInt64 b with
    | .error e => .error e
    | .ok (ms, b) => .ok (.timestamp (toInt64 (ms * 1000000)), b)
  else if kind = 0x0A then .ok (.null, b)
  else if kind = 0x0B then
    match bson.readCStr b with
    | .error e => .error e
    | .ok (pattern, b) =>
      match bson.readCStr b with
      | .error e => .error e
      | .ok (options, b) => .ok (.regEx pattern options, b)
  else if kind = 0x0D then
    match bson.readStr b with
    | .error e => .error e
    | .ok (code, b) => .ok (.js code, b)
  else if kind = 0x0E then
    match bson.readStr b with
    | .error e => .error e
    | .ok (s, b) => .ok (.symbol s, b)
  else if kind = 0x0F then
    match bson.readInt32 b with
    | .error e => .error e
    | .ok (total, after) =>
      match bson.readStr after with
      | .error e => .error e
      | .ok (code, after) =>
        match doc after with
        | .error e => .error e
        | .ok (scope, after) =>
          if ((b.length : Int) - (after.length : Int)) ≠ total then .error bson.corrupted
          else .ok (.jsScope code scope, after)
  else if kind = 0x10 then
    match bson.readInt32 b with
    | .error e => .error e
    | .ok (i, b) => .ok (.int i, b)
  else if kind = 0x11 then
    match bson.readInt64 b with
    | .error e => .error e
    | .ok (t, b) => .ok (.mongoTimestamp t, b)
  else if kind = 0x12 then
    match bson.readInt64 b with
    | .error e => .error e
    | .ok (i, b) => .ok (.int64 i, b)
  else if kind = 0x7F then .ok (.maxKey, b)
  else if kind = 0xFF then .ok (.minKey, b)
  else .error ("Unknown element kind (0x" ++ bson.hexByte kind ++ ")")

/-- Modelled from the spec: read the elements of a frame until its bytes
are used up: type byte, key, payload.  A 0x00 where a type byte is due ends
the document before the end of its frame, which is corruption.  The first
argument bounds the number of elements and the depth of nesting; the length
of the input is enough. -/
def bson.readElems : Nat → Bytes → Except String bson.M
  | _, [] => .ok .nil
  | 0, _ :: _ => .error "bson.readElems: bound too small"
  | fuel + 1, kind :: b =>
    if kind = 0 then .error bson.corrupted
    else
      match bson.readCStr b with
      | .error e => .error e
      | .ok (key, b) =>
        match bson.readElem (bson.readDoc (bson.readElems fuel)) kind b with
        | .error e => .error e
        | .ok (v, b) =>
          match bson.readElems fuel b with
          | .error e => .error e
          | .ok rest => .ok (.cons key v rest)

/-- The target of `bson.Unmarshal`: a `bson.M`, or a pointer to a struct
with the given field names. -/
inductive bson.Target where
  | map
  | structPtr (fields : List Bytes)

/-- The entries of a document whose keys are among the given names. -/
def bson.M.select (fields : List Bytes) : bson.M → bson.M
  | .nil => .nil
  | .cons key v rest =>
    if key ∈ fields then .cons key v (rest.select fields) else rest.select fields

/-- Modelled from the spec: `bson.Unmarshal` is not among the sources, only
its tests are.  The document at the front of the input is decoded; a map
target receives every entry, a struct target the entries that match one of
its fields (conversions to the field types are not modelled).  The result
is the content of the target afterwards. -/
def bson.Unmarshal (b : Bytes) (target : bson.Target) : Except String bson.M :=
  match bson.readDoc (bson.readElems b.length) b with
  | .error e => .error e
  | .ok (m, _) =>
    match target with
    | .map => .ok m
    | .structPtr fields => .ok (m.select fields)

/-! ## Two-way values -/

/-- The number of entries of a document. -/
def bson.M.length : bson.M → Nat
  | .nil => 0
  | .cons _ _ rest => rest.length + 1

/-- A document followed by the entries of another. -/
def bson.M.append : bson.M → bson.M → bson.M
  | .nil, m => m
  | .cons key v rest, m => .cons key v (rest.append m)

/-- A byte string without a NUL byte, as a C-string requires. -/
def noNul (s : Bytes) : Bool :=
  s.all fun x => x != 0

mutual
/-- The values that fit their Go types and that the codec takes both ways:
a `float64` pattern has 64 bits, an object id has 12 bytes, `int` and
`int64` values are in range, a binary subtype is neither 0x00 nor 0x02, a
timestamp is a whole number of milliseconds (and in the `int64` range), a
regular expression has no NUL byte in its pattern or its options, and so
for the values inside a document, a scope or an array, whose keys have no
NUL byte either. -/
def bson.Value.twoWay : bson.Value → Bool
  | .float64 bits => decide (bits < 18446744073709551616)
  | .string _ => true
  | .document m => m.twoWay
  | .array items => items.twoWay
  | .bytes _ => true
  | .binary kind _ => decide (kind ≠ 0) && decide (kind ≠ 2)
  | .undefined => true
  | .objectId id => decide (id.length = 12)
  | .bool _ => true
  | .timestamp ns => decide (isInt64 ns) && decide (ns % 1000000 = 0)
  | .null => true
  | .regEx pattern options => noNul pattern && noNul options
  | .js _ => true
  | .jsScope _ scope => scope.twoWay
  | .symbol _ => true
  | .int i => decide (isInt32 i)
  | .mongoTimestamp t => decide (isInt64 t)
  | .int64 i => decide (isInt64 i)
  | .maxKey => true
  | .minKey => true
/-- Every key is free of NUL bytes and every value is two-way. -/
def bson.M.twoWay : bson.M → Bool
  | .nil => true
  | .cons key v rest => noNul key && v.twoWay && rest.twoWay
/-- Every item is two-way. -/
def bson.Items.twoWay : bson.Items → Bool
  | .nil => true
  | .cons v rest => v.twoWay && rest.twoWay
end

/-- The result of reading further entries, put behind the entries `m`. -/
def bson.M.before (m : bson.M) : Except String bson.M → Except String bson.M
  | .ok more => .ok (m.append more)
  | .error e => .error e

/-! ## Ill-framed documents -/

/-- The bytes between the length at the front of a frame and the 0x00 at
its end, where the elements are. -/
def bson.frameBody (b : Bytes) : Bytes :=
  ((b.take (int32At b 0).toNat).drop 4).dropLast

/-- The elements of the frame at the front of `b` are the bytes `body`. -/
structure bson.HasBody (b body : Bytes) : Prop where
  eq : bson.frameBody b = body

/-- The decoder, given the bytes `good` alone, reads them as the elements
of a frame without error: they are the entries `m`. -/
def bson.readsAs (good : Bytes) (m : bson.M) : Prop :=
  bson.readElems good.length good = .ok m

/-- The byte strings that are not a well-framed document, by the first
defect the decoder meets.  The first four are defects of the frame.  The
last three are a defective element: the elements `good` before it in the
frame are such that the decoder, given them alone, reads them without
error; the defect is that of the element itself, or of the frame of the
sub-document or array that the element holds, to any depth. -/
inductive bson.IllFramed : Bytes → Prop where
  /-- Fewer than four bytes. -/
  | tooShort (b : Bytes) : b.length < 4 → bson.IllFramed b
  /-- A length below 5 at the front. -/
  | lengthBelow5 (b : Bytes) : int32At b 0 < 5 → bson.IllFramed b
  /-- A length at the front larger than the bytes available. -/
  | lengthPastInput (b : Bytes) : (b.length : Int) < int32At b 0 → bson.IllFramed b
  /-- A last byte of the frame other than 0x00. -/
  | lastNotNul (b : Bytes) :
      (b.take (int32At b 0).toNat).getLast? ≠ some 0 → bson.IllFramed b
  /-- An element whose key has no NUL inside the frame. -/
  | keyWithoutNul (b good : Bytes) (m : bson.M) (kind : Nat) (rest : Bytes) :
      bson.readsAs good m → noNul rest = true →
      bson.HasBody b (good ++ kind :: rest) → bson.IllFramed b
  /-- A string, a piece of code or a symbol whose last byte is not NUL. -/
  | stringNotNul (b good : Bytes) (m : bson.M) (kind : Nat) (key s : Bytes) (x : Nat)
      (rest : Bytes) :
      bson.readsAs good m →
      (kind = 0x02 ∨ kind = 0x0D ∨ kind = 0x0E) → noNul key = true → x ≠ 0 →
      bson.HasBody b
        (good ++ ([kind] ++ key ++ [0] ++ int32LE ((s.length + 1 : Nat) : Int) ++ s ++ x :: rest)) →
      bson.IllFramed b
  /-- A sub-document or an array that is itself not a well-framed document
  of the bytes that are left of the enclosing frame; so one whose own
  length is larger than what is left. -/
  | nested (b good : Bytes) (m : bson.M) (kind : Nat) (key rest : Bytes) :
      bson.readsAs good m →
      (kind = 0x03 ∨ kind = 0x04) → noNul key = true → bson.IllFramed rest →
      bson.HasBody b (good ++ ([kind] ++ key ++ [0] ++ rest)) → bson.IllFramed b

/-! ## Lemmas: the byte-level codec -/

theorem lor_shift (a b k : Nat) (h : a < 2 ^ k) : a ||| (b <<< k) = a + 2 ^ k * b := by
  rw [Nat.lor_comm, Nat.shiftLeft_eq, Nat.mul_comm, ← Nat.mul_add_lt_is_or h]; omega

theorem toByte_lt (x : Int) : toByte x < 256 := by
  unfold toByte; omega

theorem shr8 (i : Int) : i >>> (8 : Nat) = i / 256 := by
  rw [Int.shiftRight_eq_div_pow]; norm_num

theorem shr16 (i : Int) : i >>> (16 : Nat) = i / 65536 := by
  rw [Int.shiftRight_eq_div_pow]; norm_num

theorem shr24 (i : Int) : i >>> (24 : Nat) = i / 16777216 := by
  rw [Int.shiftRight_eq_div_pow]; norm_num

theorem shr32 (i : Int) : i >>> (32 : Nat) = i / 4294967296 := by
  rw [Int.shiftRight_eq_div_pow]; norm_num

theorem shr40 (i : Int) : i >>> (40 : Nat) = i / 1099511627776 := by
  rw [Int.shiftRight_eq_div_pow]; norm_num

theorem shr48 (i : Int) : i >>> (48 : Nat) = i / 281474976710656 := by
  rw [Int.shiftRight_eq_div_pow]; norm_num

theorem shr56 (i : Int) : i >>> (56 : Nat) = i / 72057594037927936 := by
  rw [Int.shiftRight_eq_div_pow]; norm_num

theorem addInt32_eq (b : Bytes) (i : Int) : addInt32 b i = b ++ int32LE i := by
  simp only [addInt32, int32LE, toByte, shr8, shr16, shr24]

theorem addInt64_eq (b : Bytes) (i : Int) : addInt64 b i = b ++ int64LE i := by
  simp only [addInt64, int64LE, toByte, shr8, shr16, shr24, shr32, shr40, shr48, shr56]

theorem int32LE_length (i : Int) : (int32LE i).length = 4 := rfl

theorem int64LE_length (i : Int) : (int64LE i).length = 8 := rfl

theorem int32LE_toInt32 (i : Int) : int32LE (toInt32 i) = int32LE i := by
  simp only [int32LE, toInt32]
  congr 1
  · omega
  congr 1
  · omega
  congr 1
  · omega
  congr 1
  omega

theorem int32LE_isBytes (i : Int) : isBytes (int32LE i) := by
  intro x hx
  simp only [int32LE, List.mem_cons, List.mem_singleton, List.not_mem_nil, or_false] at hx
  omega

theorem setByte_ok (b : Bytes) (pos v : Nat) (h : pos < b.length) :
    setByte b pos v = .ok (b.set pos v) := by
  simp [setByte, h]

/-- The header `addHeader` appends. -/
theorem addHeader_eq (b : Bytes) (opcode : Int) :
    addHeader b opcode =
      .ok (b ++ [0, 0, 0, 0, 0, 0, 0, 0, 0, 0, 0, 0,
                 (opcode % 256).toNat, (opcode / 256 % 256).toNat, 0, 0]) := by
  simp [addHeader, setByte, emptyHeader, bind, Except.bind, pure, Except.pure, toByte, shr8,
    List.set_append]

/-- Patching four bytes in the middle of a buffer. -/
theorem setInt32_mid (pre post : Bytes) (a b c d : Nat) (i : Int) :
    setInt32 (pre ++ a :: b :: c :: d :: post) pre.length i = .ok (pre ++ int32LE i ++ post) := by
  simp [setInt32, setByte, bind, Except.bind, pure, Except.pure, toByte, shr8, shr16, shr24,
    List.set_append, int32LE]

theorem getByte_mid (pre post : Bytes) (a : Nat) (k : Nat) (h : k = pre.length) :
    getByte (pre ++ a :: post) k = .ok a := by
  subst h
  have : (pre ++ a :: post)[pre.length]? = some a := by
    rw [List.getElem?_append_right (Nat.le_refl _)]; simp
  simp only [getByte, this]

/-- Reading four bytes in the middle of a buffer. -/
theorem getInt32_mid (pre post : Bytes) (a b c d : Nat)
    (ha : a < 256) (hb : b < 256) (hc : c < 256) :
    getInt32 (pre ++ a :: b :: c :: d :: post) pre.length =
      .ok (toInt32 ((a + 256 * b + 65536 * c + 16777216 * d : Nat) : Int)) := by
  have e0 : getByte (pre ++ a :: b :: c :: d :: post) (pre.length + 0) = .ok a :=
    getByte_mid pre _ a _ rfl
  have e1 : getByte (pre ++ a :: b :: c :: d :: post) (pre.length + 1) = .ok b := by
    have := getByte_mid (pre ++ [a]) (c :: d :: post) b (pre.length + 1) (by simp)
    simpa using this
  have e2 : getByte (pre ++ a :: b :: c :: d :: post) (pre.length + 2) = .ok c := by
    have := getByte_mid (pre ++ [a, b]) (d :: post) c (pre.length + 2) (by simp)
    simpa using this
  have e3 : getByte (pre ++ a :: b :: c :: d :: post) (pre.length + 3) = .ok d := by
    have := getByte_mid (pre ++ [a, b, c]) post d (pre.length + 3) (by simp)
    simpa using this
  simp only [getInt32, e0, e1, e2, e3, bind, Except.bind, pure, Except.pure]
  have h1 : a ||| b <<< 8 = a + 256 * b := by
    rw [lor_shift a b 8 (by norm_num; omega)]; norm_num
  have h2 : a ||| b <<< 8 ||| c <<< 16 = a + 256 * b + 65536 * c := by
    rw [h1, lor_shift _ c 16 (by norm_num; omega)]; norm_num
  have h3 : a ||| b <<< 8 ||| c <<< 16 ||| d <<< 24 = a + 256 * b + 65536 * c + 16777216 * d := by
    rw [h2, lor_shift _ d 24 (by norm_num; omega)]; norm_num
  rw [h3]


/-! ## Lemmas: reading fields from arbitrary buffers -/

/-- One byte is split off an integer. -/
theorem byte_step (x : Int) : x = 256 * (x / 256) + ((x % 256).toNat : Int) ∧ (x % 256).toNat < 256 := by
  omega

theorem split_four (l : Bytes) (h : 4 ≤ l.length) :
    ∃ a b c d rest, l = a :: b :: c :: d :: rest := by
  match l, h with
  | a :: b :: c :: d :: rest, _ => exact ⟨a, b, c, d, rest, rfl⟩
  | [], h => simp at h
  | [_], h => simp at h
  | [_, _], h => simp at h
  | [_, _, _], h => simp at h

theorem split_at_four (b : Bytes) (pos : Nat) (h : pos + 4 ≤ b.length) :
    ∃ pre a0 a1 a2 a3 rest, b = pre ++ a0 :: a1 :: a2 :: a3 :: rest ∧ pre.length = pos := by
  obtain ⟨a0, a1, a2, a3, rest, hd⟩ := split_four (b.drop pos) (by rw [List.length_drop]; omega)
  refine ⟨b.take pos, a0, a1, a2, a3, rest, ?_, ?_⟩
  · rw [← hd, List.take_append_drop]
  · rw [List.length_take]; omega

theorem isBytes_append {x y : Bytes} : isBytes (x ++ y) ↔ isBytes x ∧ isBytes y := by
  simp only [isBytes, List.mem_append]
  constructor
  · intro h
    exact ⟨fun v hv => h v (Or.inl hv), fun v hv => h v (Or.inr hv)⟩
  · rintro ⟨h1, h2⟩ v (hv | hv)
    · exact h1 v hv
    · exact h2 v hv

theorem isBytes_cons {a : Nat} {x : Bytes} : isBytes (a :: x) ↔ a < 256 ∧ isBytes x := by
  simp [isBytes]

/-- Inside the buffer, `getInt32` returns the little-endian signed value of
the four bytes at `pos`. -/
theorem getInt32_eq_int32At (b : Bytes) (pos : Nat) (h : pos + 4 ≤ b.length) (hb : isBytes b) :
    getInt32 b pos = .ok (int32At b pos) := by
  obtain ⟨pre, a0, a1, a2, a3, rest, rfl, rfl⟩ := split_at_four b pos h
  rw [isBytes_append, isBytes_cons, isBytes_cons, isBytes_cons, isBytes_cons] at hb
  obtain ⟨_, h0, h1, h2, _, _⟩ := hb
  rw [getInt32_mid pre rest a0 a1 a2 a3 h0 h1 h2]
  simp only [int32At, List.drop_left, List.take_succ_cons, List.take_zero, leValue]
  congr 2
  omega

theorem getInt64_mid (pre post : Bytes) (a0 a1 a2 a3 a4 a5 a6 a7 : Nat)
    (h0 : a0 < 256) (h1 : a1 < 256) (h2 : a2 < 256) (h3 : a3 < 256)
    (h4 : a4 < 256) (h5 : a5 < 256) (h6 : a6 < 256) :
    getInt64 (pre ++ a0 :: a1 :: a2 :: a3 :: a4 :: a5 :: a6 :: a7 :: post) pre.length =
      .ok (toInt64 ((a0 + 256 * a1 + 65536 * a2 + 16777216 * a3 + 4294967296 * a4 +
        1099511627776 * a5 + 281474976710656 * a6 + 72057594037927936 * a7 : Nat) : Int)) := by
  have e0 : getByte (pre ++ a0 :: a1 :: a2 :: a3 :: a4 :: a5 :: a6 :: a7 :: post)
      (pre.length + 0) = .ok a0 := getByte_mid pre _ a0 _ rfl
  have e1 : getByte (pre ++ a0 :: a1 :: a2 :: a3 :: a4 :: a5 :: a6 :: a7 :: post)
      (pre.length + 1) = .ok a1 := by
    have := getByte_mid (pre ++ [a0]) (a2 :: a3 :: a4 :: a5 :: a6 :: a7 :: post) a1
      (pre.length + 1) (by simp)
    simpa using this
  have e2 : getByte (pre ++ a0 :: a1 :: a2 :: a3 :: a4 :: a5 :: a6 :: a7 :: post)
      (pre.length + 2) = .ok a2 := by
    have := getByte_mid (pre ++ [a0, a1]) (a3 :: a4 :: a5 :: a6 :: a7 :: post) a2
      (pre.length + 2) (by simp)
    simpa using this
  have e3 : getByte (pre ++ a0 :: a1 :: a2 :: a3 :: a4 :: a5 :: a6 :: a7 :: post)
      (pre.length + 3) = .ok a3 := by
    have := getByte_mid (pre ++ [a0, a1, a2]) (a4 :: a5 :: a6 :: a7 :: post) a3
      (pre.length + 3) (by simp)
    simpa using this
  have e4 : getByte (pre ++ a0 :: a1 :: a2 :: a3 :: a4 :: a5 :: a6 :: a7 :: post)
      (pre.length + 4) = .ok a4 := by
    have := getByte_mid (pre ++ [a0, a1, a2, a3]) (a5 :: a6 :: a7 :: post) a4
      (pre.length + 4) (by simp)
    simpa using this
  have e5 : getByte (pre ++ a0 :: a1 :: a2 :: a3 :: a4 :: a5 :: a6 :: a7 :: post)
      (pre.length + 5) = .ok a5 := by
    have := getByte_mid (pre ++ [a0, a1, a2, a3, a4]) (a6 :: a7 :: post) a5
      (pre.length + 5) (by simp)
    simpa using this
  have e6 : getByte (pre ++ a0 :: a1 :: a2 :: a3 :: a4 :: a5 :: a6 :: a7 :: post)
      (pre.length + 6) = .ok a6 := by
    have := getByte_mid (pre ++ [a0, a1, a2, a3, a4, a5]) (a7 :: post) a6
      (pre.length + 6) (by simp)
    simpa using this
  have e7 : getByte (pre ++ a0 :: a1 :: a2 :: a3 :: a4 :: a5 :: a6 :: a7 :: post)
      (pre.length + 7) = .ok a7 := by
    have := getByte_mid (pre ++ [a0, a1, a2, a3, a4, a5, a6]) post a7
      (pre.length + 7) (by simp)
    simpa using this
  simp only [getInt64, e0, e1, e2, e3, e4, e5, e6, e7, bind, Except.bind, pure, Except.pure]
  have g1 : a0 ||| a1 <<< 8 = a0 + 256 * a1 := by
    rw [lor_shift a0 a1 8 (by norm_num; omega)]; norm_num
  have g2 : a0 ||| a1 <<< 8 ||| a2 <<< 16 = a0 + 256 * a1 + 65536 * a2 := by
    rw [g1, lor_shift _ a2 16 (by norm_num; omega)]; norm_num
  have g3 : a0 ||| a1 <<< 8 ||| a2 <<< 16 ||| a3 <<< 24
      = a0 + 256 * a1 + 65536 * a2 + 16777216 * a3 := by
    rw [g2, lor_shift _ a3 24 (by norm_num; omega)]; norm_num
  have g4 : a0 ||| a1 <<< 8 ||| a2 <<< 16 ||| a3 <<< 24 ||| a4 <<< 32
      = a0 + 256 * a1 + 65536 * a2 + 16777216 * a3 + 4294967296 * a4 := by
    rw [g3, lor_shift _ a4 32 (by norm_num; omega)]; norm_num
  have g5 : a0 ||| a1 <<< 8 ||| a2 <<< 16 ||| a3 <<< 24 ||| a4 <<< 32 ||| a5 <<< 40
      = a0 + 256 * a1 + 65536 * a2 + 16777216 * a3 + 4294967296 * a4 + 1099511627776 * a5 := by
    rw [g4, lor_shift _ a5 40 (by norm_num; omega)]; norm_num
  have g6 : a0 ||| a1 <<< 8 ||| a2 <<< 16 ||| a3 <<< 24 ||| a4 <<< 32 ||| a5 <<< 40 ||| a6 <<< 48
      = a0 + 256 * a1 + 65536 * a2 + 16777216 * a3 + 4294967296 * a4 + 1099511627776 * a5 +
        281474976710656 * a6 := by
    rw [g5, lor_shift _ a6 48 (by norm_num; omega)]; norm_num
  have g7 : a0 ||| a1 <<< 8 ||| a2 <<< 16 ||| a3 <<< 24 ||| a4 <<< 32 ||| a5 <<< 40 ||| a6 <<< 48
      ||| a7 <<< 56
      = a0 + 256 * a1 + 65536 * a2 + 16777216 * a3 + 4294967296 * a4 + 1099511627776 * a5 +
        281474976710656 * a6 + 72057594037927936 * a7 := by
    rw [g6, lor_shift _ a7 56 (by norm_num; omega)]; norm_num
  rw [g7]

/-- The eight little-endian bytes of `c` denote `c` modulo 2^64. -/
theorem int64_bytes_value (c : Int) :
    (((c % 256).toNat + 256 * (c / 256 % 256).toNat +
        65536 * (c / 65536 % 256).toNat +
        16777216 * (c / 16777216 % 256).toNat +
        4294967296 * (c / 4294967296 % 256).toNat +
        1099511627776 * (c / 1099511627776 % 256).toNat +
        281474976710656 * (c / 281474976710656 % 256).toNat +
        72057594037927936 * (c / 72057594037927936 % 256).toNat : Nat) : Int)
      = c % 18446744073709551616 := by
  have d2 : c / 65536 = c / 256 / 256 := by omega
  have d3 : c / 16777216 = c / 65536 / 256 := by omega
  have d4 : c / 4294967296 = c / 16777216 / 256 := by omega
  have d5 : c / 1099511627776 = c / 4294967296 / 256 := by omega
  have d6 : c / 281474976710656 = c / 1099511627776 / 256 := by omega
  have d7 : c / 72057594037927936 = c / 281474976710656 / 256 := by omega
  have s0 := byte_step c
  have s1 := byte_step (c / 256)
  have s2 := byte_step (c / 65536)
  have s3 := byte_step (c / 16777216)
  have s4 := byte_step (c / 4294967296)
  have s5 := byte_step (c / 1099511627776)
  have s6 := byte_step (c / 281474976710656)
  have s7 := byte_step (c / 72057594037927936)
  rw [← d2] at s1
  rw [← d3] at s2
  rw [← d4] at s3
  rw [← d5] at s4
  rw [← d6] at s5
  rw [← d7] at s6
  generalize (c % 256).toNat = r0 at *
  generalize (c / 256 % 256).toNat = r1 at *
  generalize (c / 65536 % 256).toNat = r2 at *
  generalize (c / 16777216 % 256).toNat = r3 at *
  generalize (c / 4294967296 % 256).toNat = r4 at *
  generalize (c / 1099511627776 % 256).toNat = r5 at *
  generalize (c / 281474976710656 % 256).toNat = r6 at *
  generalize (c / 72057594037927936 % 256).toNat = r7 at *
  generalize c / 72057594037927936 / 256 = q8 at *
  generalize c / 72057594037927936 = q7 at *
  generalize c / 281474976710656 = q6 at *
  generalize c / 1099511627776 = q5 at *
  generalize c / 4294967296 = q4 at *
  generalize c / 16777216 = q3 at *
  generalize c / 65536 = q2 at *
  generalize c / 256 = q1 at *
  clear d2 d3 d4 d5 d6 d7
  omega

theorem split_eight (l : Bytes) (h : 8 ≤ l.length) :
    ∃ a0 a1 a2 a3 a4 a5 a6 a7 rest, l = a0 :: a1 :: a2 :: a3 :: a4 :: a5 :: a6 :: a7 :: rest := by
  obtain ⟨a0, a1, a2, a3, r1, rfl⟩ := split_four l (by omega)
  obtain ⟨a4, a5, a6, a7, r2, rfl⟩ := split_four r1 (by simp at h; omega)
  exact ⟨a0, a1, a2, a3, a4, a5, a6, a7, r2, rfl⟩

/-- Inside the buffer, `getInt64` returns the little-endian signed value of
the eight bytes at `pos`. -/
theorem getInt64_eq_int64At (b : Bytes) (pos : Nat) (h : pos + 8 ≤ b.length) (hb : isBytes b) :
    getInt64 b pos = .ok (int64At b pos) := by
  obtain ⟨a0, a1, a2, a3, a4, a5, a6, a7, rest, hd⟩ :=
    split_eight (b.drop pos) (by rw [List.length_drop]; omega)
  have hsplit : b = b.take pos ++ a0 :: a1 :: a2 :: a3 :: a4 :: a5 :: a6 :: a7 :: rest := by
    rw [← hd, List.take_append_drop]
  have hlen : (b.take pos).length = pos := by rw [List.length_take]; omega
  have hb2 := hb
  rw [hsplit, isBytes_append] at hb2
  simp only [isBytes_cons] at hb2
  obtain ⟨_, h0, h1, h2, h3, h4, h5, h6, _, _⟩ := hb2
  have := getInt64_mid (b.take pos) rest a0 a1 a2 a3 a4 a5 a6 a7 h0 h1 h2 h3 h4 h5 h6
  rw [← hsplit, hlen] at this
  rw [this]
  simp only [int64At, hd, List.take_succ_cons, List.take_zero, leValue]
  congr 2
  omega


/-! ## Lemmas: serialisation -/

section Serialise
variable {Doc : Type} (Marshal : Option Doc → Except String Bytes)

theorem checkErr_addBSON (b : Bytes) (d : Option Doc) (h : marshals Marshal d = true) :
    checkErr (addBSON Marshal b d) = .ok (b ++ encoded Marshal d) := by
  unfold marshals at h
  unfold checkErr addBSON encoded
  cases hm : Marshal d with
  | error e => simp [hm] at h
  | ok data => simp

theorem checkErr_addBSON_fail (b : Bytes) (d : Option Doc) (e : String)
    (h : Marshal d = .error e) :
    checkErr (addBSON Marshal b d) = .error (.error e) := by
  simp [checkErr, addBSON, h]

theorem addDocuments_eq (docs : List (Option Doc)) (b : Bytes)
    (h : docs.all (marshals Marshal) = true) :
    addDocuments Marshal b docs = .ok (b ++ (docs.map (encoded Marshal)).flatten) := by
  induction docs generalizing b with
  | nil => simp [addDocuments]
  | cons d ds ih =>
    simp only [List.all_cons, Bool.and_eq_true] at h
    simp only [addDocuments, checkErr_addBSON Marshal b d h.1, bind, Except.bind, ih _ h.2]
    simp

/-- The switch of the serialisation loop appends the sixteen header bytes
and the payload of the protocol table. -/
theorem serializeOp_eq (buf : Bytes) (op : Op Doc) (h : op.encodes Marshal = true) :
    serializeOp Marshal buf op =
      .ok (buf ++ ([0, 0, 0, 0] ++ int32LE 0 ++ int32LE 0 ++ int32LE op.opcode ++
            op.payload Marshal), op.callback) := by
  cases op with
  | update op =>
    simp only [Op.encodes, Op.docs, List.all_cons, List.all_nil, Bool.and_true,
      Bool.and_eq_true] at h
    simp only [serializeOp, addHeader_eq, addInt32_eq, addCString, bind, Except.bind,
      checkErr_addBSON Marshal _ _ h.1, checkErr_addBSON Marshal _ _ h.2, int32LE_toInt32,
      pure, Except.pure, Op.payload, Op.callback, Op.opcode]
    simp [int32LE]
  | insert op =>
    simp only [Op.encodes, Op.docs] at h
    simp only [serializeOp, addHeader_eq, addInt32_eq, addCString, bind, Except.bind,
      addDocuments_eq Marshal _ _ h, pure, Except.pure, Op.payload, Op.callback, Op.opcode]
    simp [int32LE]
  | query op =>
    cases hs : op.selector with
    | none =>
      simp only [Op.encodes, Op.docs, hs, List.all_cons, List.all_nil, Bool.and_true] at h
      simp only [serializeOp, addHeader_eq, addInt32_eq, addCString, bind, Except.bind,
        checkErr_addBSON Marshal _ _ h, int32LE_toInt32, hs,
        pure, Except.pure, Op.payload, Op.callback, Op.opcode]
      simp [int32LE]
    | some sel =>
      simp only [Op.encodes, Op.docs, hs, List.all_cons, List.all_nil, Bool.and_true,
        Bool.and_eq_true] at h
      simp only [serializeOp, addHeader_eq, addInt32_eq, addCString, bind, Except.bind,
        checkErr_addBSON Marshal _ _ h.1, checkErr_addBSON Marshal _ _ h.2, int32LE_toInt32, hs,
        pure, Except.pure, Op.payload, Op.callback, Op.opcode]
      simp [int32LE]
  | getMore op =>
    simp only [serializeOp, addHeader_eq, addInt32_eq, addInt64_eq, addCString, bind,
      Except.bind, pure, Except.pure, Op.payload, Op.callback, Op.opcode]
    simp [int32LE]
  | delete op =>
    simp only [Op.encodes, Op.docs, List.all_cons, List.all_nil, Bool.and_true] at h
    simp only [serializeOp, addHeader_eq, addInt32_eq, addCString, bind, Except.bind,
      checkErr_addBSON Marshal _ _ h, int32LE_toInt32,
      pure, Except.pure, Op.payload, Op.callback, Op.opcode]
    simp [int32LE]

theorem marshals_of_ok (d : Option Doc) (data : Bytes) (h : Marshal d = .ok data) :
    marshals Marshal d = true := by
  simp [marshals, h]

theorem encoded_of_ok (d : Option Doc) (data : Bytes) (h : Marshal d = .ok data) :
    encoded Marshal d = data := by
  simp [encoded, h]

theorem forall₂_marshal (docs : List (Option Doc)) (ds : List Bytes)
    (h : List.Forall₂ (fun d data => Marshal d = .ok data) docs ds) :
    docs.all (marshals Marshal) = true ∧ docs.map (encoded Marshal) = ds := by
  induction h with
  | nil => exact ⟨rfl, rfl⟩
  | cons hd _ ih =>
    refine ⟨?_, ?_⟩
    · rw [List.all_cons, marshals_of_ok Marshal _ _ hd, ih.1]; rfl
    · rw [List.map_cons, encoded_of_ok Marshal _ _ hd, ih.2]

theorem envelope_length (op : Op Doc) (id : Nat) :
    (envelope Marshal op id).length = 16 + (op.payload Marshal).length := by
  simp [envelope, frame, int32LE_length]; omega

theorem envelope_split (op : Op Doc) (id : Nat) :
    envelope Marshal op id =
      int32LE (16 + (op.payload Marshal).length : Nat) ++ int32LE id ++
        (int32LE 0 ++ int32LE op.opcode ++ op.payload Marshal) := by
  simp [envelope, frame]

end Serialise


section Batch
variable {Doc : Type} (Marshal : Option Doc → Except String Bytes)

theorem requestsFrom_callbacks (ops : List (Op Doc)) (start : Nat) :
    (requestsFrom Marshal start ops).map requestInfo.replyFunc = callbacks ops := by
  induction ops generalizing start with
  | nil => rfl
  | cons op ops ih =>
    cases hc : op.callback with
    | none => simp [requestsFrom, callbacks, List.filterMap_cons, hc, ih]
    | some f => simp [requestsFrom, callbacks, List.filterMap_cons, hc, ih]

/-- One pass of the serialisation loop over an op whose documents encode:
the envelope (with a zero id field) is appended, and a request is recorded
when the op has a callback. -/
theorem serializeOps_cons (op : Op Doc) (ops : List (Op Doc)) (buf : Bytes)
    (reqs : List requestInfo) (hop : op.encodes Marshal = true) :
    serializeOps Marshal (op :: ops) buf reqs =
      serializeOps Marshal ops (buf ++ envelope Marshal op 0)
        (match op.callback with
          | some f => reqs ++ [{ bufferPos := buf.length, replyFunc := f }]
          | none => reqs) := by
  have hset : setInt32 (buf ++ ([0, 0, 0, 0] ++ int32LE 0 ++ int32LE 0 ++ int32LE op.opcode ++
        op.payload Marshal)) buf.length
        (toInt32 (((buf ++ ([0, 0, 0, 0] ++ int32LE 0 ++ int32LE 0 ++ int32LE op.opcode ++
          op.payload Marshal)).length : Int) - (buf.length : Int))) =
      .ok (buf ++ envelope Marshal op 0) := by
    have := setInt32_mid buf (int32LE 0 ++ int32LE 0 ++ int32LE op.opcode ++ op.payload Marshal)
      0 0 0 0 (toInt32 (((buf ++ ([0, 0, 0, 0] ++ int32LE 0 ++ int32LE 0 ++ int32LE op.opcode ++
          op.payload Marshal)).length : Int) - (buf.length : Int)))
    simp only [List.cons_append, List.nil_append, List.append_assoc] at this ⊢
    rw [this, int32LE_toInt32]
    simp only [envelope, frame, List.append_assoc, List.length_append, List.length_cons,
      int32LE_length, List.length_nil]
    congr 3
    push_cast
    ring_nf
  simp only [serializeOps, serializeOp_eq Marshal buf op hop, bind, Except.bind, hset]

/-- The serialisation loop never fails on a batch whose documents encode;
it appends the envelopes with zero id fields and records the requests. -/
theorem serializeOps_eq (ops : List (Op Doc)) (buf : Bytes) (reqs : List requestInfo)
    (h : ∀ op ∈ ops, op.encodes Marshal = true) :
    serializeOps Marshal ops buf reqs =
      .ok (buf ++ wireZero Marshal ops, reqs ++ requestsFrom Marshal buf.length ops) := by
  induction ops generalizing buf reqs with
  | nil => simp [serializeOps, wireZero, requestsFrom]
  | cons op ops ih =>
    have hop := h op (List.mem_cons_self _ _)
    have hrest : ∀ o ∈ ops, o.encodes Marshal = true :=
      fun o ho => h o (List.mem_cons_of_mem _ ho)
    rw [serializeOps_cons Marshal op ops buf reqs hop, ih _ _ hrest]
    cases hc : op.callback with
    | none => simp [wireZero, requestsFrom, hc]
    | some f => simp [wireZero, requestsFrom, hc]

/-- The id loop patches exactly the id fields of the reply-expecting ops and
registers their callbacks. -/
theorem assignIds_eq (ops : List (Op Doc)) (pre : Bytes) (id : Nat) (m : ReplyMap) :
    assignIds (requestsFrom Marshal pre.length ops) id (pre ++ wireZero Marshal ops) m =
      .ok (pre ++ wire Marshal ops id, register (callbacks ops) id m) := by
  induction ops generalizing pre id m with
  | nil => simp [requestsFrom, assignIds, wireZero, wire, callbacks, register]
  | cons op ops ih =>
    have hlen : ∀ k, pre.length + (envelope Marshal op 0).length
        = (pre ++ envelope Marshal op k).length := by
      intro k; simp [envelope_length]
    cases hc : op.callback with
    | none =>
      have := ih (pre ++ envelope Marshal op 0) id m
      simp only [requestsFrom, hc, List.nil_append, wireZero, List.map_cons, List.flatten_cons,
        wire, callbacks, List.filterMap_cons, hlen 0]
      simp only [wireZero, callbacks, List.append_assoc] at this
      exact this
    | some f =>
      have hpatch : setInt32 (pre ++ wireZero Marshal (op :: ops)) (pre.length + 4) (toInt32 id)
          = .ok ((pre ++ envelope Marshal op id) ++ wireZero Marshal ops) := by
        have := setInt32_mid (pre ++ int32LE (16 + (op.payload Marshal).length : Nat))
          (int32LE 0 ++ int32LE op.opcode ++ op.payload Marshal ++ wireZero Marshal ops)
          0 0 0 0 (toInt32 id)
        simp only [List.length_append, int32LE_length, int32LE_toInt32] at this
        simp only [wireZero, List.map_cons, List.flatten_cons, envelope, frame, List.append_assoc]
          at this ⊢
        rw [← this]
        rfl
      have := ih (pre ++ envelope Marshal op id) ((id + 1) % 4294967296) (m.insert id f)
      simp only [requestsFrom, hc, List.singleton_append, assignIds, hpatch, bind, Except.bind,
        wire, callbacks, List.filterMap_cons, register, hlen id]
      simp only [callbacks, List.append_assoc] at this
      simp only [List.append_assoc]
      exact this

end Batch


section QueryLemmas
variable {Doc : Type} (Marshal : Option Doc → Except String Bytes)

theorem batch_eq (lops ops : List (Op Doc)) :
    (if lops.length > 0 then lops ++ ops else ops) = lops ++ ops := by
  cases lops with
  | nil => simp
  | cons a l => simp

/-- On a live socket a batch whose documents encode is written as `wire`,
the callbacks are registered by `register`, and the counter moves on. -/
theorem Query_live (s : mongoSocket) (lops ops : List (Op Doc)) (writeErr : Option String)
    (hlive : s.dead = none) (henc : ∀ op ∈ lops ++ ops, op.encodes Marshal = true) :
    Query Marshal s lops ops writeErr =
      some { socket :=
               { s with
                 nextRequestId :=
                   (firstId s.nextRequestId +
                     toUint32 ((callbacks (lops ++ ops)).length : Nat)) % 4294967296,
                 replyFuncs := register (callbacks (lops ++ ops)) (firstId s.nextRequestId)
                   s.replyFuncs,
                 conn := s.conn.Write (wire Marshal (lops ++ ops) (firstId s.nextRequestId)) },
             err := writeErr, calls := [] } := by
  have hser := serializeOps_eq Marshal (lops ++ ops) [] [] henc
  have hassign := assignIds_eq Marshal (lops ++ ops) [] (firstId s.nextRequestId) s.replyFuncs
  simp only [List.nil_append, List.length_nil] at hser hassign
  have hfirst : (if (s.nextRequestId + 1) % 4294967296 = 0
      then ((s.nextRequestId + 1) % 4294967296 + 1) % 4294967296
      else (s.nextRequestId + 1) % 4294967296) = firstId s.nextRequestId := by
    unfold firstId
    split <;> rename_i h
    · rw [h]
    · rfl
  have hlen : (requestsFrom Marshal 0 (lops ++ ops)).length = (callbacks (lops ++ ops)).length := by
    rw [← requestsFrom_callbacks Marshal (lops ++ ops) 0, List.length_map]
  simp only [Query, batch_eq, hser, hlive, hfirst, hassign, hlen]

/-- On a dead socket a batch whose documents encode only fans the dead
reason out to the batch's own callbacks. -/
theorem Query_dead (s : mongoSocket) (lops ops : List (Op Doc)) (writeErr : Option String)
    (e : String) (hdead : s.dead = some e)
    (henc : ∀ op ∈ lops ++ ops, op.encodes Marshal = true) :
    Query Marshal s lops ops writeErr =
      some { socket := s, err := some e, calls := failCalls (callbacks (lops ++ ops)) e } := by
  have hser := serializeOps_eq Marshal (lops ++ ops) [] [] henc
  simp only [List.nil_append, List.length_nil] at hser
  simp only [Query, batch_eq, hser, hdead, failCalls,
    ← requestsFrom_callbacks Marshal (lops ++ ops) 0, List.map_map]
  rfl

end QueryLemmas

/-! ## Lemmas: the callback map -/

theorem firstId_lt (n : Nat) : firstId n < 4294967296 := by
  unfold firstId; split <;> omega

theorem firstId_ne_zero (n : Nat) : firstId n ≠ 0 := by
  unfold firstId; split <;> omega

theorem register_append (fs gs : List replyFunc) (id : Nat) (m : ReplyMap)
    (hid : id < 4294967296) :
    register (fs ++ gs) id m =
      register gs ((id + fs.length) % 4294967296) (register fs id m) := by
  induction fs generalizing id m with
  | nil => simp [register, Nat.mod_eq_of_lt hid]
  | cons f fs ih =>
    have hlt : (id + 1) % 4294967296 < 4294967296 := by omega
    have e : ((id + 1) % 4294967296 + fs.length) % 4294967296
        = (id + (fs.length + 1)) % 4294967296 := by omega
    show register (f :: (fs ++ gs)) id m = register gs _ (register (f :: fs) id m)
    simp only [register]
    rw [ih _ _ hlt, List.length_cons, e]

/-- Keys outside the ids handed out keep their entry. -/
theorem lookup_register_other (fs : List replyFunc) (id : Nat) (m : ReplyMap) (k : Nat)
    (hid : id < 4294967296) (h : ∀ j < fs.length, (id + j) % 4294967296 ≠ k) :
    (register fs id m).lookup k = m.lookup k := by
  induction fs generalizing id m with
  | nil => rfl
  | cons f fs ih =>
    have h0 : id ≠ k := by
      have := h 0 (by simp)
      omega
    rw [register, ih _ _ (by omega)]
    · exact AList.lookup_insert_ne (Ne.symm h0)
    · intro j hj
      have := h (j + 1) (by simp; omega)
      omega

/-- The callback at position `fs.length` of the run keeps its id unless a
later callback of the run wraps around onto it. -/
theorem lookup_register_mid (fs gs : List replyFunc) (f : replyFunc) (id : Nat) (m : ReplyMap)
    (hid : id < 4294967296) (hgs : gs.length < 4294967296) :
    (register (fs ++ f :: gs) id m).lookup ((id + fs.length) % 4294967296) = some f := by
  rw [register_append _ _ _ _ hid, register, lookup_register_other]
  · exact AList.lookup_insert _
  · omega
  · intro j hj
    omega


/-! ## Lemmas: the written buffer -/

section Wire
variable {Doc : Type} (Marshal : Option Doc → Except String Bytes)

theorem getInt32_int32LE (pre post : Bytes) (i : Int) :
    getInt32 (pre ++ int32LE i ++ post) pre.length = .ok (toInt32 i) := by
  have := getInt32_mid pre post (i % 256).toNat (i / 256 % 256).toNat (i / 65536 % 256).toNat
    (i / 16777216 % 256).toNat (by omega) (by omega) (by omega)
  simp only [int32LE, List.append_assoc, List.cons_append, List.nil_append]
  rw [this]
  have e : toInt32 (((i % 256).toNat + 256 * (i / 256 % 256).toNat +
      65536 * (i / 65536 % 256).toNat + 16777216 * (i / 16777216 % 256).toNat : Nat) : Int)
      = toInt32 i := by
    unfold toInt32
    omega
  rw [e]

theorem toUint32_toInt32 (n : Nat) (h : n < 4294967296) : toUint32 (toInt32 n) = n := by
  unfold toUint32 toInt32; omega

theorem wire_eq_flatten (ops : List (Op Doc)) (id : Nat) :
    wire Marshal ops id = (wireEnvelopes Marshal ops id).flatten := by
  induction ops generalizing id with
  | nil => rfl
  | cons op ops ih =>
    cases hc : op.callback <;> simp [wire, wireEnvelopes, hc, ih]

theorem wire_length (ops : List (Op Doc)) (id : Nat) :
    (wire Marshal ops id).length = (wireZero Marshal ops).length := by
  induction ops generalizing id with
  | nil => rfl
  | cons op ops ih =>
    cases hc : op.callback <;>
      simp [wire, wireZero, hc, ih, envelope_length]

theorem wire_append (xs ys : List (Op Doc)) (id : Nat) (hid : id < 4294967296) :
    wire Marshal (xs ++ ys) id =
      wire Marshal xs id ++ wire Marshal ys ((id + (callbacks xs).length) % 4294967296) := by
  induction xs generalizing id with
  | nil => simp [wire, callbacks, Nat.mod_eq_of_lt hid]
  | cons op xs ih =>
    cases hc : op.callback with
    | none =>
      simp only [List.cons_append, wire, hc, List.append_eq, ih _ hid, callbacks,
        List.filterMap_cons, List.append_assoc]
    | some f =>
      have hlt : (id + 1) % 4294967296 < 4294967296 := by omega
      have e : ((id + 1) % 4294967296 + (callbacks xs).length) % 4294967296
          = (id + ((callbacks xs).length + 1)) % 4294967296 := by omega
      simp only [List.cons_append, wire, hc, List.append_eq, ih _ hlt, callbacks,
        List.filterMap_cons, List.append_assoc, List.length_cons]
      simp only [callbacks] at e
      rw [e]

/-- The id field of a reply-expecting op in the written batch: the op that
follows `pre` carries the start id plus the number of callbacks in `pre`. -/
theorem written_id (pre post : List (Op Doc)) (op : Op Doc) (f : replyFunc) (id : Nat)
    (hid : id < 4294967296) (hc : op.callback = some f) :
    (getInt32 (wire Marshal (pre ++ op :: post) id) ((wireZero Marshal pre).length + 4)).map
        toUint32 = .ok ((id + (callbacks pre).length) % 4294967296) := by
  rw [wire_append Marshal pre (op :: post) id hid]
  simp only [wire, hc, envelope_split]
  have := getInt32_int32LE
    (wire Marshal pre id ++ int32LE (16 + (op.payload Marshal).length : Nat))
    ((int32LE 0 ++ int32LE op.opcode ++ op.payload Marshal) ++
      wire Marshal post (((id + (callbacks pre).length) % 4294967296 + 1) % 4294967296))
    (((id + (callbacks pre).length) % 4294967296 : Nat) : Int)
  simp only [List.length_append, int32LE_length, wire_length, List.append_assoc] at this ⊢
  rw [this]
  simp only [Except.map]
  rw [toUint32_toInt32 _ (by omega)]

/-- The envelopes on the wire pair up with the ops of the batch, in order. -/
theorem wireEnvelopes_forall₂ (ops : List (Op Doc)) (id : Nat) :
    List.Forall₂ (fun op e => ∃ k, e = envelope Marshal op k) ops
      (wireEnvelopes Marshal ops id) := by
  induction ops generalizing id with
  | nil => exact List.Forall₂.nil
  | cons op ops ih =>
    cases hc : op.callback with
    | none =>
      simp only [wireEnvelopes, hc]
      exact List.Forall₂.cons ⟨0, rfl⟩ (ih _)
    | some f =>
      simp only [wireEnvelopes, hc]
      exact List.Forall₂.cons ⟨id, rfl⟩ (ih _)

theorem mem_wireEnvelopes (ops : List (Op Doc)) (id : Nat) (e : Bytes)
    (h : e ∈ wireEnvelopes Marshal ops id) : ∃ op k, e = envelope Marshal op k := by
  induction ops generalizing id with
  | nil => simp [wireEnvelopes] at h
  | cons op ops ih =>
    cases hc : op.callback with
    | none =>
      simp only [wireEnvelopes, hc, List.mem_cons] at h
      rcases h with h | h
      · exact ⟨op, 0, h⟩
      · exact ih _ h
    | some f =>
      simp only [wireEnvelopes, hc, List.mem_cons] at h
      rcases h with h | h
      · exact ⟨op, id, h⟩
      · exact ih _ h

/-- The length field of an envelope reads back as the `int32` conversion of
its byte length. -/
theorem envelope_length_field (op : Op Doc) (k : Nat) :
    getInt32 (envelope Marshal op k) 0 =
      .ok (toInt32 ((envelope Marshal op k).length : Nat)) := by
  have := getInt32_int32LE [] (int32LE k ++ int32LE 0 ++ int32LE op.opcode ++ op.payload Marshal)
    ((16 + (op.payload Marshal).length : Nat) : Int)
  simp only [List.nil_append, List.length_nil, List.append_assoc] at this
  rw [envelope_length]
  simp only [envelope, frame, List.append_assoc]
  exact this

theorem int32At_int32LE (i : Int) (post : Bytes) : int32At (int32LE i ++ post) 0 = toInt32 i := by
  simp only [int32At, int32LE, List.drop_zero, List.cons_append, List.nil_append,
    List.take_succ_cons, List.take_zero, leValue]
  unfold toInt32
  omega

theorem int32At_envelope (op : Op Doc) (k : Nat) :
    int32At (envelope Marshal op k) 0 = toInt32 ((envelope Marshal op k).length : Nat) := by
  rw [envelope_length]
  simp only [envelope, frame, List.append_assoc]
  exact int32At_int32LE _ _

theorem sum_length_fields (envs : List Bytes)
    (h : ∀ e ∈ envs, int32At e 0 = (e.length : Int)) :
    (envs.map fun e => int32At e 0).sum = (envs.flatten.length : Int) := by
  induction envs with
  | nil => rfl
  | cons e envs ih =>
    have he := h e (List.mem_cons_self _ _)
    have hrest := ih (fun x hx => h x (List.mem_cons_of_mem _ hx))
    simp only [List.map_cons, List.sum_cons, List.flatten_cons, List.length_append, he, hrest]
    push_cast
    rfl

theorem toInt32_of_lt (n : Nat) (h : n < 2147483648) : toInt32 (n : Int) = n := by
  unfold toInt32; omega

end Wire


/-! ## Lemmas: very large batches -/

/-- When the callbacks after the first op number exactly 2^32, the last of
them is registered under the id of the first op. -/
theorem ids_collide {Doc : Type} (Marshal : Option Doc → Except String Bytes)
    (s : mongoSocket) (op0 : Op Doc) (f0 : replyFunc) (big : List (Op Doc))
    (fs : List replyFunc) (g : replyFunc)
    (hlive : s.dead = none) (henc0 : op0.encodes Marshal = true)
    (hencBig : ∀ o ∈ big, o.encodes Marshal = true)
    (hc0 : op0.callback = some f0) (hcb : callbacks big = fs ++ [g])
    (hlen : fs.length = 4294967295) :
    ∃ r buf, Query Marshal s [] (op0 :: big) none = some r ∧
      r.socket.conn.written = s.conn.written ++ [buf] ∧
      (getInt32 buf 4).map toUint32 = .ok (firstId s.nextRequestId) ∧
      r.socket.replyFuncs.lookup (firstId s.nextRequestId) = some g := by
  have henc : ∀ o ∈ [] ++ op0 :: big, o.encodes Marshal = true := by
    intro o ho
    rw [List.nil_append, List.mem_cons] at ho
    rcases ho with h | h
    · rw [h]; exact henc0
    · exact hencBig o h
  have hq := Query_live Marshal s [] (op0 :: big) none hlive henc
  have hcbs : callbacks ([] ++ op0 :: big) = (f0 :: fs) ++ g :: [] := by
    rw [List.nil_append, callbacks, List.filterMap_cons, hc0]
    show f0 :: callbacks big = _
    rw [hcb]
    rfl
  have hid := written_id Marshal [] big op0 f0 (firstId s.nextRequestId) (firstId_lt _) hc0
  have hmap := lookup_register_mid (f0 :: fs) [] g (firstId s.nextRequestId) s.replyFuncs
    (firstId_lt _) (by decide)
  have hfirst := firstId_lt s.nextRequestId
  have e : (firstId s.nextRequestId + (f0 :: fs).length) % 4294967296
      = firstId s.nextRequestId := by
    rw [List.length_cons, hlen]
    omega
  rw [e] at hmap
  have e0 : (firstId s.nextRequestId + (callbacks ([] : List (Op Doc))).length) % 4294967296
      = firstId s.nextRequestId := by
    show (firstId s.nextRequestId + 0) % 4294967296 = _
    omega
  rw [e0] at hid
  refine ⟨_, _, hq, rfl, ?_, ?_⟩
  · exact hid
  · show (register (callbacks ([] ++ op0 :: big)) _ _).lookup _ = _
    rw [hcbs]
    exact hmap

/-- A get-more op without callback on a live socket: the written envelope
has 33 bytes plus the collection name, and its length field is the `int32`
conversion of that length. -/
theorem getMore_length_field (Marshal : Option Nat → Except String Bytes) (s : mongoSocket)
    (ns : Bytes) (limit cursor : Int) (hlive : s.dead = none) :
    ∃ r buf, Query Marshal s []
        [.getMore ⟨ns, limit, cursor, none⟩] none = some r ∧
      r.socket.conn.written = s.conn.written ++ [buf] ∧
      buf.length = ns.length + 33 ∧
      getInt32 buf 0 = .ok (toInt32 ((ns.length + 33 : Nat) : Int)) := by
  have henc : ∀ op ∈ [] ++ [(Op.getMore ⟨ns, limit, cursor, none⟩ : Op Nat)], op.encodes Marshal = true := by
    intro op hop
    simp only [List.nil_append, List.mem_singleton] at hop
    subst hop
    rfl
  have hq := Query_live Marshal s [] _ none hlive henc
  have hlen : (envelope Marshal (Op.getMore ⟨ns, limit, cursor, none⟩ : Op Nat) 0).length = ns.length + 33 := by
    rw [envelope_length]
    simp only [Op.payload, List.length_append, int32LE_length, int64LE_length,
      List.length_cons, List.length_nil]
    omega
  refine ⟨_, _, hq, rfl, ?_, ?_⟩
  · simp only [List.nil_append, wire, Op.callback, List.append_nil]
    exact hlen
  · simp only [List.nil_append, wire, Op.callback, List.append_nil]
    rw [envelope_length_field, hlen]


/-- A batch of one op on a live socket: the buffer handed to `Write` is that
op's envelope, carrying the first id of the batch when the op has a
callback and id 0 otherwise. -/
theorem Query_single {Doc : Type} (Marshal : Option Doc → Except String Bytes)
    (s : mongoSocket) (op : Op Doc) (writeErr : Option String)
    (hlive : s.dead = none) (henc : op.encodes Marshal = true) :
    ∃ r, Query Marshal s [] [op] writeErr = some r ∧
      r.socket.conn.written = s.conn.written ++
        [envelope Marshal op (match op.callback with
          | some _ => firstId s.nextRequestId
          | none => 0)] := by
  have hall : ∀ o ∈ [] ++ [op], o.encodes Marshal = true := by
    intro o ho
    simp only [List.nil_append, List.mem_singleton] at ho
    rw [ho]
    exact henc
  refine ⟨_, Query_live Marshal s [] [op] writeErr hlive hall, ?_⟩
  cases hc : op.callback <;> simp [TCPConn.Write, wire, hc]

/-! ## Lemmas: `fill` -/

theorem fillLoop_ok (fuel : Nat) (c : TCPConn) (l : Nat) (b : Bytes)
    (hopen : c.closed = false) (hfuel : c.incoming.length < fuel) (hb : b.length ≤ l)
    (hpending : l - b.length ≤ c.incoming.flatten.length) :
    ∃ c2, fillLoop fuel c l b none = (b ++ c.incoming.flatten.take (l - b.length), none, c2) ∧
      c.advanced c2 (l - b.length) := by
  induction fuel generalizing c b with
  | zero => omega
  | succ fuel ih =>
    by_cases hfull : b.length = l
    · refine ⟨c, ?_, ?_⟩
      · simp [fillLoop, hfull]
      · simp [TCPConn.advanced, hfull]
    · have hn : l - b.length ≠ 0 := by omega
      obtain ⟨inc, rerr, wr, cl⟩ := c
      dsimp only at hopen hfuel hpending ⊢
      subst hopen
      cases inc with
      | nil =>
        simp at hpending
        omega
      | cons chunk rest =>
        simp only [List.flatten_cons, List.length_append, List.length_cons] at hpending hfuel
        by_cases hchunk : chunk.length ≤ l - b.length
        · have hread : TCPConn.Read ⟨chunk :: rest, rerr, wr, false⟩ (l - b.length) =
              (chunk, none, ⟨rest, rerr, wr, false⟩) := by
            simp [TCPConn.Read, hn, hchunk]
          obtain ⟨c2, h1, h2⟩ := ih ⟨rest, rerr, wr, false⟩ (b ++ chunk) rfl
            (by dsimp only; omega)
            (by rw [List.length_append]; omega)
            (by dsimp only; rw [List.length_append]; omega)
          dsimp only at h1 h2
          refine ⟨c2, ?_, ?_⟩
          · simp only [fillLoop, hfull, ne_eq, not_false_eq_true, and_self, ↓reduceIte, hread]
            rw [h1]
            simp only [List.length_append, List.flatten_cons, List.append_assoc]
            rw [List.take_append_eq_append_take, List.take_of_length_le hchunk]
            have e : l - (b.length + chunk.length) = l - b.length - chunk.length := by omega
            rw [e]
          · obtain ⟨g1, g2, g3, g4⟩ := h2
            refine ⟨?_, g2, g3, g4⟩
            dsimp only at g1 ⊢
            rw [g1]
            simp only [List.length_append, List.flatten_cons]
            rw [List.drop_append_eq_append_drop, List.drop_of_length_le hchunk, List.nil_append]
            have e : l - (b.length + chunk.length) = l - b.length - chunk.length := by omega
            rw [e]
        · have hread : TCPConn.Read ⟨chunk :: rest, rerr, wr, false⟩ (l - b.length) =
              (chunk.take (l - b.length), none,
                ⟨chunk.drop (l - b.length) :: rest, rerr, wr, false⟩) := by
            simp [TCPConn.Read, hn, hchunk]
          have hfuel2 : ∃ f2, fuel = f2 + 1 := ⟨fuel - 1, by omega⟩
          obtain ⟨f2, rfl⟩ := hfuel2
          have hlen : (b ++ chunk.take (l - b.length)).length = l := by
            simp [List.length_take]; omega
          refine ⟨⟨chunk.drop (l - b.length) :: rest, rerr, wr, false⟩, ?_, ?_⟩
          · simp only [fillLoop, hfull, ne_eq, not_false_eq_true, and_self, ↓reduceIte, hread,
              hlen, not_true_eq_false, false_and]
            rw [List.flatten_cons, List.take_append_of_le_length (by omega)]
          · refine ⟨?_, rfl, rfl, rfl⟩
            dsimp only
            simp only [List.flatten_cons]
            rw [List.drop_append_of_le_length (by omega)]

/-- When the connection is open and still holds `l` bytes, `fill` returns
exactly the next `l` bytes and no error. -/
theorem fill_ok (c : TCPConn) (l : Nat) (hopen : c.closed = false)
    (hpending : l ≤ c.incoming.flatten.length) :
    ∃ c2, fill c l = (c.incoming.flatten.take l, none, c2) ∧ c.advanced c2 l := by
  by_cases hl : l = 0
  · subst hl
    refine ⟨c, ?_, ?_⟩
    · simp [fill, TCPConn.Read, hopen, fillLoop]
    · simp [TCPConn.advanced]
  · obtain ⟨inc, rerr, wr, cl⟩ := c
    dsimp only at hopen hpending ⊢
    subst hopen
    cases inc with
    | nil => simp at hpending; omega
    | cons chunk rest =>
      simp only [List.flatten_cons, List.length_append] at hpending
      by_cases hchunk : chunk.length ≤ l
      · have hread : TCPConn.Read ⟨chunk :: rest, rerr, wr, false⟩ l =
            (chunk, none, ⟨rest, rerr, wr, false⟩) := by
          simp [TCPConn.Read, hl, hchunk]
        obtain ⟨c2, h1, h2⟩ := fillLoop_ok (rest.length + 1) ⟨rest, rerr, wr, false⟩ l chunk
          rfl (by simp) hchunk (by dsimp only; omega)
        dsimp only at h1 h2
        refine ⟨c2, ?_, ?_⟩
        · simp only [fill, hread, h1, List.flatten_cons]
          rw [List.take_append_eq_append_take, List.take_of_length_le hchunk]
        · obtain ⟨g1, g2, g3, g4⟩ := h2
          refine ⟨?_, g2, g3, g4⟩
          dsimp only at g1 ⊢
          rw [g1]
          simp only [List.flatten_cons]
          rw [List.drop_append_eq_append_drop, List.drop_of_length_le hchunk, List.nil_append]
      · have hread : TCPConn.Read ⟨chunk :: rest, rerr, wr, false⟩ l =
            (chunk.take l, none, ⟨chunk.drop l :: rest, rerr, wr, false⟩) := by
          simp [TCPConn.Read, hl, hchunk]
        have hlen : (chunk.take l).length = l := by simp [List.length_take]; omega
        refine ⟨⟨chunk.drop l :: rest, rerr, wr, false⟩, ?_, ?_⟩
        · simp only [fill, hread, fillLoop, hlen, ne_eq, not_true_eq_false, false_and,
            ↓reduceIte, List.flatten_cons]
          rw [List.take_append_of_le_length (by omega)]
        · refine ⟨?_, rfl, rfl, rfl⟩
          dsimp only
          simp only [List.flatten_cons]
          rw [List.drop_append_of_le_length (by omega)]

/-- The form of `fill_ok` used by the reader: the stream starts with the
wanted bytes. -/
theorem fill_front (c : TCPConn) (want rest : Bytes) (hopen : c.closed = false)
    (hstream : c.incoming.flatten = want ++ rest) :
    ∃ c2, fill c want.length = (want, none, c2) ∧ c2.incoming.flatten = rest ∧
      c2.readErr = c.readErr ∧ c2.written = c.written ∧ c2.closed = false := by
  obtain ⟨c2, h1, g1, g2, g3, g4⟩ := fill_ok c want.length hopen (by rw [hstream]; simp)
  refine ⟨c2, ?_, ?_, g2, g3, by rw [g4, hopen]⟩
  · rw [h1, hstream, List.take_left']
    rfl
  · rw [g1, hstream, List.drop_left']
    rfl


/-! ## Lemmas: the width of `int` -/

/-- On either implementation `int` arithmetic is the arithmetic of `int32`
or of `int64`. -/
theorem platform_cases [Platform] :
    (maxInt = 2147483647 ∧ ∀ x, toInt x = toInt32 x) ∨
    (maxInt = 9223372036854775807 ∧ ∀ x, toInt x = toInt64 x) := by
  rcases Platform.width with h | h
  · have hm : maxInt = 2147483647 := by
      unfold maxInt
      rw [h]
      norm_num
    refine Or.inl ⟨hm, fun x => ?_⟩
    unfold toInt toInt32
    rw [hm]
    norm_num
  · have hm : maxInt = 9223372036854775807 := by
      unfold maxInt
      rw [h]
      norm_num
    refine Or.inr ⟨hm, fun x => ?_⟩
    unfold toInt toInt64
    rw [hm]
    norm_num

/-- With a 32-bit `int`, `int` arithmetic is `int32` arithmetic. -/
theorem toInt_int32 (x : Int) : @toInt Platform.int32 x = toInt32 x := by
  rcases @platform_cases Platform.int32 with ⟨_, ht⟩ | ⟨hm, _⟩
  · exact ht x
  · exact absurd hm (by decide)

/-- With a 64-bit `int`, `int` arithmetic is `int64` arithmetic. -/
theorem toInt_int64 (x : Int) : @toInt Platform.int64 x = toInt64 x := by
  rcases @platform_cases Platform.int64 with ⟨hm, _⟩ | ⟨_, ht⟩
  · exact absurd hm (by decide)
  · exact ht x

theorem maxInt_ge [Platform] : 2147483647 ≤ maxInt := by
  rcases platform_cases with ⟨hm, _⟩ | ⟨hm, _⟩ <;> rw [hm] <;> omega

/-- A value in the range of `int` is not changed. -/
theorem toInt_eq_self [Platform] (x : Int) (h1 : -(maxInt + 1) ≤ x) (h2 : x ≤ maxInt) :
    toInt x = x := by
  rcases platform_cases with ⟨hm, ht⟩ | ⟨hm, ht⟩
  · rw [ht]
    rw [hm] at h1 h2
    unfold toInt32
    omega
  · rw [ht]
    rw [hm] at h1 h2
    unfold toInt64
    omega

theorem toInt_of_isInt32 [Platform] (x : Int) (h : isInt32 x) : toInt x = x := by
  have := maxInt_ge
  unfold isInt32 at h
  exact toInt_eq_self x (by omega) (by omega)

theorem toInt_zero [Platform] : toInt 0 = 0 := toInt_of_isInt32 _ (by decide)

theorem toInt_one [Platform] : toInt 1 = 1 := toInt_of_isInt32 _ (by decide)

theorem toInt_range [Platform] (x : Int) : -(maxInt + 1) ≤ toInt x ∧ toInt x ≤ maxInt := by
  rcases platform_cases with ⟨hm, ht⟩ | ⟨hm, ht⟩
  · rw [ht, hm]
    unfold toInt32
    omega
  · rw [ht, hm]
    unfold toInt64
    omega

theorem toInt_toInt [Platform] (x : Int) : toInt (toInt x) = toInt x :=
  toInt_eq_self _ (toInt_range x).1 (toInt_range x).2

/-- Wrapping an intermediate result does not change the wrapped sum. -/
theorem toInt_add [Platform] (a b : Int) : toInt (toInt a + b) = toInt (a + b) := by
  rcases platform_cases with ⟨_, ht⟩ | ⟨_, ht⟩
  · rw [ht, ht, ht]
    unfold toInt32
    omega
  · rw [ht, ht, ht]
    unfold toInt64
    omega

/-- Two wrapped values agree exactly when the values differ by a multiple
of the size of the range. -/
theorem toInt_eq_iff [Platform] (a b : Int) :
    toInt a = toInt b ↔ (a - b) % (2 * (maxInt + 1)) = 0 := by
  rcases platform_cases with ⟨hm, ht⟩ | ⟨hm, ht⟩
  · rw [ht, ht, hm]
    unfold toInt32
    omega
  · rw [ht, ht, hm]
    unfold toInt64
    omega

/-! ## Lemmas: the reader -/

theorem newDocBuffer_ok (a0 a1 a2 a3 : Nat) (k : Nat)
    (h : getInt32 [a0, a1, a2, a3] 0 = .ok ((k + 4 : Nat) : Int)) :
    newDocBuffer [a0, a1, a2, a3] = .ok ([a0, a1, a2, a3] ++ List.replicate k 0) := by
  have hneg : ¬ (((k + 4 : Nat) : Int) < 0) := by omega
  have hrep : List.replicate (((k + 4 : Nat) : Int).toNat) 0
      = 0 :: 0 :: 0 :: 0 :: List.replicate k 0 := by
    rw [Int.toNat_ofNat]
    rfl
  have g0 : getByte [a0, a1, a2, a3] 0 = .ok a0 := rfl
  have g1 : getByte [a0, a1, a2, a3] 1 = .ok a1 := rfl
  have g2 : getByte [a0, a1, a2, a3] 2 = .ok a2 := rfl
  have g3 : getByte [a0, a1, a2, a3] 3 = .ok a3 := rfl
  unfold newDocBuffer
  rw [h]
  simp only [bind, Except.bind, hneg, ↓reduceIte, hrep, g0, g1, g2, g3]
  simp [setByte, pure, Except.pure]

theorem framedDoc_split (d : Bytes) (h : framedDoc d) :
    ∃ a0 a1 a2 a3 body, d = [a0, a1, a2, a3] ++ body ∧
      getInt32 [a0, a1, a2, a3] 0 = .ok ((body.length + 4 : Nat) : Int) := by
  obtain ⟨hb, hlen, hval⟩ := h
  obtain ⟨a0, a1, a2, a3, body, rfl⟩ := split_four d hlen
  refine ⟨a0, a1, a2, a3, body, rfl, ?_⟩
  have hb4 : isBytes [a0, a1, a2, a3] := by
    intro x hx
    apply hb x
    simp only [List.mem_cons, List.mem_singleton, List.not_mem_nil, or_false] at hx ⊢
    rcases hx with h | h | h | h <;> simp [h]
  rw [getInt32_eq_int32At _ 0 (by simp) hb4]
  have e : int32At [a0, a1, a2, a3] 0 = int32At (a0 :: a1 :: a2 :: a3 :: body) 0 := by
    simp [int32At]
  rw [e, hval]
  rfl

theorem int32At_lt (b : Bytes) (pos : Nat) : int32At b pos < 2147483648 := by
  unfold int32At toInt32
  omega

theorem int32At_ge (b : Bytes) (pos : Nat) : -2147483648 ≤ int32At b pos := by
  unfold int32At toInt32
  omega

theorem deliveries_nil [Platform] (f : Option replyFunc) (reply : replyOp) (i : Int) :
    deliveries f reply i [] = [] := by
  cases f <;> rfl

theorem deliveries_cons [Platform] (f : Option replyFunc) (reply : replyOp) (i : Int) (d : Bytes)
    (ds : List Bytes) :
    deliveries f reply i (d :: ds) =
      deliveries f reply i [d] ++ deliveries f reply (toInt (i + 1)) ds := by
  cases f <;> rfl

/-- The document loop at its exit: the counter has reached the count. -/
theorem docLoop_done [Platform] (f : Option replyFunc) (reply : replyOp) (fuel : Nat)
    (s : mongoSocket) (calls : List Call) :
    docLoop f reply (fuel + 1) reply.replyDocs s calls = .next s calls := by
  simp [docLoop]

/-- One pass of the document loop over a framed document: the document is
read whole and handed to the callback with the current index, and the loop
goes on with the next `int`. -/
theorem docLoop_step [Platform] (f : Option replyFunc) (reply : replyOp) (fuel : Nat) (i : Int)
    (s : mongoSocket) (calls : List Call) (d rest : Bytes)
    (hi : i ≠ reply.replyDocs) (hopen : s.conn.closed = false)
    (hstream : s.conn.incoming.flatten = d ++ rest) (hd : framedDoc d) :
    ∃ c2, docLoop f reply (fuel + 1) i s calls =
        docLoop f reply fuel (toInt (i + 1)) { s with conn := c2 }
          (calls ++ deliveries f reply i [d]) ∧
      c2.incoming.flatten = rest ∧ c2.closed = false ∧ c2.written = s.conn.written ∧
      c2.readErr = s.conn.readErr := by
  obtain ⟨a0, a1, a2, a3, body, rfl, hget⟩ := framedDoc_split d hd
  obtain ⟨c1, hf1, hs1, he1, hw1, ho1⟩ := fill_front s.conn [a0, a1, a2, a3] (body ++ rest) hopen
    (by rw [hstream]; simp)
  obtain ⟨c2, hf2, hs2, he2, hw2, ho2⟩ := fill_front c1 body rest ho1 hs1
  have hnew := newDocBuffer_ok a0 a1 a2 a3 body.length hget
  refine ⟨c2, ?_, hs2, ho2, by rw [hw2, hw1], by rw [he2, he1]⟩
  have hf1' : fill s.conn 4 = ([a0, a1, a2, a3], none, c1) := hf1
  have hlen : ([a0, a1, a2, a3] ++ List.replicate body.length 0).length - 4 = body.length := by
    simp
  have htake : List.take 4 ([a0, a1, a2, a3] ++ List.replicate body.length 0) ++ body
      = [a0, a1, a2, a3] ++ body := by
    simp
  cases f with
  | none =>
    simp only [docLoop, hi, ne_eq, not_false_eq_true, ↓reduceIte, hf1', hnew, hlen, hf2,
      deliveries, List.append_nil]
  | some g =>
    simp only [docLoop, hi, ne_eq, not_false_eq_true, ↓reduceIte, hf1', hnew, hlen, hf2, htake,
      deliveries, docCalls]

/-- The document loop over the framed documents `pre`, none of which brings
the counter to the count: every document is read and delivered, and the
loop stands at its head again, the counter advanced by their number as an
`int`. -/
theorem docLoop_run [Platform] (f : Option replyFunc) (reply : replyOp) (pre : List Bytes)
    (fuel : Nat) (i : Int) (s : mongoSocket) (calls : List Call) (rest : Bytes)
    (hfuel : pre.length ≤ fuel) (hi : toInt i = i)
    (hgo : ∀ j : Nat, j < pre.length → toInt (i + (j : Int)) ≠ reply.replyDocs)
    (hopen : s.conn.closed = false)
    (hstream : s.conn.incoming.flatten = pre.flatten ++ rest)
    (hdocs : ∀ d ∈ pre, framedDoc d) :
    ∃ c, docLoop f reply fuel i s calls =
        docLoop f reply (fuel - pre.length) (toInt (i + (pre.length : Int))) { s with conn := c }
          (calls ++ deliveries f reply i pre) ∧
      c.incoming.flatten = rest ∧ c.closed = false ∧ c.written = s.conn.written ∧
      c.readErr = s.conn.readErr := by
  induction pre generalizing fuel i s calls with
  | nil =>
    refine ⟨s.conn, ?_, by simpa using hstream, hopen, rfl, rfl⟩
    rw [deliveries_nil]
    simp only [List.length_nil, Nat.sub_zero, Nat.cast_zero, Int.add_zero, List.append_nil, hi]
  | cons d ds ih =>
    obtain ⟨f2, rfl⟩ : ∃ f2, fuel = f2 + 1 := ⟨fuel - 1, by simp at hfuel; omega⟩
    have hne : i ≠ reply.replyDocs := by
      have := hgo 0 (by simp)
      simpa [hi] using this
    obtain ⟨c1, hstep, hs1, ho1, hw1, he1⟩ := docLoop_step f reply f2 i s calls d
      (ds.flatten ++ rest) hne hopen (by rw [hstream]; simp)
      (hdocs d (List.mem_cons_self _ _))
    obtain ⟨c2, hrec, hs2, ho2, hw2, he2⟩ := ih f2 (toInt (i + 1)) { s with conn := c1 }
      (calls ++ deliveries f reply i [d])
      (by simp at hfuel; omega) (toInt_toInt _)
      (by
        intro j hj
        rw [toInt_add]
        have := hgo (j + 1) (by simp; omega)
        have e : i + ((j + 1 : Nat) : Int) = i + 1 + (j : Int) := by push_cast; ring
        rw [e] at this
        exact this)
      ho1 hs1 (fun x hx => hdocs x (List.mem_cons_of_mem _ hx))
    refine ⟨c2, ?_, hs2, ho2, by rw [hw2]; exact hw1, by rw [he2]; exact he1⟩
    rw [hstep]
    dsimp only at hrec ⊢
    rw [hrec, toInt_add]
    have e1 : f2 + 1 - (d :: ds).length = f2 - ds.length := by simp
    have e2 : i + 1 + (ds.length : Int) = i + ((d :: ds).length : Int) := by
      simp only [List.length_cons]; push_cast; ring
    rw [e1, e2, deliveries_cons f reply i d ds, List.append_assoc]

/-- The document loop over all the documents of a reply whose count is in
the `int32` range: every document is delivered in stream order, numbered
from `i`, and the loop ends normally. -/
theorem docLoop_all [Platform] (f : Option replyFunc) (reply : replyOp) (docs : List Bytes)
    (fuel : Nat) (i : Int) (s : mongoSocket) (calls : List Call) (rest : Bytes)
    (hfuel : docs.length < fuel) (hn : reply.replyDocs = i + docs.length)
    (hlo : -2147483648 ≤ i) (hhi : reply.replyDocs < 2147483648)
    (hopen : s.conn.closed = false)
    (hstream : s.conn.incoming.flatten = docs.flatten ++ rest)
    (hdocs : ∀ d ∈ docs, framedDoc d) :
    ∃ c2, docLoop f reply fuel i s calls =
        .next { s with conn := c2 } (calls ++ deliveries f reply i docs) ∧
      c2.incoming.flatten = rest ∧ c2.closed = false ∧ c2.written = s.conn.written ∧
      c2.readErr = s.conn.readErr := by
  have hin : ∀ j : Nat, j ≤ docs.length → toInt (i + (j : Int)) = i + (j : Int) := by
    intro j hj
    exact toInt_of_isInt32 _ ⟨by omega, by omega⟩
  obtain ⟨c, hrun, hs, ho, hw, he⟩ := docLoop_run f reply docs fuel i s calls rest (by omega)
    (by simpa using hin 0 (Nat.zero_le _))
    (by
      intro j hj
      rw [hin j (by omega), hn]
      omega)
    hopen hstream hdocs
  refine ⟨c, ?_, hs, ho, hw, he⟩
  obtain ⟨f2, hf2⟩ : ∃ f2, fuel - docs.length = f2 + 1 := ⟨fuel - docs.length - 1, by omega⟩
  rw [hrun, hin docs.length (Nat.le_refl _), ← hn, hf2, docLoop_done]

/-- The document loop over `docs.length` framed documents with a registered
callback: every document is delivered in stream order, and the loop ends
normally. -/
theorem docLoop_docs [Platform] (g : replyFunc) (reply : replyOp) (docs : List Bytes)
    (fuel : Nat) (i : Int) (s : mongoSocket) (calls : List Call) (rest : Bytes)
    (hfuel : docs.length < fuel) (hn : reply.replyDocs = i + docs.length)
    (hlo : -2147483648 ≤ i) (hhi : reply.replyDocs < 2147483648)
    (hopen : s.conn.closed = false)
    (hstream : s.conn.incoming.flatten = docs.flatten ++ rest)
    (hdocs : ∀ d ∈ docs, framedDoc d) :
    ∃ c2, docLoop (some g) reply fuel i s calls =
        .next { s with conn := c2 } (calls ++ docCalls g reply i docs) ∧
      c2.incoming.flatten = rest ∧ c2.closed = false ∧ c2.written = s.conn.written ∧
      c2.readErr = s.conn.readErr :=
  docLoop_all (some g) reply docs fuel i s calls rest hfuel hn hlo hhi hopen hstream hdocs

/-- The document loop over `docs.length` framed documents without a
callback: the documents are consumed and nothing is called. -/
theorem docLoop_docs_none [Platform] (reply : replyOp) (docs : List Bytes) (fuel : Nat)
    (i : Int) (s : mongoSocket) (calls : List Call) (rest : Bytes)
    (hfuel : docs.length < fuel) (hn : reply.replyDocs = i + docs.length)
    (hlo : -2147483648 ≤ i) (hhi : reply.replyDocs < 2147483648)
    (hopen : s.conn.closed = false)
    (hstream : s.conn.incoming.flatten = docs.flatten ++ rest)
    (hdocs : ∀ d ∈ docs, framedDoc d) :
    ∃ c2, docLoop none reply fuel i s calls = .next { s with conn := c2 } calls ∧
      c2.incoming.flatten = rest ∧ c2.closed = false ∧ c2.written = s.conn.written ∧
      c2.readErr = s.conn.readErr := by
  obtain ⟨c2, h, hr⟩ := docLoop_all none reply docs fuel i s calls rest hfuel hn hlo hhi hopen
    hstream hdocs
  refine ⟨c2, ?_, hr⟩
  rw [h]
  simp [deliveries]

theorem readEnvelope_eq (p : Bytes) (hp : p.length = 36) (hb : isBytes p) :
    readEnvelope p = .ok (int32At p 0, int32At p 8, int32At p 12) := by
  unfold readEnvelope
  rw [getInt32_eq_int32At p 0 (by omega) hb,
    getInt32_eq_int32At p 8 (by omega) hb, getInt32_eq_int32At p 12 (by omega) hb]
  rfl

theorem readReply_eq (p : Bytes) (hp : p.length = 36) (hb : isBytes p) :
    readReply p = .ok (replyOf p) := by
  unfold readReply
  rw [getInt32_eq_int32At p 16 (by omega) hb,
    getInt64_eq_int64At p 20 (by omega) hb, getInt32_eq_int32At p 28 (by omega) hb,
    getInt32_eq_int32At p 32 (by omega) hb]
  rfl
theorem kill_calls_err (s : mongoSocket) (e : String) :
    ∀ c ∈ (kill s e).2, c.err = some e := by
  intro c hc
  unfold kill at hc
  split at hc
  · simp at hc
  · simp only [List.mem_map] at hc
    obtain ⟨x, _, rfl⟩ := hc
    rfl

/-- Every call the document loop adds either reports an error (the kill
fan-out) or carries the reply of the frame. -/
theorem docLoop_calls_reply [Platform] (f : Option replyFunc) (reply : replyOp) (fuel : Nat)
    (i : Int)
    (s : mongoSocket) (calls : List Call)
    (hc : ∀ c ∈ calls, c.err = none → c.reply = some reply) :
    ∀ c ∈ (docLoop f reply fuel i s calls).calls, c.err = none → c.reply = some reply := by
  induction fuel generalizing i s calls with
  | zero => exact hc
  | succ fuel ih =>
    unfold docLoop
    by_cases hi : i = reply.replyDocs
    · simp only [hi, ne_eq, not_true_eq_false, ↓reduceIte]
      exact hc
    · simp only [hi, ne_eq, not_false_eq_true, ↓reduceIte]
      rcases hfill : fill s.conn 4 with ⟨sb, err, conn⟩
      cases err with
      | some e =>
        simp only [LoopStep.calls]
        intro c hmem hnone
        rw [List.mem_append] at hmem
        rcases hmem with h | h
        · exact hc c h hnone
        · rw [kill_calls_err _ _ c h] at hnone
          cases hnone
      | none =>
        simp only
        cases hnew : newDocBuffer sb with
        | error e => exact hc
        | ok b =>
          simp only
          rcases hfill2 : fill conn (b.length - 4) with ⟨data, err2, conn2⟩
          cases err2 with
          | some e =>
            simp only [LoopStep.calls]
            intro c hmem hnone
            rw [List.mem_append] at hmem
            rcases hmem with h | h
            · exact hc c h hnone
            · rw [kill_calls_err _ _ c h] at hnone
              cases hnone
          | none =>
            simp only
            apply ih
            cases f with
            | none => exact hc
            | some g =>
              intro c hmem hnone
              simp only [List.mem_append, List.mem_singleton] at hmem
              rcases hmem with h | h
              · exact hc c h hnone
              · rw [h]


/-- Every call made while dispatching a reply either reports an error or
carries that reply. -/
theorem dispatchReply_calls_reply [Platform] (s : mongoSocket) (responseTo : Int)
    (reply : replyOp) :
    ∀ c ∈ (dispatchReply s responseTo reply).calls, c.err = none → c.reply = some reply := by
  unfold dispatchReply
  dsimp only
  have hdoc := docLoop_calls_reply (AList.lookup (toUint32 responseTo) s.replyFuncs) reply
    (s.conn.pending + 1) 0 s [] (fun c hc => absurd hc (List.not_mem_nil c))
  cases hl : AList.lookup (toUint32 responseTo) s.replyFuncs with
  | none =>
    rw [hl] at hdoc
    dsimp only
    cases hd : docLoop none reply (s.conn.pending + 1) 0 s [] <;>
      rw [hd] at hdoc <;> exact hdoc
  | some g =>
    rw [hl] at hdoc
    by_cases hz : reply.replyDocs = 0
    · rw [decide_eq_true hz]
      dsimp only
      intro c hmem _
      simp only [LoopStep.calls, List.mem_singleton] at hmem
      rw [hmem]
    · rw [decide_eq_false hz]
      dsimp only
      cases hd : docLoop (some g) reply (s.conn.pending + 1) 0 s [] <;>
        rw [hd] at hdoc <;> exact hdoc

/-- After reading the header `p`, every call a reader pass makes either
reports an error or carries the reply built from `p`. -/
theorem readFrame_calls_reply [Platform] (s : mongoSocket) (p : Bytes) (c2 : TCPConn)
    (hp : p.length = 36) (hb : isBytes p) (hfill : fill s.conn 36 = (p, none, c2)) :
    ∀ c ∈ (readFrame s).calls, c.err = none → c.reply = some (replyOf p) := by
  unfold readFrame
  rw [hfill]
  dsimp only
  rw [readEnvelope_eq p hp hb]
  dsimp only
  by_cases hop : int32At p 12 = 1
  · have hne : ¬ (int32At p 12 ≠ 1) := fun h => h hop
    rw [if_neg hne, readReply_eq p hp hb]
    exact dispatchReply_calls_reply _ _ _
  · rw [if_pos hop]
    intro c hmem hnone
    have herr := kill_calls_err _ _ c hmem
    rw [hnone] at herr
    exact Option.noConfusion herr

theorem length_le_flatten (l : List Bytes) (hl : ∀ x ∈ l, framedDoc x) :
    l.length ≤ l.flatten.length := by
  induction l with
  | nil => simp
  | cons x xs ih =>
    have hx := (hl x (List.mem_cons_self _ _)).2.1
    have := ih (fun y hy => hl y (List.mem_cons_of_mem _ hy))
    simp only [List.length_cons, List.flatten_cons, List.length_append]
    omega

theorem pending_eq (c : TCPConn) : c.pending = c.incoming.flatten.length := by
  simp [TCPConn.pending, List.length_flatten]

/-- Dispatching a reply for a registered callback whose documents are all on
the stream: they are delivered in order and the callback is removed. -/
theorem dispatchReply_ok [Platform] (s : mongoSocket) (responseTo : Int) (reply : replyOp)
    (docs : List Bytes) (rest : Bytes) (f : replyFunc) (hopen : s.conn.closed = false)
    (hstream : s.conn.incoming.flatten = docs.flatten ++ rest)
    (hf : s.replyFuncs.lookup (toUint32 responseTo) = some f)
    (hdocs : ∀ d ∈ docs, framedDoc d) (hn : reply.replyDocs = (docs.length : Int))
    (hr : reply.replyDocs < 2147483648) :
    ∃ c2, dispatchReply s responseTo reply =
        .next { s with conn := c2, replyFuncs := s.replyFuncs.erase (toUint32 responseTo) }
          (replyCalls f reply docs) ∧
      c2.incoming.flatten = rest ∧ c2.closed = false ∧ c2.written = s.conn.written ∧
      c2.readErr = s.conn.readErr := by
  unfold dispatchReply
  dsimp only
  rw [hf]
  cases docs with
  | nil =>
    have hz : reply.replyDocs = 0 := by simpa using hn
    refine ⟨s.conn, ?_, by simpa using hstream, hopen, rfl, rfl⟩
    rw [decide_eq_true hz]
    rfl
  | cons d ds =>
    have hz : ¬ reply.replyDocs = 0 := by
      rw [hn, List.length_cons]
      omega
    have hpend : (d :: ds).length < s.conn.pending + 1 := by
      have h5 := length_le_flatten (d :: ds) hdocs
      rw [pending_eq, hstream, List.length_append]
      omega
    obtain ⟨c2, hloop, hs2, ho2, hw2, he2⟩ := docLoop_docs f reply (d :: ds) (s.conn.pending + 1) 0
      s [] rest hpend (by rw [hn]; simp) (by omega) hr hopen hstream hdocs
    refine ⟨c2, ?_, hs2, ho2, hw2, he2⟩
    rw [decide_eq_false hz]
    dsimp only
    rw [hloop]
    rfl

/-- A reply frame with opcode 1 for a registered callback, followed on the
stream by its documents, is delivered in full. -/
theorem readFrame_ok [Platform] (s : mongoSocket) (p : Bytes) (docs : List Bytes) (rest : Bytes)
    (f : replyFunc) (hopen : s.conn.closed = false)
    (hstream : s.conn.incoming.flatten = p ++ docs.flatten ++ rest)
    (hp : p.length = 36) (hb : isBytes p) (hop : int32At p 12 = 1)
    (hf : s.replyFuncs.lookup (toUint32 (int32At p 8)) = some f)
    (hdocs : ∀ d ∈ docs, framedDoc d) (hn : int32At p 32 = (docs.length : Int)) :
    ∃ c2, readFrame s =
        .next { s with conn := c2, replyFuncs := s.replyFuncs.erase (toUint32 (int32At p 8)) }
          (replyCalls f (replyOf p) docs) ∧
      c2.incoming.flatten = rest ∧ c2.closed = false := by
  obtain ⟨c1, hf1, hs1, he1, hw1, ho1⟩ := fill_front s.conn p (docs.flatten ++ rest) hopen
    (by rw [hstream, List.append_assoc])
  rw [hp] at hf1
  obtain ⟨c2, hd, hs2, ho2, _, _⟩ := dispatchReply_ok { s with conn := c1 } (int32At p 8)
    (replyOf p) docs rest f ho1 hs1 hf hdocs hn (int32At_lt p 32)
  refine ⟨c2, ?_, hs2, ho2⟩
  unfold readFrame
  rw [hf1]
  dsimp only
  rw [readEnvelope_eq p hp hb]
  dsimp only
  have hne : ¬ (int32At p 12 ≠ 1) := fun h => h hop
  rw [if_neg hne, readReply_eq p hp hb]
  exact hd

/-! ## Lemmas: a stream that ends -/

theorem fillLoop_fail (fuel : Nat) (c : TCPConn) (l : Nat) (b : Bytes)
    (hopen : c.closed = false) (hfuel : c.incoming.length < fuel)
    (hshort : b.length + c.incoming.flatten.length < l) :
    ∃ data c2, fillLoop fuel c l b none = (data, some c.readErr, c2) ∧ c2.closed = false ∧
      c2.readErr = c.readErr ∧ c2.written = c.written := by
  induction fuel generalizing c b with
  | zero => omega
  | succ fuel ih =>
    have hfull : b.length ≠ l := by omega
    have hn : l - b.length ≠ 0 := by omega
    obtain ⟨inc, rerr, wr, cl⟩ := c
    dsimp only at hopen hfuel hshort ⊢
    subst hopen
    cases inc with
    | nil =>
      have hread : TCPConn.Read ⟨[], rerr, wr, false⟩ (l - b.length) =
          ([], some rerr, ⟨[], rerr, wr, false⟩) := by
        simp [TCPConn.Read, hn]
      refine ⟨b, ⟨[], rerr, wr, false⟩, ?_, rfl, rfl, rfl⟩
      simp only [fillLoop, hfull, ne_eq, not_false_eq_true, and_self, ↓reduceIte, hread,
        List.append_nil]
      cases fuel with
      | zero => rfl
      | succ f2 => simp [fillLoop]
    | cons chunk rest =>
      simp only [List.flatten_cons, List.length_append, List.length_cons] at hshort hfuel
      have hchunk : chunk.length ≤ l - b.length := by omega
      have hread : TCPConn.Read ⟨chunk :: rest, rerr, wr, false⟩ (l - b.length) =
          (chunk, none, ⟨rest, rerr, wr, false⟩) := by
        simp [TCPConn.Read, hn, hchunk]
      obtain ⟨data, c2, h1, h2, h3, h4⟩ := ih ⟨rest, rerr, wr, false⟩ (b ++ chunk) rfl
        (by dsimp only; omega) (by dsimp only; rw [List.length_append]; omega)
      refine ⟨data, c2, ?_, h2, h3, h4⟩
      simp only [fillLoop, hfull, ne_eq, not_false_eq_true, and_self, ↓reduceIte, hread]
      exact h1

/-- When the open connection holds fewer than `l` bytes, `fill` returns the
connection's read error. -/
theorem fill_fail (c : TCPConn) (l : Nat) (hopen : c.closed = false)
    (hshort : c.incoming.flatten.length < l) :
    ∃ data c2, fill c l = (data, some c.readErr, c2) ∧ c2.closed = false ∧
      c2.readErr = c.readErr ∧ c2.written = c.written := by
  have hl : l ≠ 0 := by omega
  obtain ⟨inc, rerr, wr, cl⟩ := c
  dsimp only at hopen hshort ⊢
  subst hopen
  cases inc with
  | nil =>
    refine ⟨[], ⟨[], rerr, wr, false⟩, ?_, rfl, rfl, rfl⟩
    simp [fill, TCPConn.Read, hl, fillLoop]
  | cons chunk rest =>
    simp only [List.flatten_cons, List.length_append] at hshort
    have hchunk : chunk.length ≤ l := by omega
    have hread : TCPConn.Read ⟨chunk :: rest, rerr, wr, false⟩ l =
        (chunk, none, ⟨rest, rerr, wr, false⟩) := by
      simp [TCPConn.Read, hl, hchunk]
    obtain ⟨data, c2, h1, h2, h3, h4⟩ := fillLoop_fail (rest.length + 1) ⟨rest, rerr, wr, false⟩
      l chunk rfl (by simp) (by dsimp only; omega)
    refine ⟨data, c2, ?_, h2, h3, h4⟩
    simp only [fill, hread]
    exact h1

/-- A pass of the document loop on a stream that ends before the four
length bytes are there: the socket is killed with the read error. -/
theorem docLoop_stream_ends [Platform] (f : Option replyFunc) (reply : replyOp) (fuel : Nat)
    (i : Int)
    (s : mongoSocket) (calls : List Call)
    (hi : i ≠ reply.replyDocs) (hopen : s.conn.closed = false)
    (hshort : s.conn.incoming.flatten.length < 4) :
    ∃ c2, docLoop f reply (fuel + 1) i s calls =
        .stop (kill { s with conn := c2 } s.conn.readErr).1
          (calls ++ (kill { s with conn := c2 } s.conn.readErr).2) ∧
      c2.closed = false := by
  obtain ⟨data, c2, h1, h2, _, _⟩ := fill_fail s.conn 4 hopen hshort
  refine ⟨c2, ?_, h2⟩
  simp only [docLoop, hi, ne_eq, not_false_eq_true, ↓reduceIte, h1]

/-- The document loop only adds calls to the trace it is given. -/
theorem docLoop_calls_extend [Platform] (f : Option replyFunc) (reply : replyOp) (fuel : Nat)
    (i : Int) (s : mongoSocket) (calls : List Call) :
    ∃ more, (docLoop f reply fuel i s calls).calls = calls ++ more := by
  induction fuel generalizing i s calls with
  | zero => exact ⟨[], by simp [docLoop, LoopStep.calls]⟩
  | succ fuel ih =>
    unfold docLoop
    by_cases hi : i = reply.replyDocs
    · simp only [hi, ne_eq, not_true_eq_false, ↓reduceIte]
      exact ⟨[], by simp [LoopStep.calls]⟩
    · simp only [hi, ne_eq, not_false_eq_true, ↓reduceIte]
      rcases hfill : fill s.conn 4 with ⟨sb, err, conn⟩
      cases err with
      | some e => exact ⟨_, rfl⟩
      | none =>
        simp only
        cases hnew : newDocBuffer sb with
        | error e => exact ⟨[], by simp [LoopStep.calls]⟩
        | ok b =>
          simp only
          rcases hfill2 : fill conn (b.length - 4) with ⟨data, err2, conn2⟩
          cases err2 with
          | some e => exact ⟨_, rfl⟩
          | none =>
            simp only
            cases f with
            | none => exact ih _ _ _
            | some g =>
              obtain ⟨more, hm⟩ := ih (toInt (i + 1))
                { s with conn := conn2 }
                (calls ++ [{ fn := g, err := none, reply := some reply, docNum := i,
                             docData := some (List.take 4 b ++ data) }])
              exact ⟨_ :: more, by rw [hm, List.append_assoc]; rfl⟩

/-! ## Request ids (`Query`, lines 338-349) -/

/-- C1 (the code at the failing input): with the counter at 2^32 - 2 on a
live socket, a batch of two reply-expecting get-more ops gets the ids
4294967295 and then 0.  The zero check guards only the first id of the
batch; the increment inside the loop wraps onto the reserved id 0, which is
written into the second envelope and registered in the callback map. -/
theorem Query_allocates_id_zero :
    (Query sampleMarshal (sampleSocket 4294967294 ∅ none) []
        [sampleGetMore (some 7), sampleGetMore (some 8)] none).map
      (fun r => (r.socket.conn.written.map fun buf =>
                   (toUint32 (int32At buf 4), toUint32 (int32At buf (34 + 4))),
                 r.socket.replyFuncs.lookup 4294967295, r.socket.replyFuncs.lookup 0,
                 r.socket.nextRequestId))
      = some ([(4294967295, 0)], some 7, some 8, 1) := by
  decide

/-! ## `kill` -/

/-- C2: killing a live socket records the reason, leaves the callback map
empty, and calls the callback of every entry of the old map exactly once,
each time with `(err, nil, -1, nil)`; the trace holds no other call. -/
theorem kill_notifies_every_callback (s : mongoSocket) (err : String) (hlive : s.dead = none) :
    (kill s err).1.dead = some err ∧
    (kill s err).1.replyFuncs = ∅ ∧
    (kill s err).2.length = s.replyFuncs.entries.length ∧
    (kill s err).2.map Call.fn = s.replyFuncs.entries.map (fun e => e.2) ∧
    ∀ c ∈ (kill s err).2,
      c.err = some err ∧ c.reply = none ∧ c.docNum = -1 ∧ c.docData = none := by
  simp only [kill, hlive, List.length_map, List.map_map, List.mem_map, true_and]
  refine ⟨?_, ?_⟩
  · rfl
  · rintro c ⟨e, _, rfl⟩
    exact ⟨rfl, rfl, rfl, rfl⟩

theorem kill_notifies_every_callback_witness :
    (sampleSocket 5 ((∅ : ReplyMap).insert 3 33 |>.insert 4 44) none).dead = none ∧
    (kill (sampleSocket 5 ((∅ : ReplyMap).insert 3 33 |>.insert 4 44) none) "boom").2.map Call.fn
      = [44, 33] :=
  ⟨rfl, (kill_notifies_every_callback _ "boom" rfl).2.2.2.1⟩

/-! ## `Query` on a dead socket -/

/-- C3: on a socket that is dead with reason `e`, a batch whose documents
all encode makes `Query` return `e`, call the callback of every
reply-expecting op of the batch once with `(e, nil, -1, nil)` in input
order, write nothing, and leave the counter and the callback map (indeed
the whole socket) as they were. -/
theorem Query_dead_socket {Doc : Type} (Marshal : Option Doc → Except String Bytes)
    (s : mongoSocket) (lops ops : List (Op Doc)) (writeErr : Option String) (e : String)
    (hdead : s.dead = some e) (henc : ∀ op ∈ lops ++ ops, op.encodes Marshal = true) :
    ∃ r, Query Marshal s lops ops writeErr = some r ∧
      r.err = some e ∧
      r.calls = (callbacks (lops ++ ops)).map (fun f =>
        { fn := f, err := some e, reply := none, docNum := -1, docData := none }) ∧
      r.socket.conn.written = s.conn.written ∧
      r.socket.nextRequestId = s.nextRequestId ∧
      r.socket.replyFuncs = s.replyFuncs ∧
      r.socket = s :=
  ⟨_, Query_dead Marshal s lops ops writeErr e hdead henc, rfl, rfl, rfl, rfl, rfl, rfl⟩

theorem Query_dead_socket_witness :
    (sampleSocket 5 ∅ (some "gone")).dead = some "gone" ∧
    (∀ op ∈ [] ++ [sampleInsert, sampleQuery (some 9), sampleGetMore none],
      op.encodes sampleMarshal = true) ∧
    ∃ r, Query sampleMarshal (sampleSocket 5 ∅ (some "gone")) []
        [sampleInsert, sampleQuery (some 9), sampleGetMore none] none = some r ∧
      r.err = some "gone" ∧
      r.calls = [{ fn := 9, err := some "gone", reply := none, docNum := -1, docData := none }] ∧
      r.socket.conn.written = [] ∧
      r.socket.nextRequestId = 5 :=
  ⟨rfl, by decide,
    let ⟨r, h1, h2, h3, h4, h5, _⟩ :=
      Query_dead_socket sampleMarshal (sampleSocket 5 ∅ (some "gone")) []
        [sampleInsert, sampleQuery (some 9), sampleGetMore none] none "gone" rfl (by decide)
    ⟨r, h1, h2, h3, h4, h5⟩⟩


/-! ## Ids in the written buffer and in the callback map -/

/-- C4 (counterexample): a batch of 2^32 + 1 reply-expecting get-more ops on
a live socket whose counter is 0.  The first op (callback 1) has id 1
written into its envelope, but the ids wrap around after 2^32 steps and the
last op (callback 2) is registered under id 1 as well, so the map ends up
mapping id 1 to callback 2. -/
theorem Query_ids_collide :
    ∃ r buf, Query sampleMarshal (sampleSocket 0 ∅ none) []
        (sampleGetMore (some 1) :: List.replicate 4294967296 (sampleGetMore (some 2))) none
          = some r ∧
      r.socket.conn.written = [buf] ∧
      (getInt32 buf 4).map toUint32 = .ok 1 ∧
      r.socket.replyFuncs.lookup 1 = some 2 :=
  ids_collide sampleMarshal (sampleSocket 0 ∅ none) (sampleGetMore (some 1)) 1
    (List.replicate 4294967296 (sampleGetMore (some 2))) (List.replicate 4294967295 2) 2
    rfl rfl
    (fun o ho => by rw [List.eq_of_mem_replicate ho]; rfl)
    rfl
    (by
      have h2 : (sampleGetMore (some 2)).callback = some 2 := rfl
      rw [callbacks, List.filterMap_replicate_of_some h2]
      exact List.replicate_succ' 4294967295 2)
    (List.length_replicate _ _)

/-- C4 (amended): on a live socket, for a batch whose documents encode and
which holds at most 2^32 reply-expecting ops, take any op with a callback
`f`, preceded in the batch by the ops `pre` of which `i` carry a callback.
Its envelope starts after the envelopes of `pre`; the unsigned 32-bit value
at offset 4 of that envelope is `first + i` modulo 2^32, where `first` is
the first id of the batch; afterwards the callback map maps that id to `f`;
and every key that is not one of the ids of the batch keeps its entry. -/
theorem Query_registers_ids {Doc : Type} (Marshal : Option Doc → Except String Bytes)
    (s : mongoSocket) (lops ops : List (Op Doc)) (writeErr : Option String)
    (pre post : List (Op Doc)) (op : Op Doc) (f : replyFunc)
    (hlive : s.dead = none) (henc : ∀ o ∈ lops ++ ops, o.encodes Marshal = true)
    (hsplit : lops ++ ops = pre ++ op :: post) (hc : op.callback = some f)
    (hcount : (callbacks (lops ++ ops)).length ≤ 4294967296) :
    ∃ r buf, Query Marshal s lops ops writeErr = some r ∧
      r.socket.conn.written = s.conn.written ++ [buf] ∧
      (getInt32 buf ((wireZero Marshal pre).length + 4)).map toUint32 =
        .ok ((firstId s.nextRequestId + (callbacks pre).length) % 4294967296) ∧
      r.socket.replyFuncs.lookup
        ((firstId s.nextRequestId + (callbacks pre).length) % 4294967296) = some f ∧
      ∀ k, (∀ j < (callbacks (lops ++ ops)).length,
              (firstId s.nextRequestId + j) % 4294967296 ≠ k) →
        r.socket.replyFuncs.lookup k = s.replyFuncs.lookup k := by
  have hq := Query_live Marshal s lops ops writeErr hlive henc
  have hcb : callbacks (lops ++ ops) = callbacks pre ++ f :: callbacks post := by
    rw [hsplit]
    simp [callbacks, List.filterMap_append, List.filterMap_cons, hc]
  refine ⟨_, _, hq, rfl, ?_, ?_, ?_⟩
  · rw [hsplit]
    exact written_id Marshal pre post op f _ (firstId_lt _) hc
  · show (register (callbacks (lops ++ ops)) _ _).lookup _ = _
    rw [hcb]
    apply lookup_register_mid _ _ _ _ _ (firstId_lt _)
    rw [hcb] at hcount
    simp only [List.length_append, List.length_cons] at hcount
    omega
  · intro k hk
    exact lookup_register_other _ _ _ _ (firstId_lt _) hk

theorem Query_registers_ids_witness :
    (sampleSocket 4294967294 ((∅ : ReplyMap).insert 77 5) none).dead = none ∧
    ∃ r buf, Query sampleMarshal (sampleSocket 4294967294 ((∅ : ReplyMap).insert 77 5) none) []
        [sampleGetMore (some 7), sampleInsert, sampleQuery (some 8)] none = some r ∧
      r.socket.conn.written = [] ++ [buf] ∧
      (getInt32 buf ((wireZero sampleMarshal [sampleGetMore (some 7), sampleInsert]).length + 4)).map
          toUint32 = .ok ((firstId 4294967294 + 1) % 4294967296) ∧
      r.socket.replyFuncs.lookup ((firstId 4294967294 + 1) % 4294967296) = some 8 :=
  ⟨rfl,
    let ⟨r, buf, h1, h2, h3, h4, _⟩ :=
      Query_registers_ids sampleMarshal (sampleSocket 4294967294 ((∅ : ReplyMap).insert 77 5) none)
        [] [sampleGetMore (some 7), sampleInsert, sampleQuery (some 8)] none
        [sampleGetMore (some 7), sampleInsert] [] (sampleQuery (some 8)) 8
        rfl (by decide) rfl rfl (by decide)
    ⟨r, buf, h1, h2, h3, h4⟩⟩

/-! ## Envelope lengths -/

/-- C5 (counterexample): a get-more op whose collection name has 2^31 bytes
serialises to an envelope of 2147483681 bytes; the `int32` conversion of
that length wraps, and the length field reads back as -2147483615. -/
theorem Query_length_field_wraps :
    ∃ r buf, Query sampleMarshal (sampleSocket 0 ∅ none) []
        [.getMore ⟨List.replicate 2147483648 97, 0, 0, none⟩] none = some r ∧
      r.socket.conn.written = [buf] ∧
      buf.length = 2147483681 ∧
      getInt32 buf 0 = .ok (-2147483615) := by
  obtain ⟨r, buf, h1, h2, h3, h4⟩ := getMore_length_field sampleMarshal (sampleSocket 0 ∅ none)
    (List.replicate 2147483648 97) 0 0 rfl
  rw [List.length_replicate] at h3 h4
  exact ⟨r, buf, h1, h2, h3, h4⟩

/-- C5 (amended): on a live socket, for a batch whose documents encode, the
buffer handed to `Write` is the concatenation of one envelope per op, in
input order; every envelope shorter than 2^31 bytes starts with its own
byte length as a little-endian `int32`; and when all envelopes are that
short the length fields add up to the length of the buffer. -/
theorem Query_writes_framed_envelopes {Doc : Type}
    (Marshal : Option Doc → Except String Bytes)
    (s : mongoSocket) (lops ops : List (Op Doc)) (writeErr : Option String)
    (hlive : s.dead = none) (henc : ∀ o ∈ lops ++ ops, o.encodes Marshal = true) :
    ∃ r envs, Query Marshal s lops ops writeErr = some r ∧
      r.socket.conn.written = s.conn.written ++ [envs.flatten] ∧
      List.Forall₂ (fun o e => ∃ k, e = envelope Marshal o k) (lops ++ ops) envs ∧
      (∀ e ∈ envs, e.length < 2147483648 → getInt32 e 0 = .ok (e.length : Int)) ∧
      ((∀ e ∈ envs, e.length < 2147483648) →
        (envs.map fun e => int32At e 0).sum = (envs.flatten.length : Int)) := by
  have hq := Query_live Marshal s lops ops writeErr hlive henc
  have hfield : ∀ e ∈ wireEnvelopes Marshal (lops ++ ops) (firstId s.nextRequestId),
      e.length < 2147483648 → getInt32 e 0 = .ok (e.length : Int) := by
    intro e he hlt
    obtain ⟨o, k, rfl⟩ := mem_wireEnvelopes Marshal _ _ e he
    rw [envelope_length_field, toInt32_of_lt _ hlt]
  have hat : ∀ e ∈ wireEnvelopes Marshal (lops ++ ops) (firstId s.nextRequestId),
      e.length < 2147483648 → int32At e 0 = (e.length : Int) := by
    intro e he hlt
    obtain ⟨o, k, rfl⟩ := mem_wireEnvelopes Marshal _ _ e he
    rw [int32At_envelope, toInt32_of_lt _ hlt]
  refine ⟨_, wireEnvelopes Marshal (lops ++ ops) (firstId s.nextRequestId), hq, ?_,
    wireEnvelopes_forall₂ Marshal _ _, hfield, ?_⟩
  · simp only [TCPConn.Write, wire_eq_flatten]
  · intro hall
    exact sum_length_fields _ (fun e he => hat e he (hall e he))


theorem Query_writes_framed_envelopes_witness :
    (sampleSocket 5 ∅ none).dead = none ∧
    ∃ r envs, Query sampleMarshal (sampleSocket 5 ∅ none) []
        [sampleInsert, sampleQuery (some 9)] none = some r ∧
      r.socket.conn.written = [] ++ [envs.flatten] ∧
      List.Forall₂ (fun o e => ∃ k, e = envelope sampleMarshal o k)
        ([] ++ [sampleInsert, sampleQuery (some 9)]) envs :=
  ⟨rfl,
    let ⟨r, envs, h1, h2, h3, _⟩ :=
      Query_writes_framed_envelopes sampleMarshal (sampleSocket 5 ∅ none) []
        [sampleInsert, sampleQuery (some 9)] none rfl (by decide)
    ⟨r, envs, h1, h2, h3⟩⟩

/-! ## The envelope of each operation type -/

/-- C6: for a query op whose query document encodes as `q` and whose
selector, when non-nil, encodes as `sb` (and `sb` is empty when the selector
is nil), the serialisation loop appends exactly: the 16-byte header (total
length, id field 0, `responseTo` 0, opcode 2004), `int32` flags, the
collection name and one NUL, `int32` skip, `int32` limit, `q`, and then
`sb`; all integers little-endian.  It records a request at the envelope's
start exactly when the op has a callback.  Sent alone on a live socket, the
op reaches `Write` as this envelope with only the id field filled in. -/
theorem serialize_query_envelope {Doc : Type} (Marshal : Option Doc → Except String Bytes)
    (op : queryOp Doc) (rest : List (Op Doc)) (buf : Bytes) (reqs : List requestInfo)
    (q sb : Bytes) (hq : Marshal op.query = .ok q)
    (hsel : match op.selector with
      | some sel => Marshal (some sel) = .ok sb
      | none => sb = []) :
    serializeOps Marshal (.query op :: rest) buf reqs =
      serializeOps Marshal rest
        (buf ++ frame 2004 0
          (int32LE op.flags ++ op.collection ++ [0] ++ int32LE op.skip ++ int32LE op.limit ++
            q ++ sb))
        (match op.replyFunc with
          | some f => reqs ++ [{ bufferPos := buf.length, replyFunc := f }]
          | none => reqs) ∧
    ∀ (s : mongoSocket) (writeErr : Option String), s.dead = none →
      ∃ r, Query Marshal s [] [.query op] writeErr = some r ∧
        r.socket.conn.written = s.conn.written ++
          [frame 2004 (match op.replyFunc with
              | some _ => firstId s.nextRequestId
              | none => 0)
            (int32LE op.flags ++ op.collection ++ [0] ++ int32LE op.skip ++
              int32LE op.limit ++ q ++ sb)] := by
  have henc : (Op.query op).encodes Marshal = true := by
    cases hs : op.selector with
    | none => simp [Op.encodes, Op.docs, hs, marshals_of_ok Marshal _ _ hq]
    | some sel =>
      rw [hs] at hsel
      simp [Op.encodes, Op.docs, hs, marshals_of_ok Marshal _ _ hq,
        marshals_of_ok Marshal _ _ hsel]
  have hsb : (match op.selector with
      | some sel => encoded Marshal (some sel)
      | none => []) = sb := by
    cases hs : op.selector with
    | none => rw [hs] at hsel; simp [hsel]
    | some sel => rw [hs] at hsel; simp [encoded_of_ok Marshal _ _ hsel]
  refine ⟨?_, fun s writeErr hlive => ?_⟩
  · rw [serializeOps_cons Marshal _ rest buf reqs henc]
    simp only [envelope, Op.payload, Op.opcode, Op.callback, encoded_of_ok Marshal _ _ hq, hsb]
  · obtain ⟨r, h1, h2⟩ := Query_single Marshal s (.query op) writeErr hlive henc
    refine ⟨r, h1, ?_⟩
    rw [h2]
    simp only [envelope, Op.payload, Op.opcode, Op.callback, encoded_of_ok Marshal _ _ hq, hsb]

theorem serialize_query_envelope_witness :
    sampleMarshal (some 1) = .ok [6, 0, 0, 0, 1, 0] ∧
    serializeOps sampleMarshal [sampleQuery (some 9)] [] [] =
      .ok ([36, 0, 0, 0, 0, 0, 0, 0, 0, 0, 0, 0, 212, 7, 0, 0,
            4, 0, 0, 0, 97, 0, 2, 0, 0, 0, 3, 0, 0, 0, 6, 0, 0, 0, 1, 0],
           [{ bufferPos := 0, replyFunc := 9 }]) :=
  ⟨rfl,
    (serialize_query_envelope sampleMarshal
      { collection := [97], query := some 1, skip := 2, limit := 3, selector := none,
        flags := 4, replyFunc := some 9 } [] [] [] [6, 0, 0, 0, 1, 0] [] rfl rfl).1.trans rfl⟩

/-- C7: for an update op whose selector and update document encode as `sb`
and `ub`, an insert op whose documents encode as the list `ds`, and a delete
op whose selector encodes as `db`, the serialisation loop appends exactly
the 16-byte header (opcode 2001, 2002, 2006 respectively; id field and
`responseTo` 0), `int32` 0, the collection name and one NUL, and then: for
update `int32` flags, `sb`, `ub`; for insert the members of `ds` in list
order; for delete `int32` flags, `db`.  None of them records a request, and
sent alone on a live socket each reaches `Write` as exactly this envelope. -/
theorem serialize_write_envelopes {Doc : Type} (Marshal : Option Doc → Except String Bytes)
    (uop : updateOp Doc) (iop : insertOp Doc) (dop : deleteOp Doc)
    (rest : List (Op Doc)) (buf : Bytes) (reqs : List requestInfo)
    (sb ub db : Bytes) (ds : List Bytes)
    (hsb : Marshal uop.selector = .ok sb) (hub : Marshal uop.update = .ok ub)
    (hds : List.Forall₂ (fun d data => Marshal d = .ok data) iop.documents ds)
    (hdb : Marshal dop.selector = .ok db) :
    serializeOps Marshal (.update uop :: rest) buf reqs =
      serializeOps Marshal rest
        (buf ++ frame 2001 0
          (int32LE 0 ++ uop.collection ++ [0] ++ int32LE uop.flags ++ sb ++ ub)) reqs ∧
    serializeOps Marshal (.insert iop :: rest) buf reqs =
      serializeOps Marshal rest
        (buf ++ frame 2002 0 (int32LE 0 ++ iop.collection ++ [0] ++ ds.flatten)) reqs ∧
    serializeOps Marshal (.delete dop :: rest) buf reqs =
      serializeOps Marshal rest
        (buf ++ frame 2006 0
          (int32LE 0 ++ dop.collection ++ [0] ++ int32LE dop.flags ++ db)) reqs ∧
    ∀ (s : mongoSocket) (writeErr : Option String), s.dead = none →
      (∃ r, Query Marshal s [] [.update uop] writeErr = some r ∧
        r.socket.conn.written = s.conn.written ++
          [frame 2001 0 (int32LE 0 ++ uop.collection ++ [0] ++ int32LE uop.flags ++ sb ++ ub)]) ∧
      (∃ r, Query Marshal s [] [.insert iop] writeErr = some r ∧
        r.socket.conn.written = s.conn.written ++
          [frame 2002 0 (int32LE 0 ++ iop.collection ++ [0] ++ ds.flatten)]) ∧
      (∃ r, Query Marshal s [] [.delete dop] writeErr = some r ∧
        r.socket.conn.written = s.conn.written ++
          [frame 2006 0 (int32LE 0 ++ dop.collection ++ [0] ++ int32LE dop.flags ++ db)]) := by
  have hi := forall₂_marshal Marshal _ _ hds
  have hu : (Op.update uop).encodes Marshal = true := by
    simp [Op.encodes, Op.docs, marshals_of_ok Marshal _ _ hsb, marshals_of_ok Marshal _ _ hub]
  have hd : (Op.delete dop).encodes Marshal = true := by
    simp [Op.encodes, Op.docs, marshals_of_ok Marshal _ _ hdb]
  have hins : (Op.insert iop).encodes Marshal = true := hi.1
  have eu : envelope Marshal (.update uop) 0 =
      frame 2001 0 (int32LE 0 ++ uop.collection ++ [0] ++ int32LE uop.flags ++ sb ++ ub) := by
    simp only [envelope, Op.payload, Op.opcode, encoded_of_ok Marshal _ _ hsb,
      encoded_of_ok Marshal _ _ hub]
  have ei : envelope Marshal (.insert iop) 0 =
      frame 2002 0 (int32LE 0 ++ iop.collection ++ [0] ++ ds.flatten) := by
    simp only [envelope, Op.payload, Op.opcode, hi.2]
  have ed : envelope Marshal (.delete dop) 0 =
      frame 2006 0 (int32LE 0 ++ dop.collection ++ [0] ++ int32LE dop.flags ++ db) := by
    simp only [envelope, Op.payload, Op.opcode, encoded_of_ok Marshal _ _ hdb]
  refine ⟨?_, ?_, ?_, fun s writeErr hlive => ⟨?_, ?_, ?_⟩⟩
  · rw [serializeOps_cons Marshal _ rest buf reqs hu, eu]
    rfl
  · rw [serializeOps_cons Marshal _ rest buf reqs hins, ei]
    rfl
  · rw [serializeOps_cons Marshal _ rest buf reqs hd, ed]
    rfl
  · obtain ⟨r, h1, h2⟩ := Query_single Marshal s (.update uop) writeErr hlive hu
    exact ⟨r, h1, by rw [h2, ← eu]; rfl⟩
  · obtain ⟨r, h1, h2⟩ := Query_single Marshal s (.insert iop) writeErr hlive hins
    exact ⟨r, h1, by rw [h2, ← ei]; rfl⟩
  · obtain ⟨r, h1, h2⟩ := Query_single Marshal s (.delete dop) writeErr hlive hd
    exact ⟨r, h1, by rw [h2, ← ed]; rfl⟩

theorem serialize_write_envelopes_witness :
    sampleMarshal (some 0) = .ok [5, 0, 0, 0, 0] ∧
    sampleMarshal (some 1) = .ok [6, 0, 0, 0, 1, 0] ∧
    serializeOps sampleMarshal
        [.update { collection := [97], selector := some 0, update := some 1, flags := 2 }] [] [] =
      .ok ([37, 0, 0, 0, 0, 0, 0, 0, 0, 0, 0, 0, 209, 7, 0, 0,
            0, 0, 0, 0, 97, 0, 2, 0, 0, 0, 5, 0, 0, 0, 0, 6, 0, 0, 0, 1, 0], []) ∧
    serializeOps sampleMarshal
        [.insert { collection := [97], documents := [some 1, some 0] }] [] [] =
      .ok ([33, 0, 0, 0, 0, 0, 0, 0, 0, 0, 0, 0, 210, 7, 0, 0,
            0, 0, 0, 0, 97, 0, 6, 0, 0, 0, 1, 0, 5, 0, 0, 0, 0], []) ∧
    serializeOps sampleMarshal
        [.delete { collection := [97], selector := some 0, flags := 1 }] [] [] =
      .ok ([31, 0, 0, 0, 0, 0, 0, 0, 0, 0, 0, 0, 214, 7, 0, 0,
            0, 0, 0, 0, 97, 0, 1, 0, 0, 0, 5, 0, 0, 0, 0], []) :=
  have h := serialize_write_envelopes sampleMarshal
    { collection := [97], selector := some 0, update := some 1, flags := 2 }
    { collection := [97], documents := [some 1, some 0] }
    { collection := [97], selector := some 0, flags := 1 }
    [] [] [] [5, 0, 0, 0, 0] [6, 0, 0, 0, 1, 0] [5, 0, 0, 0, 0]
    [[6, 0, 0, 0, 1, 0], [5, 0, 0, 0, 0]] rfl rfl
    (List.Forall₂.cons rfl (List.Forall₂.cons rfl List.Forall₂.nil)) rfl
  ⟨rfl, rfl, h.1.trans rfl, h.2.1.trans rfl, h.2.2.1.trans rfl⟩

/-- C8: for a get-more op with collection name `ns`, limit `l` and cursor id
`c`, the serialisation loop appends exactly 33 + len(ns) bytes: the 16-byte
header (total length, id field 0, `responseTo` 0, opcode 2005), `int32` 0,
`ns` and one NUL, `int32` l and `int64` c, all little-endian; and `getInt64`
on the last eight bytes of that envelope returns `c`, for every `c` in the
`int64` range, negative values included.  Sent alone on a live socket, the
op reaches `Write` as this envelope with only the id field filled in. -/
theorem serialize_getMore_envelope {Doc : Type} (Marshal : Option Doc → Except String Bytes)
    (op : getMoreOp) (rest : List (Op Doc)) (buf : Bytes) (reqs : List requestInfo)
    (hc : isInt64 op.cursorId) :
    serializeOps Marshal (.getMore op :: rest) buf reqs =
      serializeOps Marshal rest
        (buf ++ frame 2005 0
          (int32LE 0 ++ op.collection ++ [0] ++ int32LE op.limit ++ int64LE op.cursorId))
        (match op.replyFunc with
          | some f => reqs ++ [{ bufferPos := buf.length, replyFunc := f }]
          | none => reqs) ∧
    (frame 2005 0
      (int32LE 0 ++ op.collection ++ [0] ++ int32LE op.limit ++ int64LE op.cursorId)).length
        = 33 + op.collection.length ∧
    getInt64 (frame 2005 0
        (int32LE 0 ++ op.collection ++ [0] ++ int32LE op.limit ++ int64LE op.cursorId))
      (33 + op.collection.length - 8) = .ok op.cursorId ∧
    ∀ (s : mongoSocket) (writeErr : Option String), s.dead = none →
      ∃ r, Query Marshal s [] [.getMore op] writeErr = some r ∧
        r.socket.conn.written = s.conn.written ++
          [frame 2005 (match op.replyFunc with
              | some _ => firstId s.nextRequestId
              | none => 0)
            (int32LE 0 ++ op.collection ++ [0] ++ int32LE op.limit ++
              int64LE op.cursorId)] := by
  refine ⟨?_, ?_, ?_, fun s writeErr hlive => ?_⟩
  · rw [serializeOps_cons Marshal (.getMore op) rest buf reqs rfl]
    simp only [envelope, Op.payload, Op.opcode, Op.callback]
  · simp only [frame, List.length_append, int32LE_length, int64LE_length, List.length_cons,
      List.length_nil]
    omega
  · have := getInt64_mid (int32LE (16 + (int32LE 0 ++ op.collection ++ [0] ++ int32LE op.limit ++
        int64LE op.cursorId).length : Nat) ++ int32LE (0 : Nat) ++ int32LE 0 ++
        int32LE 2005 ++ (int32LE 0 ++ op.collection ++ [0] ++ int32LE op.limit)) []
      (op.cursorId % 256).toNat (op.cursorId / 256 % 256).toNat
      (op.cursorId / 65536 % 256).toNat (op.cursorId / 16777216 % 256).toNat
      (op.cursorId / 4294967296 % 256).toNat (op.cursorId / 1099511627776 % 256).toNat
      (op.cursorId / 281474976710656 % 256).toNat (op.cursorId / 72057594037927936 % 256).toNat
      (by omega) (by omega) (by omega) (by omega) (by omega) (by omega) (by omega)
    have hpos : (int32LE (16 + (int32LE 0 ++ op.collection ++ [0] ++ int32LE op.limit ++
        int64LE op.cursorId).length : Nat) ++ int32LE (0 : Nat) ++ int32LE 0 ++
        int32LE 2005 ++ (int32LE 0 ++ op.collection ++ [0] ++ int32LE op.limit)).length
        = 33 + op.collection.length - 8 := by
      simp only [List.length_append, int32LE_length, List.length_cons, List.length_nil]
      omega
    rw [hpos] at this
    have hval : toInt64 (((op.cursorId % 256).toNat + 256 * (op.cursorId / 256 % 256).toNat +
        65536 * (op.cursorId / 65536 % 256).toNat +
        16777216 * (op.cursorId / 16777216 % 256).toNat +
        4294967296 * (op.cursorId / 4294967296 % 256).toNat +
        1099511627776 * (op.cursorId / 1099511627776 % 256).toNat +
        281474976710656 * (op.cursorId / 281474976710656 % 256).toNat +
        72057594037927936 * (op.cursorId / 72057594037927936 % 256).toNat : Nat) : Int)
        = op.cursorId := by
      rw [int64_bytes_value]
      unfold isInt64 at hc
      unfold toInt64
      omega
    rw [hval] at this
    rw [← this]
    simp only [frame, int64LE, List.append_assoc]
  · obtain ⟨r, h1, h2⟩ := Query_single Marshal s (.getMore op) writeErr hlive rfl
    refine ⟨r, h1, ?_⟩
    rw [h2]
    simp only [envelope, Op.payload, Op.opcode, Op.callback]

theorem serialize_getMore_envelope_witness :
    isInt64 (-2) ∧
    serializeOps sampleMarshal [sampleGetMore (some 7)] [] [] =
      .ok ([34, 0, 0, 0, 0, 0, 0, 0, 0, 0, 0, 0, 213, 7, 0, 0, 0, 0, 0, 0, 97, 0, 3, 0, 0, 0,
            254, 255, 255, 255, 255, 255, 255, 255], [{ bufferPos := 0, replyFunc := 7 }]) ∧
    getInt64 [34, 0, 0, 0, 0, 0, 0, 0, 0, 0, 0, 0, 213, 7, 0, 0, 0, 0, 0, 0, 97, 0, 3, 0, 0, 0,
            254, 255, 255, 255, 255, 255, 255, 255] 26 = .ok (-2) :=
  have h := serialize_getMore_envelope sampleMarshal
    { collection := [97], limit := 3, cursorId := -2, replyFunc := some 7 } [] [] []
    (by norm_num [isInt64])
  ⟨by norm_num [isInt64], h.1.trans rfl, h.2.2.1⟩

/-! ## The reply reader -/

theorem docCalls_length [Platform] (f : replyFunc) (reply : replyOp) (i : Int) (docs : List Bytes) :
    (docCalls f reply i docs).length = docs.length := by
  induction docs generalizing i with
  | nil => rfl
  | cons d ds ih => simp [docCalls, ih]

theorem docCalls_getElem? [Platform] (f : replyFunc) (reply : replyOp) (i : Int)
    (docs : List Bytes) (j : Nat) (hlo : -2147483648 ≤ i)
    (hhi : i + (docs.length : Int) < 2147483648) :
    (docCalls f reply i docs)[j]? = docs[j]?.map fun d =>
      { fn := f, err := none, reply := some reply, docNum := i + j, docData := some d } := by
  induction docs generalizing i j with
  | nil => simp [docCalls]
  | cons d ds ih =>
    simp only [List.length_cons] at hhi
    push_cast at hhi
    cases j with
    | zero => simp [docCalls]
    | succ j =>
      have e : toInt (i + 1) = i + 1 := toInt_of_isInt32 _ ⟨by omega, by omega⟩
      simp only [docCalls, List.getElem?_cons_succ, e, ih (i + 1) j (by omega) (by omega)]
      congr 1
      funext x
      congr 1
      push_cast
      ring

/-- C9: the reader reads a 36-byte header `p` with opcode 1 whose
`responseTo` names the registered callback `f`, and the stream goes on with
the `n` framed documents `docs`, where `n` is the header's `replyDocs`.
If `n = 0` the pass calls `f` exactly once, with (nil error, the reply,
docNum -1, nil bytes).  If `n > 0` it calls `f` exactly `n` times and the
`j`-th call (from 0, in stream order) has (nil error, the reply, `j`, the
bytes of the `j`-th document).  No other call is made and the loop goes
on. -/
theorem readFrame_delivers_reply [Platform] (s : mongoSocket) (p : Bytes) (docs : List Bytes)
    (rest : Bytes) (f : replyFunc) (hopen : s.conn.closed = false)
    (hstream : s.conn.incoming.flatten = p ++ docs.flatten ++ rest)
    (hp : p.length = 36) (hb : isBytes p) (hop : int32At p 12 = 1)
    (hf : s.replyFuncs.lookup (toUint32 (int32At p 8)) = some f)
    (hdocs : ∀ d ∈ docs, framedDoc d) (hn : int32At p 32 = (docs.length : Int)) :
    ∃ s2 calls, readFrame s = .next s2 calls ∧
      (docs = [] →
        calls = [{ fn := f, err := none, reply := some (replyOf p), docNum := -1,
                   docData := none }]) ∧
      (docs ≠ [] →
        calls.length = docs.length ∧
        ∀ j, j < docs.length →
          calls[j]? = docs[j]?.map fun d =>
            { fn := f, err := none, reply := some (replyOf p), docNum := (j : Int),
              docData := some d }) := by
  obtain ⟨c2, h, _, _⟩ := readFrame_ok s p docs rest f hopen hstream hp hb hop hf hdocs hn
  refine ⟨_, _, h, ?_, ?_⟩
  · intro he
    rw [he]
    rfl
  · intro hne
    cases docs with
    | nil => exact absurd rfl hne
    | cons d ds =>
      refine ⟨docCalls_length _ _ _ _, fun j _ => ?_⟩
      have := docCalls_getElem? f (replyOf p) 0 (d :: ds) j (by omega)
        (by have := int32At_lt p 32; rw [hn] at this; omega)
      simpa [replyCalls] using this

theorem readFrame_delivers_reply_witness :
    (sampleReader [sampleHeader 3 2 ++ [5, 0], [0, 0, 7, 6, 0, 0], [0, 1, 2, 99]]).conn.closed
      = false ∧
    (∀ d ∈ [[5, 0, 0, 0, 7], [6, 0, 0, 0, 1, 2]], framedDoc d) ∧
    ∃ s2 calls,
      readFrame (sampleReader [sampleHeader 3 2 ++ [5, 0], [0, 0, 7, 6, 0, 0], [0, 1, 2, 99]])
        = .next s2 calls ∧
      calls.length = 2 ∧
      calls[1]? = some { fn := 33, err := none, reply := some (replyOf (sampleHeader 3 2)),
                         docNum := 1, docData := some [6, 0, 0, 0, 1, 2] } :=
  ⟨rfl, by decide,
    let ⟨s2, calls, h1, _, h3⟩ := readFrame_delivers_reply
      (sampleReader [sampleHeader 3 2 ++ [5, 0], [0, 0, 7, 6, 0, 0], [0, 1, 2, 99]])
      (sampleHeader 3 2) [[5, 0, 0, 0, 7], [6, 0, 0, 0, 1, 2]] [99] 33 rfl (by decide) rfl
      (by decide) (by decide) (by decide) (by decide) (by decide)
    ⟨s2, calls, h1, (h3 (by decide)).1, (h3 (by decide)).2 1 (by decide)⟩⟩

/-- C10: for every 36-byte reply header `p`, the reader takes `responseTo`
from the little-endian `int32` at offset 8 and the opcode from offset 12
(the total length from offset 0), and builds the reply from the twenty
bytes after the envelope: flags is the `int32` at offset 16 (stored as
`uint32`), cursor id the `int64` at offset 20, first document the `int32`
at offset 28 and document count the `int32` at offset 32.  Every call a
reader pass makes after reading `p`, apart from the error fan-out of a
kill, hands that reply to the callback. -/
theorem readFrame_header_layout [Platform] (p : Bytes) (hp : p.length = 36) (hb : isBytes p) :
    readEnvelope p = .ok (int32At p 0, int32At p 8, int32At p 12) ∧
    readReply p = .ok { flags := toUint32 (int32At p 16), cursorId := int64At p 20,
                        firstDoc := int32At p 28, replyDocs := int32At p 32 } ∧
    ∀ (s : mongoSocket) (c2 : TCPConn), fill s.conn 36 = (p, none, c2) →
      ∀ c ∈ (readFrame s).calls, c.err = none →
        c.reply = some { flags := toUint32 (int32At p 16), cursorId := int64At p 20,
                         firstDoc := int32At p 28, replyDocs := int32At p 32 } :=
  ⟨readEnvelope_eq p hp hb, readReply_eq p hp hb,
    fun s c2 hfill => readFrame_calls_reply s p c2 hp hb hfill⟩

theorem readFrame_header_layout_witness :
    (sampleHeader 3 2).length = 36 ∧ isBytes (sampleHeader 3 2) ∧
    readEnvelope (sampleHeader 3 2) = .ok (0, 3, 1) ∧
    readReply (sampleHeader 3 2) =
      .ok { flags := 8, cursorId := -9223372036854775799, firstDoc := 0, replyDocs := 2 } ∧
    ∀ c ∈ (readFrame (sampleReader [sampleHeader 3 2 ++ [5, 0], [0, 0, 7, 6, 0, 0],
        [0, 1, 2, 99]])).calls, c.err = none →
      c.reply = some { flags := 8, cursorId := -9223372036854775799, firstDoc := 0,
                       replyDocs := 2 } :=
  ⟨rfl, by decide,
    (readFrame_header_layout (sampleHeader 3 2) rfl (by decide)).1.trans rfl,
    (readFrame_header_layout (sampleHeader 3 2) rfl (by decide)).2.1.trans rfl,
    (readFrame_header_layout (sampleHeader 3 2) rfl (by decide)).2.2
      (sampleReader [sampleHeader 3 2 ++ [5, 0], [0, 0, 7, 6, 0, 0], [0, 1, 2, 99]])
      { incoming := [[5, 0], [0, 0, 7, 6, 0, 0], [0, 1, 2, 99]], readErr := "EOF",
        written := [], closed := false }
      (by decide)⟩


/-! ## Lemmas: the callback map during a frame -/

/-- Dispatching a reply whose id is not registered: the documents are read
and dropped, nothing is called, and the map stays as it is. -/
theorem dispatchReply_unregistered [Platform] (s : mongoSocket) (responseTo : Int) (reply : replyOp)
    (docs : List Bytes) (rest : Bytes) (hopen : s.conn.closed = false)
    (hstream : s.conn.incoming.flatten = docs.flatten ++ rest)
    (hf : s.replyFuncs.lookup (toUint32 responseTo) = none)
    (hdocs : ∀ d ∈ docs, framedDoc d) (hn : reply.replyDocs = (docs.length : Int))
    (hr : reply.replyDocs < 2147483648) :
    ∃ c2, dispatchReply s responseTo reply = .next { s with conn := c2 } [] ∧
      c2.incoming.flatten = rest ∧ c2.closed = false := by
  have hpend : docs.length < s.conn.pending + 1 := by
    have h5 := length_le_flatten docs hdocs
    rw [pending_eq, hstream, List.length_append]
    omega
  obtain ⟨c2, hloop, hs2, ho2, _, _⟩ := docLoop_docs_none reply docs (s.conn.pending + 1) 0
    s [] rest hpend (by rw [hn]; simp) (by omega) hr hopen hstream hdocs
  refine ⟨c2, ?_, hs2, ho2⟩
  unfold dispatchReply
  dsimp only
  rw [hf]
  dsimp only
  rw [hloop]
  rfl

/-- Reading a header with opcode 1 leads to dispatching its reply on the
socket whose connection has delivered those 36 bytes. -/
theorem readFrame_dispatch [Platform] (s : mongoSocket) (p rest : Bytes)
    (hopen : s.conn.closed = false)
    (hstream : s.conn.incoming.flatten = p ++ rest)
    (hp : p.length = 36) (hb : isBytes p) (hop : int32At p 12 = 1) :
    ∃ c1, fill s.conn 36 = (p, none, c1) ∧ c1.incoming.flatten = rest ∧ c1.closed = false ∧
      readFrame s = dispatchReply { s with conn := c1 } (int32At p 8) (replyOf p) ∧
      c1.readErr = s.conn.readErr := by
  obtain ⟨c1, hf1, hs1, he1, _, ho1⟩ := fill_front s.conn p rest hopen hstream
  rw [hp] at hf1
  refine ⟨c1, hf1, hs1, ho1, ?_, he1⟩
  unfold readFrame
  rw [hf1]
  dsimp only
  rw [readEnvelope_eq p hp hb]
  dsimp only
  have hne : ¬ (int32At p 12 ≠ 1) := fun h => h hop
  rw [if_neg hne, readReply_eq p hp hb]


/-! ## The callback map across a frame -/

/-- Dispatching a reply that announces more documents than the stream
holds, for a registered callback on a live socket: the documents that are
there are delivered, the next read fails, and the kill that follows finds
the map as it was before the frame. -/
theorem dispatchReply_cut_short [Platform] (s : mongoSocket) (responseTo : Int)
    (reply : replyOp) (docs : List Bytes) (rest : Bytes) (f : replyFunc)
    (hopen : s.conn.closed = false) (hlive : s.dead = none)
    (hstream : s.conn.incoming.flatten = docs.flatten ++ rest)
    (hf : s.replyFuncs.lookup (toUint32 responseTo) = some f)
    (hdocs : ∀ d ∈ docs, framedDoc d) (hn : (docs.length : Int) < reply.replyDocs)
    (hr : reply.replyDocs < 2147483648) (hrest : rest.length < 4) :
    ∃ c2 : TCPConn, dispatchReply s responseTo reply =
        .stop { s with conn := c2.Close, dead := some s.conn.readErr, replyFuncs := ∅ }
          (docCalls f reply 0 docs ++ s.replyFuncs.entries.map fun e =>
            { fn := e.2, err := some s.conn.readErr, reply := none, docNum := -1,
              docData := none }) := by
  have hin : ∀ j : Nat, j ≤ docs.length → toInt (0 + (j : Int)) = (j : Int) := by
    intro j hj
    rw [Int.zero_add]
    exact toInt_of_isInt32 _ ⟨by omega, by omega⟩
  have hpend : docs.length + 1 ≤ s.conn.pending + 1 := by
    have h5 := length_le_flatten docs hdocs
    rw [pending_eq, hstream, List.length_append]
    omega
  obtain ⟨c, hrun, hsc, hoc, _, hec⟩ := docLoop_run (some f) reply docs (s.conn.pending + 1) 0 s []
    rest (by omega) (by simpa using hin 0 (Nat.zero_le _))
    (by
      intro j hj
      rw [hin j (by omega)]
      omega)
    hopen hstream hdocs
  obtain ⟨f2, hf2⟩ : ∃ f2, s.conn.pending + 1 - docs.length = f2 + 1 :=
    ⟨s.conn.pending - docs.length, by omega⟩
  obtain ⟨c2, hend, _⟩ := docLoop_stream_ends (some f) reply f2 (toInt (0 + (docs.length : Int)))
    { s with conn := c } ([] ++ deliveries (some f) reply 0 docs)
    (by rw [hin docs.length (Nat.le_refl _)]; omega) hoc
    (by dsimp only; rw [hsc]; exact hrest)
  rw [hf2, hend] at hrun
  dsimp only at hrun
  have hkill : kill { s with conn := c2 } c.readErr =
      ({ s with conn := c2.Close, dead := some s.conn.readErr, replyFuncs := ∅ },
       s.replyFuncs.entries.map fun e =>
         { fn := e.2, err := some s.conn.readErr, reply := none, docNum := -1,
           docData := none }) := by
    unfold kill
    dsimp only
    rw [hlive, hec]
  rw [hkill] at hrun
  refine ⟨c2, ?_⟩
  have hz : decide (reply.replyDocs = 0) = false := by
    rw [decide_eq_false_iff_not]; omega
  unfold dispatchReply
  dsimp only
  rw [hf, hz]
  dsimp only
  rw [hrun]
  rfl

/-- C12: the reader reads a 36-byte header `p` whose opcode field differs
from 1.  The pass ends the reader with the result of
`kill "opcode != 1, corrupted data?"` on the socket as it stands after the
header: only those 36 bytes were taken from the stream, so no document was
read, and the trace is the fan-out of the kill alone, so no callback was
looked up for the frame.  On a live socket the kill records the reason,
closes the connection, empties the map, and every callback registered at
that moment is called with `(reason, nil, -1, nil)`. -/
theorem readFrame_rejects_foreign_opcode [Platform] (s : mongoSocket) (p rest : Bytes)
    (hopen : s.conn.closed = false) (hstream : s.conn.incoming.flatten = p ++ rest)
    (hp : p.length = 36) (hb : isBytes p) (hop : int32At p 12 ≠ 1) :
    ∃ c1, fill s.conn 36 = (p, none, c1) ∧ c1.incoming.flatten = rest ∧
      readFrame s = .stop (kill { s with conn := c1 } "opcode != 1, corrupted data?").1
        (kill { s with conn := c1 } "opcode != 1, corrupted data?").2 ∧
      (s.dead = none →
        readFrame s = .stop
          { s with conn := c1.Close, dead := some "opcode != 1, corrupted data?",
                   replyFuncs := ∅ }
          (s.replyFuncs.entries.map fun e =>
            { fn := e.2, err := some "opcode != 1, corrupted data?", reply := none,
              docNum := -1, docData := none }) ∧
        ∀ k f, s.replyFuncs.lookup k = some f →
          ({ fn := f, err := some "opcode != 1, corrupted data?", reply := none, docNum := -1,
             docData := none } : Call) ∈ (readFrame s).calls) := by
  obtain ⟨c1, hf1, hs1, _, _, ho1⟩ := fill_front s.conn p rest hopen hstream
  rw [hp] at hf1
  have hrun : readFrame s = .stop (kill { s with conn := c1 } "opcode != 1, corrupted data?").1
      (kill { s with conn := c1 } "opcode != 1, corrupted data?").2 := by
    unfold readFrame
    rw [hf1]
    dsimp only
    rw [readEnvelope_eq p hp hb]
    dsimp only
    rw [if_pos hop]
  refine ⟨c1, hf1, hs1, hrun, ?_⟩
  intro hlive
  have hkill : kill { s with conn := c1 } "opcode != 1, corrupted data?" =
      ({ s with conn := c1.Close, dead := some "opcode != 1, corrupted data?",
                replyFuncs := ∅ },
       s.replyFuncs.entries.map fun e =>
         { fn := e.2, err := some "opcode != 1, corrupted data?", reply := none,
           docNum := -1, docData := none }) := by
    unfold kill
    dsimp only
    rw [hlive]
  have hrun2 := hrun
  rw [hkill] at hrun2
  refine ⟨hrun2, ?_⟩
  intro k f hkf
  rw [hrun2]
  show _ ∈ List.map _ _
  have hmem : (⟨k, f⟩ : Sigma fun _ : Nat => replyFunc) ∈ s.replyFuncs.entries :=
    AList.mem_lookup_iff.mp (by rw [hkf]; exact rfl)
  exact List.mem_map.mpr ⟨⟨k, f⟩, hmem, rfl⟩

theorem readFrame_rejects_foreign_opcode_witness :
    (sampleReader [[0, 0, 0, 0, 0, 0, 0, 0, 3, 0, 0, 0, 2, 0, 0, 0], [8, 0, 0, 0, 9, 0, 0, 0,
        0, 0, 0, 128, 0, 0, 0, 0, 1, 0, 0, 0, 5, 0, 0, 0, 7]]).conn.closed = false ∧
    int32At [0, 0, 0, 0, 0, 0, 0, 0, 3, 0, 0, 0, 2, 0, 0, 0, 8, 0, 0, 0, 9, 0, 0, 0,
        0, 0, 0, 128, 0, 0, 0, 0, 1, 0, 0, 0] 12 ≠ 1 ∧
    (readFrame (sampleReader [[0, 0, 0, 0, 0, 0, 0, 0, 3, 0, 0, 0, 2, 0, 0, 0], [8, 0, 0, 0,
        9, 0, 0, 0, 0, 0, 0, 128, 0, 0, 0, 0, 1, 0, 0, 0, 5, 0, 0, 0, 7]])).calls =
      [{ fn := 44, err := some "opcode != 1, corrupted data?", reply := none, docNum := -1,
         docData := none },
       { fn := 33, err := some "opcode != 1, corrupted data?", reply := none, docNum := -1,
         docData := none }] :=
  ⟨rfl, by decide,
    let ⟨_, _, _, _, h⟩ := readFrame_rejects_foreign_opcode
      (sampleReader [[0, 0, 0, 0, 0, 0, 0, 0, 3, 0, 0, 0, 2, 0, 0, 0], [8, 0, 0, 0,
        9, 0, 0, 0, 0, 0, 0, 128, 0, 0, 0, 0, 1, 0, 0, 0, 5, 0, 0, 0, 7]])
      [0, 0, 0, 0, 0, 0, 0, 0, 3, 0, 0, 0, 2, 0, 0, 0, 8, 0, 0, 0, 9, 0, 0, 0,
        0, 0, 0, 128, 0, 0, 0, 0, 1, 0, 0, 0] [5, 0, 0, 0, 7] rfl (by decide) rfl
      (by decide) (by decide)
    (congrArg LoopStep.calls (h rfl).1).trans rfl⟩

/-! ## The slice handed to the callback -/

/-- C13: the document loop is about to read a document, the stream ahead
begins with four bytes that read as the little-endian `int32` `n`, with
`4 ≤ n`, and at least `n` bytes are still to come.  The loop calls the
callback next, and the byte slice of that call is the first `n` bytes of the
stream: a slice of length exactly `n` whose first four bytes are the prefix
bytes of the stream and whose remainder is the next `n - 4` bytes.  The call
carries the current document number, and every later call of the loop
follows it in the trace.  The loop goes on behind those `n` bytes; when the
document was the last of the reply, it ends there. -/
theorem docLoop_hands_framed_document [Platform] (g : replyFunc) (reply : replyOp) (fuel : Nat)
    (i : Int) (s : mongoSocket) (calls : List Call) (stream : Bytes) (n : Nat)
    (hi : i ≠ reply.replyDocs) (hopen : s.conn.closed = false)
    (hstream : s.conn.incoming.flatten = stream) (hb : isBytes stream)
    (h4 : 4 ≤ n) (hlen : n ≤ stream.length) (hn : int32At stream 0 = (n : Int)) :
    ∃ c2 more,
      (docLoop (some g) reply (fuel + 1) i s calls).calls =
        calls ++ { fn := g, err := none, reply := some reply, docNum := i,
                   docData := some (stream.take n) } :: more ∧
      docLoop (some g) reply (fuel + 1) i s calls =
        docLoop (some g) reply fuel (toInt (i + 1)) { s with conn := c2 }
          (calls ++ [{ fn := g, err := none, reply := some reply, docNum := i,
                       docData := some (stream.take n) }]) ∧
      (toInt (i + 1) = reply.replyDocs → 0 < fuel →
        docLoop (some g) reply (fuel + 1) i s calls =
          .next { s with conn := c2 }
            (calls ++ [{ fn := g, err := none, reply := some reply, docNum := i,
                         docData := some (stream.take n) }])) ∧
      (stream.take n).length = n ∧
      (stream.take n).take 4 = stream.take 4 ∧
      (stream.take n).drop 4 = (stream.drop 4).take (n - 4) ∧
      c2.incoming.flatten = stream.drop n := by
  have hd : framedDoc (stream.take n) := by
    refine ⟨fun x hx => hb x (List.mem_of_mem_take hx), ?_, ?_⟩
    · rw [List.length_take]; omega
    · have e : int32At (stream.take n) 0 = int32At stream 0 := by
        unfold int32At
        simp only [List.drop_zero, List.take_take]
        rw [Nat.min_eq_left h4]
      rw [e, hn, List.length_take, Nat.min_eq_left hlen]
  obtain ⟨c2, hstep, hs2, _⟩ := docLoop_step (some g) reply fuel i s calls (stream.take n)
    (stream.drop n) hi hopen (by rw [hstream, List.take_append_drop]) hd
  have hstep2 : docLoop (some g) reply (fuel + 1) i s calls =
      docLoop (some g) reply fuel (toInt (i + 1)) { s with conn := c2 }
        (calls ++ [{ fn := g, err := none, reply := some reply, docNum := i,
                     docData := some (stream.take n) }]) := hstep
  obtain ⟨more, hmore⟩ := docLoop_calls_extend (some g) reply fuel (toInt (i + 1))
    { s with conn := c2 }
    (calls ++ [{ fn := g, err := none, reply := some reply, docNum := i,
                 docData := some (stream.take n) }])
  refine ⟨c2, more, ?_, hstep2, ?_, ?_, ?_, ?_, hs2⟩
  · rw [hstep2, hmore, List.append_assoc]
    rfl
  · intro hlast hfuel
    obtain ⟨f2, rfl⟩ : ∃ f2, fuel = f2 + 1 := ⟨fuel - 1, by omega⟩
    rw [hstep2, hlast, docLoop_done]
  · rw [List.length_take, Nat.min_eq_left hlen]
  · rw [List.take_take, Nat.min_eq_left h4]
  · rw [List.drop_take]

theorem docLoop_hands_framed_document_witness :
    (0 : Int) ≠ (replyOf (sampleHeader 3 2)).replyDocs ∧
    int32At [5, 0, 0, 0, 7, 6, 0, 0, 0, 1, 2, 99] 0 = ((5 : Nat) : Int) ∧
    (∃ more, (docLoop (some 33) (replyOf (sampleHeader 3 2)) 3 0
        (sampleReader [[5, 0], [0, 0, 7, 6, 0, 0], [0, 1, 2, 99]]) []).calls =
      { fn := 33, err := none, reply := some (replyOf (sampleHeader 3 2)), docNum := 0,
        docData := some [5, 0, 0, 0, 7] } :: more) ∧
    (docLoop (some 33) (replyOf (sampleHeader 3 2)) 3 0
        (sampleReader [[5, 0], [0, 0, 7, 6, 0, 0], [0, 1, 2, 99]]) []).calls.map
        (fun c => (c.docNum, c.docData)) =
      [(0, some [5, 0, 0, 0, 7]), (1, some [6, 0, 0, 0, 1, 2])] :=
  ⟨by decide, by decide,
    let ⟨_, more, h1, _⟩ := docLoop_hands_framed_document 33 (replyOf (sampleHeader 3 2)) 2 0
      (sampleReader [[5, 0], [0, 0, 7, 6, 0, 0], [0, 1, 2, 99]]) []
      [5, 0, 0, 0, 7, 6, 0, 0, 0, 1, 2, 99] 5 (by decide) rfl (by decide) (by decide)
      (by decide) (by decide) (by decide)
    ⟨more, h1⟩,
    by decide⟩

/-! ## Lemmas: ownership -/

/-- A run of `Acquire` calls none of which finds the count at 0: the count
goes up by their number, as an `int`. -/
theorem acquireEach_wrap [Platform] (bs : List Bool) (s : mongoSocket)
    (hr : toInt s.references = s.references)
    (hgo : ∀ j : Nat, j < bs.length → toInt (s.references + (j : Int)) ≠ 0) :
    acquireEach bs s =
      some { s with references := toInt (s.references + (bs.length : Int)) } := by
  induction bs generalizing s with
  | nil => simp [acquireEach, hr]
  | cons b bs ih =>
    have hne : s.references ≠ 0 := by
      have := hgo 0 (by simp)
      simpa [hr] using this
    simp only [acquireEach, Acquire, hne, ↓reduceIte]
    rw [ih _ (toInt_toInt _) (by
      intro j hj
      dsimp only
      rw [toInt_add]
      have := hgo (j + 1) (by simp; omega)
      have e : s.references + ((j + 1 : Nat) : Int) = s.references + 1 + (j : Int) := by
        push_cast; ring
      rw [e] at this
      exact this)]
    dsimp only
    rw [toInt_add]
    have e : s.references + 1 + (bs.length : Int) = s.references + ((b :: bs).length : Int) := by
      simp only [List.length_cons]; push_cast; ring
    rw [e]

theorem acquireEach_ok [Platform] (bs : List Bool) (s : mongoSocket) (h : 0 < s.references)
    (hmax : s.references + (bs.length : Int) ≤ maxInt) :
    acquireEach bs s = some { s with references := s.references + (bs.length : Int) } := by
  have hm := maxInt_ge
  have hin : ∀ j : Nat, j ≤ bs.length →
      toInt (s.references + (j : Int)) = s.references + (j : Int) := by
    intro j hj
    exact toInt_eq_self _ (by omega) (by omega)
  rw [acquireEach_wrap bs s (by simpa using hin 0 (Nat.zero_le _))
    (by intro j hj; rw [hin j (by omega)]; omega), hin bs.length (Nat.le_refl _)]

theorem releaseTimes_some [Platform] (k : Nat) (s : mongoSocket) (h : (k : Int) < s.references)
    (hmax : s.references ≤ maxInt) :
    releaseTimes k s = some ({ s with references := s.references - (k : Int) }, []) := by
  induction k generalizing s with
  | zero => simp [releaseTimes]
  | succ k ih =>
    have hm := maxInt_ge
    have hne : s.references ≠ 0 := by omega
    have e : toInt (s.references - 1) = s.references - 1 :=
      toInt_eq_self _ (by push_cast at h; omega) (by omega)
    have hne2 : s.references - 1 ≠ 0 := by push_cast at h; omega
    simp only [releaseTimes, Release, hne, e, hne2, ↓reduceIte]
    rw [ih _ (by dsimp only; push_cast at h; omega) (by dsimp only; omega)]
    dsimp only
    congr 3
    push_cast
    ring

theorem releaseTimes_append [Platform] (j k : Nat) (s : mongoSocket) :
    releaseTimes (j + k) s =
      match releaseTimes j s with
      | none => none
      | some (s1, ev1) =>
        match releaseTimes k s1 with
        | none => none
        | some (s2, ev2) => some (s2, ev1 ++ ev2) := by
  induction j generalizing s with
  | zero =>
    simp only [Nat.zero_add, releaseTimes, List.nil_append]
    cases releaseTimes k s with
    | none => rfl
    | some r => rfl
  | succ j ih =>
    have e : j + 1 + k = (j + k) + 1 := by omega
    rw [e]
    simp only [releaseTimes]
    cases hr : Release s with
    | none => rfl
    | some r =>
      obtain ⟨s1, ev1⟩ := r
      dsimp only
      rw [ih]
      cases releaseTimes j s1 with
      | none => rfl
      | some r2 =>
        obtain ⟨s2, ev2⟩ := r2
        dsimp only
        cases releaseTimes k s2 with
        | none => rfl
        | some r3 => simp

/-- `Query` leaves the owner, the reference count and the dead reason as
they are. -/
theorem Query_keeps_owner {Doc : Type} (Marshal : Option Doc → Except String Bytes)
    (s : mongoSocket) (lops ops : List (Op Doc)) (writeErr : Option String) (r : QueryResult)
    (h : Query Marshal s lops ops writeErr = some r) :
    r.socket.server = s.server ∧ r.socket.references = s.references ∧
      r.socket.dead = s.dead ∧ (s.dead ≠ none → r.socket = s) := by
  unfold Query at h
  dsimp only at h
  split at h
  · cases h
    exact ⟨rfl, rfl, rfl, fun _ => rfl⟩
  · cases h
  · split at h
    · cases h
      exact ⟨rfl, rfl, rfl, fun _ => rfl⟩
    · rename_i hd
      split at h
      · cases h
      · cases h
        exact ⟨rfl, rfl, rfl, fun hne => absurd hd hne⟩

theorem kill_keeps_owner (s : mongoSocket) (err : String) :
    (kill s err).1.server = s.server ∧ (kill s err).1.references = s.references := by
  unfold kill
  cases s.dead <;> exact ⟨rfl, rfl⟩

theorem acquires_cons {Doc : Type} (call : SocketCall Doc) (calls : List (SocketCall Doc)) :
    acquires (call :: calls) = acquires [call] + acquires calls := by
  cases call <;> simp [acquires] <;> omega

/-- Every call that returns keeps the ownership invariant, as long as the
count stays within the range of `int`; only `Acquire` raises the bound on
the count. -/
theorem apply_owned [Platform] {Doc : Type} (Marshal : Option Doc → Except String Bytes)
    (call : SocketCall Doc) (s s2 : mongoSocket) (r : Int) (hs : owned s)
    (hr : s.references ≤ r) (h1 : 1 ≤ r) (hmax : r + (acquires [call] : Int) ≤ maxInt)
    (h : call.apply Marshal s = some s2) :
    owned s2 ∧ s2.references ≤ r + (acquires [call] : Int) := by
  have hm := maxInt_ge
  obtain ⟨h0, hiff⟩ := hs
  cases call with
  | acquired server =>
    simp only [SocketCall.apply, Acquired] at h
    cases hsrv : s.server with
    | some x => rw [hsrv] at h; cases h
    | none =>
      rw [hsrv] at h
      cases hd : s.dead with
      | some e =>
        rw [hd] at h
        simp only [Option.map_some', Option.some.injEq] at h
        subst h
        exact ⟨⟨h0, hiff⟩, by simp [acquires]; omega⟩
      | none =>
        rw [hd] at h
        have hz : ¬ (s.references > 0) := by
          intro hp
          have := hiff.mpr hp
          rw [hsrv] at this
          cases this
        have he : toInt (s.references + 1) = 1 := by
          have : s.references = 0 := by omega
          rw [this]
          exact toInt_of_isInt32 _ (by decide)
        simp only [hz, ↓reduceIte, he, Option.map_some', Option.some.injEq] at h
        subst h
        refine ⟨⟨by dsimp only; omega, ?_⟩, by simp [acquires]; omega⟩
        dsimp only
        constructor
        · intro _; omega
        · intro _; rfl
  | acquire b =>
    simp only [SocketCall.apply, Acquire] at h
    have ha : ((acquires [(SocketCall.acquire b : SocketCall Doc)] : Nat) : Int) = 1 := by
      simp [acquires]
    rw [ha] at hmax ⊢
    by_cases hz : s.references = 0
    · simp [hz] at h
    · have he : toInt (s.references + 1) = s.references + 1 :=
        toInt_eq_self _ (by omega) (by omega)
      simp only [hz, ↓reduceIte, he, Option.map_some', Option.some.injEq] at h
      subst h
      refine ⟨⟨by dsimp only; omega, ?_⟩, by dsimp only; omega⟩
      dsimp only
      constructor
      · intro _; omega
      · intro _; exact hiff.mpr (by omega)
  | release =>
    simp only [SocketCall.apply, Release] at h
    by_cases hz : s.references = 0
    · simp [hz] at h
    · have he : toInt (s.references - 1) = s.references - 1 :=
        toInt_eq_self _ (by omega) (by omega)
      simp only [hz, ↓reduceIte, he] at h
      by_cases hz2 : s.references - 1 = 0
      · simp only [hz2, ↓reduceIte, Option.map_some', Option.some.injEq] at h
        subst h
        refine ⟨⟨by dsimp only; omega, ?_⟩, by dsimp only; simp [acquires]; omega⟩
        dsimp only
        constructor
        · intro hc; cases hc
        · intro hc; omega
      · simp only [hz2, ↓reduceIte, Option.map_some', Option.some.injEq] at h
        subst h
        refine ⟨⟨by dsimp only; omega, ?_⟩, by dsimp only; simp [acquires]; omega⟩
        dsimp only
        constructor
        · intro _; omega
        · intro _; exact hiff.mpr (by omega)
  | kill err =>
    simp only [SocketCall.apply, Option.some.injEq] at h
    subst h
    obtain ⟨g1, g2⟩ := kill_keeps_owner s err
    unfold owned
    rw [g1, g2]
    exact ⟨⟨h0, hiff⟩, by simp [acquires]; omega⟩
  | close =>
    simp only [SocketCall.apply, Close, Option.some.injEq] at h
    subst h
    obtain ⟨g1, g2⟩ := kill_keeps_owner s "Closed explicitly"
    unfold owned
    rw [g1, g2]
    exact ⟨⟨h0, hiff⟩, by simp [acquires]; omega⟩
  | query lops ops writeErr =>
    simp only [SocketCall.apply] at h
    cases hq : Query Marshal s lops ops writeErr with
    | none => rw [hq] at h; cases h
    | some q =>
      rw [hq] at h
      simp only [Option.map_some', Option.some.injEq] at h
      subst h
      obtain ⟨g1, g2, _⟩ := Query_keeps_owner Marshal s lops ops writeErr q hq
      unfold owned
      rw [g1, g2]
      exact ⟨⟨h0, hiff⟩, by simp [acquires]; omega⟩

theorem applyCalls_owned [Platform] {Doc : Type} (Marshal : Option Doc → Except String Bytes)
    (calls : List (SocketCall Doc)) (s s2 : mongoSocket) (r : Int) (hs : owned s)
    (hr : s.references ≤ r) (h1 : 1 ≤ r) (hmax : r + (acquires calls : Int) ≤ maxInt)
    (h : applyCalls Marshal calls s = some s2) : owned s2 := by
  induction calls generalizing s r with
  | nil =>
    simp only [applyCalls, Option.some.injEq] at h
    subst h
    exact hs
  | cons call calls ih =>
    simp only [applyCalls] at h
    rw [acquires_cons] at hmax
    push_cast at hmax
    cases hc : call.apply Marshal s with
    | none => rw [hc] at h; cases h
    | some s1 =>
      rw [hc] at h
      obtain ⟨g1, g2⟩ := apply_owned Marshal call s s1 r hs hr h1 (by omega) hc
      exact ih s1 (r + (acquires [call] : Int)) g1 g2 (by omega) (by omega) h

/-- A run of `Acquire` calls from outside is a run of `Acquire`. -/
theorem applyCalls_acquire [Platform] {Doc : Type} (Marshal : Option Doc → Except String Bytes)
    (bs : List Bool) (s : mongoSocket) :
    applyCalls Marshal (bs.map fun b => SocketCall.acquire b) s = acquireEach bs s := by
  induction bs generalizing s with
  | nil => rfl
  | cons b bs ih =>
    simp only [List.map_cons, applyCalls, SocketCall.apply, acquireEach]
    cases Acquire s b with
    | none => rfl
    | some r => exact ih r.1

/-! ## Ownership: acquiring and releasing -/

/-- C14, as stated, fails: the reference count is an `int`.  After
`Acquired` and `n` calls of `Acquire` with `n` the largest `int`, the count
is not `1 + n`: it is the smallest `int`, which is negative, with the server
still set.  With a 32-bit `int` that is after 2^31 - 1 calls, with a 64-bit
`int` after 2^63 - 1. -/
theorem acquire_release_wraps :
    (@Acquired Platform.int32 sampleCached (some 2) =
        some ({ sampleCached with server := some 2, references := 1 }, none) ∧
      @acquireEach Platform.int32 (List.replicate 2147483647 true)
          { sampleCached with server := some 2, references := 1 } =
        some { sampleCached with server := some 2, references := -2147483648 }) ∧
    (@Acquired Platform.int64 sampleCached (some 2) =
        some ({ sampleCached with server := some 2, references := 1 }, none) ∧
      @acquireEach Platform.int64 (List.replicate 9223372036854775807 true)
          { sampleCached with server := some 2, references := 1 } =
        some { sampleCached with server := some 2, references := -9223372036854775808 }) := by
  refine ⟨⟨rfl, ?_⟩, ⟨rfl, ?_⟩⟩
  · have h := @acquireEach_wrap Platform.int32 (List.replicate 2147483647 true)
      { sampleCached with server := some 2, references := 1 } (toInt_int32 1)
      (by
        intro j hj
        rw [List.length_replicate] at hj
        rw [toInt_int32]
        unfold toInt32
        dsimp only
        omega)
    rw [List.length_replicate, toInt_int32] at h
    exact h
  · have h := @acquireEach_wrap Platform.int64 (List.replicate 9223372036854775807 true)
      { sampleCached with server := some 2, references := 1 } (toInt_int64 1)
      (by
        intro j hj
        rw [List.length_replicate] at hj
        rw [toInt_int64]
        unfold toInt64
        dsimp only
        omega)
    rw [List.length_replicate, toInt_int64] at h
    exact h

/-- C14, amended: on a live socket with no owning server and no references,
`Acquired(server)` returns no error; the `n` calls of `Acquire` that follow
(`n` the length of `bs`, the answers of `IsMaster`), where `1 + n` is at most
the largest `int`, all return and leave `1 + n` references; each of the first
`n` calls of `Release` returns, has no outside effect and leaves a positive
count with the server still set; the last `Release` returns as well, is the
one that flushes the logouts and recycles the socket to that server, and
leaves the socket as it was at the start: no references, no server. -/
theorem acquire_release_balance [Platform] (s : mongoSocket) (server : Nat) (bs : List Bool)
    (hlive : s.dead = none) (hfree : s.server = none) (hrefs : s.references = 0)
    (hmax : 1 + (bs.length : Int) ≤ maxInt) :
    ∃ s1 s2, Acquired s (some server) = some (s1, none) ∧
      s1.references = 1 ∧ s1.server = some server ∧
      acquireEach bs s1 = some s2 ∧ s2.references = 1 + (bs.length : Int) ∧
      (∀ k, k ≤ bs.length → ∃ sk, releaseTimes k s2 = some (sk, []) ∧
        sk.references = 1 + (bs.length : Int) - (k : Int) ∧ 0 < sk.references ∧
        sk.server = some server) ∧
      ∃ s3, releaseTimes (bs.length + 1) s2 =
          some (s3, [.logoutAll, .recycleSocket (some server)]) ∧
        s3.references = 0 ∧ s3.server = none ∧ s3 = s := by
  obtain ⟨srv, conn, next, fs, refs, dead⟩ := s
  dsimp only at hlive hfree hrefs
  subst hlive hfree hrefs
  have hacq : Acquired ⟨none, conn, next, fs, 0, none⟩ (some server) =
      some (⟨some server, conn, next, fs, 1, none⟩, none) := by
    simp [Acquired, toInt_one]
  have heach := acquireEach_ok bs ⟨some server, conn, next, fs, 1, none⟩ (by dsimp only; omega)
    hmax
  dsimp only at heach
  have hrel : ∀ k, k ≤ bs.length →
      releaseTimes k ⟨some server, conn, next, fs, 1 + (bs.length : Int), none⟩ =
        some (⟨some server, conn, next, fs, 1 + (bs.length : Int) - (k : Int), none⟩, []) := by
    intro k hk
    exact releaseTimes_some k _ (by dsimp only; omega) hmax
  refine ⟨_, _, hacq, rfl, rfl, heach, rfl, ?_, ?_⟩
  · intro k hk
    exact ⟨_, hrel k hk, rfl, by dsimp only; omega, rfl⟩
  · refine ⟨⟨none, conn, next, fs, 0, none⟩, ?_, rfl, rfl, rfl⟩
    rw [releaseTimes_append, hrel bs.length (Nat.le_refl _)]
    have e : 1 + (bs.length : Int) - (bs.length : Int) = 1 := by omega
    simp only [e]
    simp [releaseTimes, Release, toInt_zero]

theorem acquire_release_balance_witness :
    sampleCached.dead = none ∧ sampleCached.server = none ∧ sampleCached.references = 0 ∧
    1 + (([true, false] : List Bool).length : Int) ≤ maxInt ∧
    ∃ s1 s2, Acquired sampleCached (some 2) = some (s1, none) ∧
      acquireEach [true, false] s1 = some s2 ∧ s2.references = 3 ∧
      (∃ sk, releaseTimes 2 s2 = some (sk, []) ∧ sk.references = 1 ∧ sk.server = some 2) ∧
      releaseTimes 3 s2 = some (sampleCached, [.logoutAll, .recycleSocket (some 2)]) :=
  ⟨rfl, rfl, rfl, by decide,
    let ⟨s1, s2, h1, _, _, h4, h5, h6, s3, h7, _, _, h10⟩ :=
      acquire_release_balance sampleCached 2 [true, false] rfl rfl rfl (by decide)
    let ⟨sk, g1, g2, _, g4⟩ := h6 2 (by decide)
    ⟨s1, s2, h1, h4, h5, ⟨sk, g1, g2, g4⟩, h10 ▸ h7⟩⟩

/-- C16, as stated, fails: a dead socket that still has an owning server
makes `Acquired` panic; the dead reason is not returned, because the check
for an owner comes first. -/
theorem Acquired_owned_dead_panics :
    (sampleSocket 5 ∅ (some "gone")).dead = some "gone" ∧
    (sampleSocket 5 ∅ (some "gone")).server = some 1 ∧
    Acquired (sampleSocket 5 ∅ (some "gone")) (some 2) = none ∧
    ¬ ∃ s2, Acquired (sampleSocket 5 ∅ (some "gone")) (some 2) = some (s2, some "gone") :=
  ⟨rfl, rfl, rfl, fun ⟨_, h⟩ => Option.noConfusion h⟩

/-- C16, amended: on a socket with no owning server, `Acquired(server)`
returns the dead reason of a dead socket and leaves the socket, so its
server and reference count, unchanged; on a live one without references it
returns no error and sets the server and a reference count of 1.  On a
socket that has an owning server it panics, dead or not. -/
theorem Acquired_checks_owner_then_dead [Platform] (s : mongoSocket) (server : Option Nat)
    (hfree : s.server = none) :
    (∀ e, s.dead = some e → Acquired s server = some (s, some e)) ∧
    (s.dead = none → s.references = 0 →
      Acquired s server = some ({ s with server := server, references := 1 }, none)) ∧
    ∀ t : mongoSocket, t.server ≠ none → Acquired t server = none := by
  refine ⟨?_, ?_, ?_⟩
  · intro e he
    simp [Acquired, hfree, he]
  · intro hl hr
    simp [Acquired, hfree, hl, hr, toInt_one]
  · intro t ht
    cases hsrv : t.server with
    | none => exact absurd hsrv ht
    | some x => simp [Acquired, hsrv]

theorem Acquired_checks_owner_then_dead_witness :
    sampleCached.server = none ∧
    Acquired { sampleCached with dead := some "gone" } (some 2) =
      some ({ sampleCached with dead := some "gone" }, some "gone") ∧
    Acquired sampleCached (some 2) =
      some ({ sampleCached with server := some 2, references := 1 }, none) :=
  ⟨rfl,
    (Acquired_checks_owner_then_dead { sampleCached with dead := some "gone" } (some 2) rfl).1
      "gone" rfl,
    (Acquired_checks_owner_then_dead sampleCached (some 2) rfl).2.1 rfl rfl⟩

/-! ## The dead reason is final -/

/-- C17: on a socket that is dead with reason `e`, a further `kill` with
any error, and `Close`, return the socket unchanged in every field, so with
the same callback map, and call no callback; every `Query`, `Acquired`,
`Acquire` and `Release` that returns leaves the dead reason `e` (`Query`
and `Acquired` leave the whole socket as it was). -/
theorem dead_reason_is_final [Platform] {Doc : Type} (Marshal : Option Doc → Except String Bytes)
    (s : mongoSocket) (e : String) (hdead : s.dead = some e) :
    (∀ err2, kill s err2 = (s, [])) ∧
    Close s = (s, []) ∧
    (∀ lops ops writeErr r, Query Marshal s lops ops writeErr = some r →
      r.socket = s ∧ r.socket.dead = some e) ∧
    (∀ server r, Acquired s server = some r → r.1 = s ∧ r.1.dead = some e) ∧
    (∀ b r, Acquire s b = some r → r.1.dead = some e) ∧
    (∀ r, Release s = some r → r.1.dead = some e) := by
  have hk : ∀ err2, kill s err2 = (s, []) := by
    intro err2
    unfold kill
    rw [hdead]
  refine ⟨hk, hk _, ?_, ?_, ?_, ?_⟩
  · intro lops ops writeErr r h
    obtain ⟨_, _, h3, h4⟩ := Query_keeps_owner Marshal s lops ops writeErr r h
    exact ⟨h4 (by rw [hdead]; exact Option.some_ne_none e), by rw [h3, hdead]⟩
  · intro server r h
    unfold Acquired at h
    cases hsrv : s.server with
    | some x => rw [hsrv] at h; cases h
    | none =>
      rw [hsrv, hdead] at h
      cases h
      exact ⟨rfl, hdead⟩
  · intro b r h
    unfold Acquire at h
    split at h
    · cases h
    · cases h
      exact hdead
  · intro r h
    unfold Release at h
    dsimp only at h
    split at h
    · cases h
    · split at h
      · cases h
        exact hdead
      · cases h
        exact hdead

theorem dead_reason_is_final_witness :
    (sampleSocket 5 ((∅ : ReplyMap).insert 3 33) (some "gone")).dead = some "gone" ∧
    kill (sampleSocket 5 ((∅ : ReplyMap).insert 3 33) (some "gone")) "again" =
      (sampleSocket 5 ((∅ : ReplyMap).insert 3 33) (some "gone"), []) ∧
    Close (sampleSocket 5 ((∅ : ReplyMap).insert 3 33) (some "gone")) =
      (sampleSocket 5 ((∅ : ReplyMap).insert 3 33) (some "gone"), []) :=
  ⟨rfl,
    (dead_reason_is_final sampleMarshal (sampleSocket 5 ((∅ : ReplyMap).insert 3 33)
      (some "gone")) "gone" rfl).1 "again",
    (dead_reason_is_final sampleMarshal (sampleSocket 5 ((∅ : ReplyMap).insert 3 33)
      (some "gone")) "gone" rfl).2.1⟩

/-! ## Lemmas: the id field of an envelope -/

theorem int32At_envelope_id {Doc : Type} (Marshal : Option Doc → Except String Bytes)
    (op : Op Doc) (k : Nat) : int32At (envelope Marshal op k) 4 = toInt32 (k : Int) := by
  simp only [envelope, frame, int32At, int32LE, List.cons_append, List.nil_append,
    List.drop_succ_cons, List.drop_zero, List.take_succ_cons, List.take_zero, leValue]
  unfold toInt32
  omega

/-! ## An insert and a query in one batch -/

/-- C18, as stated, fails: on a socket fresh from `newSocket`, one insert
followed by one query with a callback is written as two envelopes whose
request-id fields are 0 and 1, so they are not `r` and `r + 1` for any
`r` other than 0. -/
theorem Query_insert_carries_id_zero :
    ∃ s0 r e1 e2, newSocket (some 1) sampleConn = some s0 ∧
      Query sampleMarshal s0 [] [sampleInsert, sampleQuery (some 9)] none = some r ∧
      r.socket.conn.written = [e1 ++ e2] ∧
      int32At e1 0 = (e1.length : Int) ∧ int32At e2 0 = (e2.length : Int) ∧
      int32At e1 4 = 0 ∧ int32At e2 4 = 1 ∧
      ¬ ∃ x : Int, x ≠ 0 ∧ int32At e1 4 = x ∧ int32At e2 4 = x + 1 :=
  ⟨_, _, envelope sampleMarshal sampleInsert 0, envelope sampleMarshal (sampleQuery (some 9)) 1,
    rfl, rfl, by decide, by decide, by decide, by decide, by decide,
    fun ⟨x, hx, h1, _⟩ => hx (h1.symm.trans (by decide))⟩

/-- C18, amended: on a live socket, one insert followed by one query with a
callback, all of whose documents encode, is written in a single `Query`
call as one buffer made of the insert's envelope and the query's envelope.
The request-id field (little-endian `int32` at offset 4) of the insert's
envelope is 0, as for every op without a callback; that of the query's
envelope is the first free id `r`, which is never 0 and is 1 when the
counter is 0, as on a socket fresh from `newSocket`. -/
theorem Query_insert_then_query_ids {Doc : Type} (Marshal : Option Doc → Except String Bytes)
    (s : mongoSocket) (ins : insertOp Doc) (q : queryOp Doc) (f : replyFunc)
    (writeErr : Option String) (hlive : s.dead = none) (hq : q.replyFunc = some f)
    (henc : ∀ op ∈ [Op.insert ins, Op.query q], op.encodes Marshal = true) :
    ∃ r, Query Marshal s [] [.insert ins, .query q] writeErr = some r ∧
      r.socket.conn.written = s.conn.written ++
        [envelope Marshal (.insert ins) 0 ++
          envelope Marshal (.query q) (firstId s.nextRequestId)] ∧
      int32At (envelope Marshal (.insert ins) 0) 4 = 0 ∧
      int32At (envelope Marshal (.query q) (firstId s.nextRequestId)) 4 =
        toInt32 (firstId s.nextRequestId : Int) ∧
      toUint32 (toInt32 (firstId s.nextRequestId : Int)) = firstId s.nextRequestId ∧
      firstId s.nextRequestId ≠ 0 ∧
      (s.nextRequestId = 0 → firstId s.nextRequestId = 1) := by
  have h := Query_live Marshal s [] [.insert ins, .query q] writeErr hlive
    (by simpa using henc)
  refine ⟨_, h, ?_, ?_, int32At_envelope_id Marshal _ _,
    toUint32_toInt32 _ (firstId_lt _), firstId_ne_zero _, ?_⟩
  · simp [TCPConn.Write, wire, Op.callback, hq]
  · rw [int32At_envelope_id]
    rfl
  · intro h0
    rw [h0]
    rfl

theorem Query_insert_then_query_ids_witness :
    (sampleSocket 0 ∅ none).dead = none ∧
    (∀ op ∈ [sampleInsert, sampleQuery (some 9)], op.encodes sampleMarshal = true) ∧
    ∃ r, Query sampleMarshal (sampleSocket 0 ∅ none) [] [sampleInsert, sampleQuery (some 9)]
        none = some r ∧
      r.socket.conn.written =
        [envelope sampleMarshal sampleInsert 0 ++
          envelope sampleMarshal (sampleQuery (some 9)) 1] ∧
      int32At (envelope sampleMarshal sampleInsert 0) 4 = 0 ∧
      int32At (envelope sampleMarshal (sampleQuery (some 9)) 1) 4 = 1 :=
  ⟨rfl, by decide,
    let ⟨r, h1, h2, h3, h4, _⟩ := Query_insert_then_query_ids sampleMarshal
      (sampleSocket 0 ∅ none)
      { collection := [97], documents := [some 1, some 2] }
      { collection := [97], query := some 1, skip := 2, limit := 3, selector := none,
        flags := 4, replyFunc := some 9 } 9 none rfl rfl (by decide)
    ⟨r, h1, h2, h3, h4⟩⟩

/-! ## Lemmas: what `Query` calls -/

theorem serializeOp_callback {Doc : Type} (Marshal : Option Doc → Except String Bytes)
    (buf b : Bytes) (op : Op Doc) (rf : Option replyFunc)
    (h : serializeOp Marshal buf op = .ok (b, rf)) : rf = op.callback := by
  cases op with
  | update op =>
    simp only [serializeOp, bind, Except.bind, pure, Except.pure] at h
    repeat (split at h <;> try cases h)
    rfl
  | insert op =>
    simp only [serializeOp, bind, Except.bind, pure, Except.pure] at h
    repeat (split at h <;> try cases h)
    rfl
  | query op =>
    simp only [serializeOp, bind, Except.bind, pure, Except.pure] at h
    repeat (split at h <;> try cases h)
    all_goals rfl
  | getMore op =>
    simp only [serializeOp, bind, Except.bind, pure, Except.pure] at h
    repeat (split at h <;> try cases h)
    rfl
  | delete op =>
    simp only [serializeOp, bind, Except.bind, pure, Except.pure] at h
    repeat (split at h <;> try cases h)
    rfl

/-- Whenever the serialisation loop succeeds, the requests it recorded
carry the callbacks of the batch, in order. -/
theorem serializeOps_requests {Doc : Type} (Marshal : Option Doc → Except String Bytes)
    (ops : List (Op Doc)) (buf b : Bytes) (reqs reqs2 : List requestInfo)
    (h : serializeOps Marshal ops buf reqs = .ok (b, reqs2)) :
    reqs2.map requestInfo.replyFunc = reqs.map requestInfo.replyFunc ++ callbacks ops := by
  induction ops generalizing buf reqs with
  | nil =>
    simp only [serializeOps] at h
    cases h
    simp [callbacks]
  | cons op ops ih =>
    simp only [serializeOps, bind, Except.bind] at h
    cases hs : serializeOp Marshal buf op with
    | error e => rw [hs] at h; cases h
    | ok r =>
      obtain ⟨b1, rf⟩ := r
      rw [hs] at h
      dsimp only at h
      have hrf := serializeOp_callback Marshal buf b1 op rf hs
      subst hrf
      cases hp : setInt32 b1 buf.length (toInt32 ((b1.length : Int) - (buf.length : Int))) with
      | error e => rw [hp] at h; cases h
      | ok b2 =>
        rw [hp] at h
        dsimp only at h
        have := ih _ _ h
        rw [this]
        cases hc : op.callback with
        | none => simp [callbacks, List.filterMap_cons, hc]
        | some g => simp [callbacks, List.filterMap_cons, hc]

/-- The calls a returning `Query` makes: none when it returns no error, and
otherwise none or the fan-out of the returned error to the callbacks of the
batch. -/
theorem Query_calls {Doc : Type} (Marshal : Option Doc → Except String Bytes)
    (s : mongoSocket) (lops ops : List (Op Doc)) (writeErr : Option String) (r : QueryResult)
    (h : Query Marshal s lops ops writeErr = some r) :
    (r.err = none → r.calls = []) ∧
    (r.calls = [] ∨
      ∃ e, r.err = some e ∧ r.calls = failCalls (callbacks (lops ++ ops)) e) := by
  unfold Query at h
  rw [batch_eq] at h
  dsimp only at h
  split at h
  · cases h
    exact ⟨fun _ => rfl, Or.inl rfl⟩
  · cases h
  · rename_i buf requests hser
    have hreq := serializeOps_requests Marshal (lops ++ ops) [] buf [] requests hser
    simp only [List.map_nil, List.nil_append] at hreq
    split at h
    · rename_i dead hd
      cases h
      refine ⟨fun hn => (by cases hn), Or.inr ⟨dead, rfl, ?_⟩⟩
      dsimp only
      rw [← hreq]
      simp [failCalls, List.map_map]
    · split at h
      · cases h
      · cases h
        exact ⟨fun _ => rfl, Or.inl rfl⟩

/-! ## Lemmas: the handoff of `SimpleQuery` -/

theorem filter_failCalls (fs : List replyFunc) (f : replyFunc) (e : String) (h : f ∉ fs) :
    (failCalls (fs ++ [f]) e).filter (fun c => c.fn = f) =
      [{ fn := f, err := some e, reply := none, docNum := -1, docData := none }] := by
  induction fs with
  | nil => simp [failCalls]
  | cons g gs ih =>
    have hg : g ≠ f := fun hgf => h (by rw [hgf]; exact List.mem_cons_self _ _)
    have hrest : f ∉ gs := fun hm => h (List.mem_cons_of_mem _ hm)
    have := ih hrest
    simp only [failCalls] at this ⊢
    simp only [List.cons_append, List.map_cons, List.filter_cons, hg, decide_False,
      Bool.false_eq_true, ↓reduceIte]
    exact this

/-- With `Query` returning no error and exactly the invocation `c` before
the reads, `SimpleQuery` returns the error of `c`, or else its data. -/
theorem SimpleQuery_one_call {Doc : Type} (Marshal : Option Doc → Except String Bytes)
    (s : mongoSocket) (op : queryOp Doc) (f : replyFunc) (lops : List (Op Doc))
    (writeErr : Option String) (r : QueryResult) (c : Call)
    (hq : Query Marshal s lops [.query { op with replyFunc := some f }] writeErr = some r)
    (hok : r.err = none) :
    SimpleQuery Marshal s op f lops writeErr [c] [] =
      match c.err with
      | some err => .returned none (some err)
      | none => .returned c.docData none := by
  have hcalls := (Query_calls Marshal s lops _ writeErr r hq).1 hok
  unfold SimpleQuery
  dsimp only
  rw [hq]
  dsimp only
  rw [hcalls, hok]
  simp only [List.filter_nil, simpleReplies, simpleReplyFunc, ↓reduceIte]
  simp only [Bool.false_eq_true, ↓reduceIte]

/-! ## `SimpleQuery` -/

/-- C19 (the code at the failing input): a reply with two documents.
`SimpleQuery` sends its query under id 6, and the reader delivers the reply
as two invocations of the callback.  If the second one takes place after
the wait has ended and before the result is read, `SimpleQuery` returns the
bytes of the second document, not of the first; if both take place before
the wait ends, the second unlocks an unlocked mutex and the program
stops. -/
theorem SimpleQuery_second_document :
    (replyOf (sampleHeader 6 2)).replyDocs = 2 ∧
    ∃ r, Query sampleMarshal (sampleSocket 5 ∅ none) []
        [.query { sampleCommand with replyFunc := some 9 }] none = some r ∧
      r.err = none ∧
      (readFrame { r.socket with conn := { r.socket.conn with
          incoming := [sampleHeader 6 2 ++ [5, 0, 0, 0, 7] ++ [6, 0, 0, 0, 1, 2]] } }).calls =
        replyCalls 9 (replyOf (sampleHeader 6 2)) [[5, 0, 0, 0, 7], [6, 0, 0, 0, 1, 2]] ∧
      SimpleQuery sampleMarshal (sampleSocket 5 ∅ none) sampleCommand 9 [] none
        ((replyCalls 9 (replyOf (sampleHeader 6 2)) [[5, 0, 0, 0, 7], [6, 0, 0, 0, 1, 2]]).take 1)
        ((replyCalls 9 (replyOf (sampleHeader 6 2)) [[5, 0, 0, 0, 7], [6, 0, 0, 0, 1, 2]]).drop 1)
        = .returned (some [6, 0, 0, 0, 1, 2]) none ∧
      SimpleQuery sampleMarshal (sampleSocket 5 ∅ none) sampleCommand 9 [] none
        (replyCalls 9 (replyOf (sampleHeader 6 2)) [[5, 0, 0, 0, 7], [6, 0, 0, 0, 1, 2]]) []
        = .panicked :=
  ⟨by decide, _, rfl, rfl, by decide, by decide, by decide⟩

/-- The handoff of `SimpleQuery` when at most one invocation of the callback
precedes its reads: let `Query` on the op with the installed callback return.
If it returns the error `e`, `SimpleQuery` returns `(nil, e)`, whatever
happens elsewhere.  If it returns no error, `SimpleQuery` does not return
before the callback is invoked, and when exactly one invocation precedes
its reads it returns: the bytes of the first document and no error when
that invocation is the first one of a reply with documents (for a reply
with `replyDocs = 1` it is the only one); nil bytes and no error when it is
the one invocation of a reply with `replyDocs = 0`; and `(nil, err)` when it
is the fan-out of a kill with `err`. -/
theorem SimpleQuery_returns_handoff [Platform] {Doc : Type}
    (Marshal : Option Doc → Except String Bytes)
    (s : mongoSocket) (op : queryOp Doc) (f : replyFunc) (lops : List (Op Doc))
    (writeErr : Option String) (r : QueryResult) (hfresh : f ∉ callbacks lops)
    (hq : Query Marshal s lops [.query { op with replyFunc := some f }] writeErr = some r) :
    (∀ e, r.err = some e → ∀ early late,
      SimpleQuery Marshal s op f lops writeErr early late = .returned none (some e)) ∧
    (r.err = none →
      (∀ late, SimpleQuery Marshal s op f lops writeErr [] late = .blocked) ∧
      (∀ reply d ds,
        SimpleQuery Marshal s op f lops writeErr ((replyCalls f reply (d :: ds)).take 1) []
          = .returned (some d) none) ∧
      (∀ reply d,
        SimpleQuery Marshal s op f lops writeErr (replyCalls f reply [d]) []
          = .returned (some d) none) ∧
      (∀ reply,
        SimpleQuery Marshal s op f lops writeErr (replyCalls f reply []) []
          = .returned none none) ∧
      (∀ err,
        SimpleQuery Marshal s op f lops writeErr (failCalls [f] err) []
          = .returned none (some err))) := by
  obtain ⟨hnone, hcases⟩ := Query_calls Marshal s lops _ writeErr r hq
  refine ⟨?_, ?_⟩
  · intro e he early late
    have hcb : callbacks (lops ++ [Op.query { op with replyFunc := some f }]) =
        callbacks lops ++ [f] := by
      simp [callbacks, List.filterMap_append, Op.callback]
    unfold SimpleQuery
    dsimp only
    rw [hq]
    dsimp only
    rcases hcases with h0 | ⟨e2, he2, hc2⟩
    · rw [h0, he]
      rfl
    · rw [hc2, hcb, filter_failCalls _ _ _ hfresh, he]
      rfl
  · intro hok
    have hone := SimpleQuery_one_call Marshal s op f lops writeErr r
    refine ⟨?_, ?_, ?_, ?_, ?_⟩
    · intro late
      unfold SimpleQuery
      dsimp only
      rw [hq]
      dsimp only
      rw [hnone hok, hok]
      rfl
    · intro reply d ds
      exact hone _ hq hok
    · intro reply d
      exact hone _ hq hok
    · intro reply
      exact hone _ hq hok
    · intro err
      exact hone _ hq hok

theorem SimpleQuery_returns_handoff_witness :
    (9 ∉ callbacks ([] : List (Op Nat))) ∧
    SimpleQuery sampleMarshal (sampleSocket 5 ∅ (some "gone")) sampleCommand 9 [] none [] []
      = .returned none (some "gone") ∧
    SimpleQuery sampleMarshal (sampleSocket 5 ∅ none) sampleCommand 9 [] none
      (replyCalls 9 (replyOf (sampleHeader 6 1)) [[5, 0, 0, 0, 7]]) []
      = .returned (some [5, 0, 0, 0, 7]) none :=
  ⟨by decide,
    (SimpleQuery_returns_handoff sampleMarshal (sampleSocket 5 ∅ (some "gone")) sampleCommand 9
      [] none _ (by decide) rfl).1 "gone" rfl [] [],
    ((SimpleQuery_returns_handoff sampleMarshal (sampleSocket 5 ∅ none) sampleCommand 9
      [] none _ (by decide) rfl).2 rfl).2.2.1 (replyOf (sampleHeader 6 1)) [5, 0, 0, 0, 7]⟩

/-! ## Lemmas: document frames -/

theorem encodeDocument_shape (body : Bytes) :
    bson.encodeDocument body =
      int32LE (toInt32 ((body.length + 5 : Nat) : Int)) ++ body ++ [0] := by
  have hl : ([0, 0, 0, 0] ++ body ++ [0]).length = body.length + 5 := by simp
  unfold bson.encodeDocument
  dsimp only
  rw [hl]
  simp only [List.append_assoc, List.cons_append, List.nil_append, List.drop_succ_cons,
    List.drop_zero]

theorem wrapInDoc_shape (data : Bytes) :
    wrapInDoc data =
      [(data.length + 5) % 4294967296 % 256, (data.length + 5) % 4294967296 / 256 % 256,
       (data.length + 5) % 4294967296 / 65536 % 256,
       (data.length + 5) % 4294967296 / 16777216 % 256] ++ data ++ [0] := by
  have hd : ∀ a b c d : Nat, List.drop (4 + data.length)
      ([a, b, c, d] ++ List.drop 4 (List.replicate (data.length + 5) 0)) = [0] := by
    intro a b c d
    have h1 := @List.drop_append Nat [a, b, c, d]
      (List.drop 4 (List.replicate (data.length + 5) 0)) data.length
    have e4 : ([a, b, c, d] : List Nat).length = 4 := rfl
    rw [e4] at h1
    rw [h1, List.drop_replicate, List.drop_replicate]
    have e2 : data.length + 5 - 4 - data.length = 1 := by omega
    rw [e2]
    rfl
  unfold wrapInDoc putUint32
  dsimp only
  rw [hd]
  rfl

theorem encodeDocument_eq (body : Bytes) : bson.encodeDocument body = wrapInDoc body := by
  have h : ∀ n : Nat, int32LE (toInt32 (n : Int)) =
      [n % 4294967296 % 256, n % 4294967296 / 256 % 256, n % 4294967296 / 65536 % 256,
       n % 4294967296 / 16777216 % 256] := by
    intro n
    rw [int32LE_toInt32]
    simp only [int32LE, List.cons.injEq, and_true]
    refine ⟨?_, ?_, ?_, ?_⟩ <;> omega
  rw [encodeDocument_shape, wrapInDoc_shape, h]

theorem encodeDocument_length (body : Bytes) :
    (bson.encodeDocument body).length = body.length + 5 := by
  rw [encodeDocument_shape]
  simp only [List.length_append, int32LE_length, List.length_cons, List.length_nil]
  omega

theorem encodeDocument_front (body : Bytes) :
    int32At (bson.encodeDocument body) 0 = toInt32 ((body.length + 5 : Nat) : Int) := by
  rw [encodeDocument_shape, List.append_assoc, int32At_int32LE]
  unfold toInt32
  omega

theorem encodeDocument_last (body : Bytes) : (bson.encodeDocument body).getLast? = some 0 := by
  rw [encodeDocument_shape]
  exact List.getLast?_concat _

/-- A document whose encoding has 2^31 bytes: the length stored at its
front reads back as -2^31. -/
theorem encodeDocument_wraps (body : Bytes) (h : body.length = 2147483643) :
    (bson.encodeDocument body).length = 2147483648 ∧
      int32At (bson.encodeDocument body) 0 = -2147483648 := by
  rw [encodeDocument_length, encodeDocument_front, h]
  exact ⟨rfl, by decide⟩

/-! ## The frame around an encoded document -/

/-- C20, as stated, fails.  A raw view of kind 0x03 at the root is emitted
as it is, framed or not: the three bytes 1, 2, 3 come out as those three
bytes, which do not start with their length, do not end in 0x00, and are
no `wrapInDoc` of anything.  And a root whose elements take 2^31 - 5 bytes
encodes to 2^31 bytes whose first four bytes read as the `int32`
-2^31. -/
theorem Marshal_raw_root_unframed :
    bson.Marshal sampleElements (.raw 3 [1, 2, 3]) = .ok [1, 2, 3] ∧
    int32At [1, 2, 3] 0 ≠ (([1, 2, 3] : Bytes).length : Int) ∧
    ([1, 2, 3] : Bytes).getLast? ≠ some 0 ∧
    (∀ body, ([1, 2, 3] : Bytes) ≠ wrapInDoc body) ∧
    ∃ b, bson.Marshal sampleElements (.value (some (List.replicate 2147483643 0))) = .ok b ∧
      b.length = 2147483648 ∧ int32At b 0 = -2147483648 := by
  refine ⟨rfl, by decide, by decide, ?_, ?_⟩
  · intro body hb
    have := congrArg List.length hb
    rw [← encodeDocument_eq, encodeDocument_length] at this
    simp at this
  · have hm : bson.Marshal sampleElements (.value (some (List.replicate 2147483643 0))) =
        .ok (bson.encodeDocument (List.replicate 2147483643 0)) := by
      simp only [bson.Marshal, sampleElements]
    obtain ⟨h1, h2⟩ := encodeDocument_wraps (List.replicate 2147483643 0)
      (List.length_replicate _ _)
    exact ⟨_, hm, h1, h2⟩

/-- C20, amended: for every root value `v` that is not a raw view and that
`bson.Marshal` encodes without error, the output `b` is `wrapInDoc(body)`
for the element bytes `body` of `v`: it has `len(body) + 5` bytes, its last
byte is 0x00, and, when it is shorter than 2^31 bytes, its first four bytes
read as the little-endian `int32` `len(b)`.  A raw view at the root that
`bson.Marshal` accepts has kind 0x03 or 0 and comes out as its own
bytes. -/
theorem Marshal_frames_document {V : Type} (elements : V → Except String Bytes) (v : V)
    (b : Bytes) (h : bson.Marshal elements (.value v) = .ok b) :
    (∃ body, elements v = .ok body ∧ b = wrapInDoc body ∧ b.length = body.length + 5) ∧
    b.getLast? = some 0 ∧
    (b.length < 2147483648 → int32At b 0 = (b.length : Int)) ∧
    ∀ kind data b2, bson.Marshal elements (.raw kind data) = .ok b2 →
      b2 = data ∧ (kind = 3 ∨ kind = 0) := by
  have hraw : ∀ kind data b2, bson.Marshal elements (.raw kind data) = .ok b2 →
      b2 = data ∧ (kind = 3 ∨ kind = 0) := by
    intro kind data b2 h2
    simp only [bson.Marshal] at h2
    by_cases hk : kind = 3 ∨ kind = 0
    · rw [if_pos hk] at h2
      cases h2
      exact ⟨rfl, hk⟩
    · rw [if_neg hk] at h2
      cases h2
  simp only [bson.Marshal] at h
  cases he : elements v with
  | error err => rw [he] at h; cases h
  | ok body =>
    rw [he] at h
    cases h
    refine ⟨⟨body, rfl, encodeDocument_eq body, encodeDocument_length body⟩,
      encodeDocument_last body, ?_, hraw⟩
    intro hlt
    rw [encodeDocument_front, encodeDocument_length]
    rw [encodeDocument_length] at hlt
    exact toInt32_of_lt _ hlt

theorem Marshal_frames_document_witness :
    bson.Marshal sampleElements (.value (some [16, 97, 0, 8, 0, 0, 0])) =
      .ok [12, 0, 0, 0, 16, 97, 0, 8, 0, 0, 0, 0] ∧
    [12, 0, 0, 0, 16, 97, 0, 8, 0, 0, 0, 0] = wrapInDoc [16, 97, 0, 8, 0, 0, 0] ∧
    int32At [12, 0, 0, 0, 16, 97, 0, 8, 0, 0, 0, 0] 0 = 12 :=
  ⟨rfl,
    let ⟨⟨body, h1, h2, _⟩, _⟩ := Marshal_frames_document sampleElements
      (some [16, 97, 0, 8, 0, 0, 0]) [12, 0, 0, 0, 16, 97, 0, 8, 0, 0, 0, 0] rfl
    (Except.ok.inj (h1.symm.trans rfl) : body = [16, 97, 0, 8, 0, 0, 0]) ▸ h2,
    (Marshal_frames_document sampleElements (some [16, 97, 0, 8, 0, 0, 0])
      [12, 0, 0, 0, 16, 97, 0, 8, 0, 0, 0, 0] rfl).2.2.1 (by decide)⟩


/-! ## Lemmas: the integer codec -/

theorem getInt64_int64LE (pre post : Bytes) (j : Int) :
    getInt64 (pre ++ int64LE j ++ post) pre.length = .ok (toInt64 j) := by
  have := getInt64_mid pre post (j % 256).toNat (j / 256 % 256).toNat
    (j / 65536 % 256).toNat (j / 16777216 % 256).toNat
    (j / 4294967296 % 256).toNat (j / 1099511627776 % 256).toNat
    (j / 281474976710656 % 256).toNat (j / 72057594037927936 % 256).toNat
    (by omega) (by omega) (by omega) (by omega) (by omega) (by omega) (by omega)
  simp only [int64LE, List.append_assoc, List.cons_append, List.nil_append]
  rw [this, int64_bytes_value]
  congr 1
  unfold toInt64
  omega

theorem toInt32_of_isInt32 (i : Int) (h : isInt32 i) : toInt32 i = i := by
  unfold isInt32 at h
  unfold toInt32
  omega

theorem toInt64_of_isInt64 (j : Int) (h : isInt64 j) : toInt64 j = j := by
  unfold isInt64 at h
  unfold toInt64
  omega

/-- Storing an `int32` inside a buffer replaces the four bytes at `pos` by
the little-endian bytes of the value. -/
theorem setInt32_eq (b : Bytes) (pos : Nat) (i : Int) (h : pos + 4 ≤ b.length) :
    setInt32 b pos i = .ok (b.take pos ++ int32LE i ++ b.drop (pos + 4)) := by
  obtain ⟨pre, a0, a1, a2, a3, rest, rfl, rfl⟩ := split_at_four b pos h
  rw [setInt32_mid]
  have e1 : List.take pre.length (pre ++ a0 :: a1 :: a2 :: a3 :: rest) = pre := by simp
  have e2 : List.drop (pre.length + 4) (pre ++ a0 :: a1 :: a2 :: a3 :: rest) = rest := by
    rw [List.drop_append]
    rfl
  rw [e1, e2]

/-! ## The integer codec -/

/-- C24: for every buffer `b` and every `int32` value `i`, `addInt32(b, i)`
is `b` followed by the four bytes of `i`, least significant first, and
`getInt32` at offset `len(b)` of it returns `i`; for every `int64` value
`j`, `getInt64` at offset `len(b)` of `addInt64(b, j)` returns `j`; and for
every `pos` with `pos + 4 <= len(b)`, `setInt32(b, pos, i)` succeeds, keeps
the length, leaves every byte outside the four at `pos` as it was, and
makes `getInt32` at `pos` return `i`.  Negative values are included. -/
theorem int_codec_round_trip (b : Bytes) (i j : Int) (hi : isInt32 i) (hj : isInt64 j) :
    addInt32 b i = b ++ [(i % 256).toNat, (i / 256 % 256).toNat, (i / 65536 % 256).toNat,
                         (i / 16777216 % 256).toNat] ∧
    getInt32 (addInt32 b i) b.length = .ok i ∧
    getInt64 (addInt64 b j) b.length = .ok j ∧
    ∀ pos, pos + 4 ≤ b.length →
      ∃ b2, setInt32 b pos i = .ok b2 ∧ b2.length = b.length ∧
        (∀ k, k < pos ∨ pos + 4 ≤ k → b2[k]? = b[k]?) ∧
        getInt32 b2 pos = .ok i := by
  refine ⟨addInt32_eq b i, ?_, ?_, ?_⟩
  · have := getInt32_int32LE b [] i
    rw [List.append_nil] at this
    rw [addInt32_eq, this, toInt32_of_isInt32 i hi]
  · have := getInt64_int64LE b [] j
    rw [List.append_nil] at this
    rw [addInt64_eq, this, toInt64_of_isInt64 j hj]
  · intro pos hpos
    have hlt : (b.take pos).length = pos := by rw [List.length_take]; omega
    refine ⟨_, setInt32_eq b pos i hpos, ?_, ?_, ?_⟩
    · simp only [List.length_append, List.length_take, List.length_drop, int32LE_length]
      omega
    · intro k hk
      rcases hk with hk | hk
      · rw [List.append_assoc, List.getElem?_append_left (by rw [hlt]; exact hk),
          List.getElem?_take_of_lt hk]
      · rw [List.getElem?_append_right (by
            rw [List.length_append, hlt, int32LE_length]; exact hk),
          List.getElem?_drop]
        congr 1
        rw [List.length_append, hlt, int32LE_length]
        omega
    · have := getInt32_int32LE (b.take pos) (b.drop (pos + 4)) i
      rw [hlt] at this
      rw [this, toInt32_of_isInt32 i hi]

theorem int_codec_round_trip_witness :
    isInt32 (-2) ∧ isInt64 (-3) ∧
    addInt32 [7, 8, 9, 10, 11] (-2) = [7, 8, 9, 10, 11, 254, 255, 255, 255] ∧
    getInt32 [7, 8, 9, 10, 11, 254, 255, 255, 255] 5 = .ok (-2) ∧
    getInt64 (addInt64 [7, 8, 9, 10, 11] (-3)) 5 = .ok (-3) ∧
    ∃ b2, setInt32 [7, 8, 9, 10, 11] 1 (-2) = .ok b2 ∧ b2.length = 5 ∧ b2[0]? = some 7 ∧
      getInt32 b2 1 = .ok (-2) :=
  ⟨by decide, by norm_num [isInt64],
    (int_codec_round_trip [7, 8, 9, 10, 11] (-2) (-3) (by decide) (by norm_num [isInt64])).1,
    (int_codec_round_trip [7, 8, 9, 10, 11] (-2) (-3) (by decide) (by norm_num [isInt64])).2.1,
    (int_codec_round_trip [7, 8, 9, 10, 11] (-2) (-3) (by decide) (by norm_num [isInt64])).2.2.1,
    let ⟨b2, h1, h2, h3, h4⟩ :=
      (int_codec_round_trip [7, 8, 9, 10, 11] (-2) (-3) (by decide)
        (by norm_num [isInt64])).2.2.2 1 (by decide)
    ⟨b2, h1, h2, (h3 0 (Or.inl (by decide))).trans rfl, h4⟩⟩


/-! ## Lemmas: ops without a callback -/

theorem int32At_envelope_responseTo {Doc : Type} (Marshal : Option Doc → Except String Bytes)
    (op : Op Doc) (k : Nat) : int32At (envelope Marshal op k) 8 = 0 := by
  simp only [envelope, frame, int32At, int32LE, List.cons_append, List.nil_append,
    List.drop_succ_cons, List.drop_zero, List.take_succ_cons, List.take_zero, leValue]
  decide

/-- On the wire every op without a callback carries id 0. -/
theorem wireEnvelopes_replyless {Doc : Type} (Marshal : Option Doc → Except String Bytes)
    (ops : List (Op Doc)) (id : Nat) :
    List.Forall₂ (fun op e => ∃ k, e = envelope Marshal op k ∧ (op.callback = none → k = 0))
      ops (wireEnvelopes Marshal ops id) := by
  induction ops generalizing id with
  | nil => exact List.Forall₂.nil
  | cons op ops ih =>
    cases hc : op.callback with
    | none =>
      simp only [wireEnvelopes, hc]
      exact List.Forall₂.cons ⟨0, rfl, fun _ => rfl⟩ (ih _)
    | some f =>
      simp only [wireEnvelopes, hc]
      exact List.Forall₂.cons ⟨id, rfl, fun h => (by rw [hc] at h; cases h)⟩ (ih _)

theorem callbacks_eq_nil {Doc : Type} (ops : List (Op Doc))
    (h : ∀ op ∈ ops, op.callback = none) : callbacks ops = [] := by
  induction ops with
  | nil => rfl
  | cons op ops ih =>
    have h1 := h op (List.mem_cons_self _ _)
    have h2 := ih (fun o ho => h o (List.mem_cons_of_mem _ ho))
    simp only [callbacks, List.filterMap_cons, h1]
    exact h2

/-! ## Ops that expect no reply -/

/-- C25: on a live socket, for a batch whose documents encode, the written
buffer is one envelope per op, in input order; the `responseTo` field
(offset 8) of every envelope is 0; the request-id field (offset 4) of the
envelope of every op without a callback is 0; update, insert and delete ops
never have a callback; the callback map afterwards is the old one with
exactly the callbacks of the batch registered, so every key that is not
one of the ids handed to them looks up as before, and a batch without
callbacks leaves the map as it was. -/
theorem Query_replyless_ops {Doc : Type} (Marshal : Option Doc → Except String Bytes)
    (s : mongoSocket) (lops ops : List (Op Doc)) (writeErr : Option String)
    (hlive : s.dead = none) (henc : ∀ o ∈ lops ++ ops, o.encodes Marshal = true) :
    ∃ r envs, Query Marshal s lops ops writeErr = some r ∧
      r.socket.conn.written = s.conn.written ++ [envs.flatten] ∧
      List.Forall₂ (fun o e => (∃ k, e = envelope Marshal o k) ∧ int32At e 8 = 0 ∧
          (o.callback = none → int32At e 4 = 0)) (lops ++ ops) envs ∧
      (∀ u : updateOp Doc, (Op.update u).callback = none) ∧
      (∀ u : insertOp Doc, (Op.insert u).callback = none) ∧
      (∀ u : deleteOp Doc, (Op.delete u).callback = none) ∧
      r.socket.replyFuncs =
        register (callbacks (lops ++ ops)) (firstId s.nextRequestId) s.replyFuncs ∧
      (∀ k, (∀ j < (callbacks (lops ++ ops)).length,
            (firstId s.nextRequestId + j) % 4294967296 ≠ k) →
          r.socket.replyFuncs.lookup k = s.replyFuncs.lookup k) ∧
      ((∀ o ∈ lops ++ ops, o.callback = none) → r.socket.replyFuncs = s.replyFuncs) := by
  have hq := Query_live Marshal s lops ops writeErr hlive henc
  refine ⟨_, wireEnvelopes Marshal (lops ++ ops) (firstId s.nextRequestId), hq, ?_, ?_,
    fun _ => rfl, fun _ => rfl, fun _ => rfl, rfl, ?_, ?_⟩
  · simp only [TCPConn.Write, wire_eq_flatten]
  · refine List.Forall₂.imp ?_ (wireEnvelopes_replyless Marshal _ _)
    rintro o e ⟨k, rfl, hk⟩
    refine ⟨⟨k, rfl⟩, int32At_envelope_responseTo Marshal o k, ?_⟩
    intro hc
    rw [hk hc, int32At_envelope_id]
    rfl
  · intro k hk
    exact lookup_register_other _ _ _ _ (firstId_lt _) hk
  · intro hall
    show register _ _ _ = _
    rw [callbacks_eq_nil _ hall]
    rfl

theorem Query_replyless_ops_witness :
    (sampleSocket 5 ((∅ : ReplyMap).insert 3 33) none).dead = none ∧
    (∀ o ∈ [] ++ [sampleInsert, sampleGetMore none], o.encodes sampleMarshal = true) ∧
    ∃ r envs, Query sampleMarshal (sampleSocket 5 ((∅ : ReplyMap).insert 3 33) none) []
        [sampleInsert, sampleGetMore none] none = some r ∧
      r.socket.conn.written = [envs.flatten] ∧
      List.Forall₂ (fun o e => (∃ k, e = envelope sampleMarshal o k) ∧ int32At e 8 = 0 ∧
          (o.callback = none → int32At e 4 = 0)) [sampleInsert, sampleGetMore none] envs ∧
      r.socket.replyFuncs = (∅ : ReplyMap).insert 3 33 :=
  ⟨rfl, by decide,
    let ⟨r, envs, h1, h2, h3, _, _, _, _, _, h9⟩ := Query_replyless_ops sampleMarshal
      (sampleSocket 5 ((∅ : ReplyMap).insert 3 33) none) [] [sampleInsert, sampleGetMore none]
      none rfl (by decide)
    ⟨r, envs, h1, h2, h3, h9 (by decide)⟩⟩


/-! ## Lemmas: a document that does not encode -/

theorem addDocuments_fail {Doc : Type} (Marshal : Option Doc → Except String Bytes)
    (dpre dpost : List (Option Doc)) (d : Option Doc) (m : String) (b : Bytes)
    (hpre : ∀ x ∈ dpre, marshals Marshal x = true) (hd : Marshal d = .error m) :
    addDocuments Marshal b (dpre ++ d :: dpost) = .error (.error m) := by
  induction dpre generalizing b with
  | nil =>
    simp only [List.nil_append, addDocuments, checkErr_addBSON_fail Marshal b d m hd, bind,
      Except.bind]
  | cons x xs ih =>
    have hx := hpre x (List.mem_cons_self _ _)
    simp only [List.cons_append, addDocuments, checkErr_addBSON Marshal b x hx, bind,
      Except.bind]
    exact ih _ (fun y hy => hpre y (List.mem_cons_of_mem _ hy))

/-- The switch of the serialisation loop on an op whose first document that
does not encode fails with `m`: it returns `m`. -/
theorem serializeOp_fail {Doc : Type} (Marshal : Option Doc → Except String Bytes)
    (buf : Bytes) (op : Op Doc) (dpre dpost : List (Option Doc)) (d : Option Doc) (m : String)
    (hdocs : op.docs = dpre ++ d :: dpost)
    (hpre : ∀ x ∈ dpre, marshals Marshal x = true) (hd : Marshal d = .error m) :
    serializeOp Marshal buf op = .error (.error m) := by
  cases op with
  | update op =>
    simp only [Op.docs] at hdocs
    cases dpre with
    | nil =>
      simp only [List.nil_append, List.cons.injEq] at hdocs
      obtain ⟨h1, _⟩ := hdocs
      simp only [serializeOp, addHeader_eq, bind, Except.bind,
        checkErr_addBSON_fail Marshal _ _ m (h1 ▸ hd)]
    | cons x xs =>
      cases xs with
      | nil =>
        simp only [List.cons_append, List.nil_append, List.cons.injEq] at hdocs
        obtain ⟨h1, h2, _⟩ := hdocs
        have hx := hpre x (List.mem_cons_self _ _)
        simp only [serializeOp, addHeader_eq, bind, Except.bind,
          checkErr_addBSON Marshal _ _ (h1 ▸ hx),
          checkErr_addBSON_fail Marshal _ _ m (h2 ▸ hd)]
      | cons y ys =>
        simp only [List.cons_append, List.cons.injEq] at hdocs
        obtain ⟨_, _, h3⟩ := hdocs
        cases ys <;> simp at h3
  | insert op =>
    simp only [Op.docs] at hdocs
    simp only [serializeOp, addHeader_eq, bind, Except.bind, hdocs,
      addDocuments_fail Marshal dpre dpost d m _ hpre hd]
  | query op =>
    cases hs : op.selector with
    | none =>
      simp only [Op.docs, hs] at hdocs
      cases dpre with
      | nil =>
        simp only [List.nil_append, List.cons.injEq] at hdocs
        obtain ⟨h1, _⟩ := hdocs
        simp only [serializeOp, addHeader_eq, bind, Except.bind,
          checkErr_addBSON_fail Marshal _ _ m (h1 ▸ hd)]
      | cons x xs =>
        simp only [List.cons_append, List.cons.injEq] at hdocs
        obtain ⟨_, h2⟩ := hdocs
        cases xs <;> simp at h2
    | some sel =>
      simp only [Op.docs, hs] at hdocs
      cases dpre with
      | nil =>
        simp only [List.nil_append, List.cons.injEq] at hdocs
        obtain ⟨h1, _⟩ := hdocs
        simp only [serializeOp, addHeader_eq, bind, Except.bind,
          checkErr_addBSON_fail Marshal _ _ m (h1 ▸ hd)]
      | cons x xs =>
        cases xs with
        | nil =>
          simp only [List.cons_append, List.nil_append, List.cons.injEq] at hdocs
          obtain ⟨h1, h2, _⟩ := hdocs
          have hx := hpre x (List.mem_cons_self _ _)
          simp only [serializeOp, addHeader_eq, bind, Except.bind, hs,
            checkErr_addBSON Marshal _ _ (h1 ▸ hx),
            checkErr_addBSON_fail Marshal _ _ m (h2 ▸ hd)]
        | cons y ys =>
          simp only [List.cons_append, List.cons.injEq] at hdocs
          obtain ⟨_, _, h3⟩ := hdocs
          cases ys <;> simp at h3
  | getMore op =>
    simp only [Op.docs] at hdocs
    cases dpre <;> simp at hdocs
  | delete op =>
    simp only [Op.docs] at hdocs
    cases dpre with
    | nil =>
      simp only [List.nil_append, List.cons.injEq] at hdocs
      obtain ⟨h1, _⟩ := hdocs
      simp only [serializeOp, addHeader_eq, bind, Except.bind,
        checkErr_addBSON_fail Marshal _ _ m (h1 ▸ hd)]
    | cons x xs =>
      simp only [List.cons_append, List.cons.injEq] at hdocs
      obtain ⟨_, h2⟩ := hdocs
      cases xs <;> simp at h2

/-- The serialisation loop on a batch whose first failing document fails
with `m`: it returns `m`. -/
theorem serializeOps_fail {Doc : Type} (Marshal : Option Doc → Except String Bytes)
    (pre post : List (Op Doc)) (op : Op Doc) (buf : Bytes) (reqs : List requestInfo)
    (dpre dpost : List (Option Doc)) (d : Option Doc) (m : String)
    (hops : ∀ o ∈ pre, o.encodes Marshal = true)
    (hdocs : op.docs = dpre ++ d :: dpost)
    (hpre : ∀ x ∈ dpre, marshals Marshal x = true) (hd : Marshal d = .error m) :
    serializeOps Marshal (pre ++ op :: post) buf reqs = .error (.error m) := by
  induction pre generalizing buf reqs with
  | nil =>
    simp only [List.nil_append, serializeOps,
      serializeOp_fail Marshal buf op dpre dpost d m hdocs hpre hd, bind, Except.bind]
  | cons o os ih =>
    rw [List.cons_append, serializeOps_cons Marshal o _ buf reqs (hops o (List.mem_cons_self _ _))]
    exact ih _ _ (fun x hx => hops x (List.mem_cons_of_mem _ hx))

/-! ## A batch with a document that does not encode -/

/-- C26: let the batch `Query` serialises (the flushed logout ops followed
by the caller's ops) consist of ops `pre` whose documents all encode, then
an op whose documents `dpre` encode but whose next document `d` fails to
encode with error `m`, then any ops.  `Query` returns `m`, on a live and on
a dead socket alike, returns the socket unchanged in every field (nothing
written, counter and callback map as before), and calls no callback. -/
theorem Query_encoding_failure {Doc : Type} (Marshal : Option Doc → Except String Bytes)
    (s : mongoSocket) (lops ops pre post : List (Op Doc)) (op : Op Doc)
    (writeErr : Option String) (dpre dpost : List (Option Doc)) (d : Option Doc) (m : String)
    (hbatch : lops ++ ops = pre ++ op :: post)
    (hops : ∀ o ∈ pre, o.encodes Marshal = true)
    (hdocs : op.docs = dpre ++ d :: dpost)
    (hpre : ∀ x ∈ dpre, marshals Marshal x = true) (hd : Marshal d = .error m) :
    ∃ r, Query Marshal s lops ops writeErr = some r ∧
      r.err = some m ∧ r.calls = [] ∧ r.socket = s ∧
      r.socket.conn.written = s.conn.written ∧
      r.socket.nextRequestId = s.nextRequestId ∧
      r.socket.replyFuncs = s.replyFuncs := by
  have hser := serializeOps_fail Marshal pre post op [] [] dpre dpost d m hops hdocs hpre hd
  refine ⟨{ socket := s, err := some m, calls := [] }, ?_, rfl, rfl, rfl, rfl, rfl, rfl⟩
  unfold Query
  rw [batch_eq, hbatch]
  dsimp only
  rw [hser]

theorem Query_encoding_failure_witness :
    (∀ o ∈ [sampleInsert], o.encodes sampleMarshal = true) ∧
    sampleMarshal none = .error "Can't marshal <nil> as a BSON document" ∧
    (∃ r, Query sampleMarshal (sampleSocket 5 ((∅ : ReplyMap).insert 3 33) none) []
        [sampleInsert, .insert { collection := [97], documents := [some 1, none, some 2] },
         sampleQuery (some 9)] none = some r ∧
      r.err = some "Can't marshal <nil> as a BSON document" ∧ r.calls = [] ∧
      r.socket = sampleSocket 5 ((∅ : ReplyMap).insert 3 33) none) ∧
    ∃ r, Query sampleMarshal (sampleSocket 5 ((∅ : ReplyMap).insert 3 33) (some "gone")) []
        [sampleInsert, .insert { collection := [97], documents := [some 1, none, some 2] },
         sampleQuery (some 9)] none = some r ∧
      r.err = some "Can't marshal <nil> as a BSON document" ∧ r.calls = [] :=
  ⟨by decide, rfl,
    let ⟨r, h1, h2, h3, h4, _⟩ := Query_encoding_failure sampleMarshal
      (sampleSocket 5 ((∅ : ReplyMap).insert 3 33) none) []
      [sampleInsert, .insert { collection := [97], documents := [some 1, none, some 2] },
       sampleQuery (some 9)] [sampleInsert] [sampleQuery (some 9)]
      (.insert { collection := [97], documents := [some 1, none, some 2] }) none
      [some 1] [some 2] none "Can't marshal <nil> as a BSON document" rfl (by decide) rfl
      (by decide) rfl
    ⟨r, h1, h2, h3, h4⟩,
    let ⟨r, h1, h2, h3, _⟩ := Query_encoding_failure sampleMarshal
      (sampleSocket 5 ((∅ : ReplyMap).insert 3 33) (some "gone")) []
      [sampleInsert, .insert { collection := [97], documents := [some 1, none, some 2] },
       sampleQuery (some 9)] [sampleInsert] [sampleQuery (some 9)]
      (.insert { collection := [97], documents := [some 1, none, some 2] }) none
      [some 1] [some 2] none "Can't marshal <nil> as a BSON document" rfl (by decide) rfl
      (by decide) rfl
    ⟨r, h1, h2, h3⟩⟩

/-! ## Lemmas: the document buffer -/

theorem newDocBuffer_negative (s : Bytes) (n : Int) (h : getInt32 s 0 = .ok n) (hn : n < 0) :
    newDocBuffer s = .error (.panic "makeslice: len out of range") := by
  unfold newDocBuffer
  rw [h]
  simp only [bind, Except.bind, hn, ↓reduceIte]
  rfl

theorem newDocBuffer_short (a0 a1 a2 a3 : Nat) (k : Nat)
    (h : getInt32 [a0, a1, a2, a3] 0 = .ok ((k : Nat) : Int)) (hk : k < 4) :
    newDocBuffer [a0, a1, a2, a3] = .error (.panic "index out of range") := by
  have hneg : ¬ (((k : Nat) : Int) < 0) := by omega
  have g0 : getByte [a0, a1, a2, a3] 0 = .ok a0 := rfl
  have g1 : getByte [a0, a1, a2, a3] 1 = .ok a1 := rfl
  have g2 : getByte [a0, a1, a2, a3] 2 = .ok a2 := rfl
  have g3 : getByte [a0, a1, a2, a3] 3 = .ok a3 := rfl
  unfold newDocBuffer
  rw [h]
  simp only [bind, Except.bind, hneg, ↓reduceIte, Int.toNat_ofNat, g0, g1, g2, g3]
  interval_cases k <;> simp [setByte, List.replicate]

/-- The header of a document as the reader sees it: four bytes whose
little-endian `int32` is `n`. -/
theorem getInt32_four (a0 a1 a2 a3 : Nat) (hb : isBytes [a0, a1, a2, a3]) :
    getInt32 [a0, a1, a2, a3] 0 = .ok (int32At [a0, a1, a2, a3] 0) :=
  getInt32_eq_int32At _ 0 (by simp) hb

/-- One pass of the document loop over a document header that makes the
buffer code panic: the reader crashes with the socket as it is after the
four bytes, and no call is added. -/
theorem docLoop_crash [Platform] (f : Option replyFunc) (reply : replyOp) (fuel : Nat) (i : Int)
    (s : mongoSocket) (calls : List Call) (a0 a1 a2 a3 : Nat) (rest : Bytes) (e : Fault)
    (hi : i ≠ reply.replyDocs) (hopen : s.conn.closed = false)
    (hstream : s.conn.incoming.flatten = [a0, a1, a2, a3] ++ rest)
    (hnew : newDocBuffer [a0, a1, a2, a3] = .error e) :
    ∃ c1, docLoop f reply (fuel + 1) i s calls = .crash { s with conn := c1 } calls ∧
      c1.incoming.flatten = rest ∧ c1.closed = false := by
  obtain ⟨c1, hf1, hs1, _, _, ho1⟩ := fill_front s.conn [a0, a1, a2, a3] rest hopen hstream
  have hf1' : fill s.conn 4 = ([a0, a1, a2, a3], none, c1) := hf1
  refine ⟨c1, ?_, hs1, ho1⟩
  simp only [docLoop, hi, ne_eq, not_false_eq_true, ↓reduceIte, hf1', hnew]

/-! ## Document lengths below four -/

/-- C27: the reader has read the four length bytes of a document, which
read as the little-endian `int32` `n`.  If `n` is negative the buffer
cannot be allocated; if `0 <= n < 4` storing the four bytes into the
`n`-byte buffer indexes out of range; if `4 <= n` the buffer is built, with
`n` bytes.  In the first two cases the pass of the document loop ends in a
crash of the reader: the socket is not killed (its dead reason, its
callback map and the open connection stay as they were) and no callback is
called. -/
theorem docLoop_short_length_crashes [Platform] (f : Option replyFunc) (reply : replyOp)
    (fuel : Nat)
    (i : Int) (s : mongoSocket) (calls : List Call) (a0 a1 a2 a3 : Nat) (rest : Bytes)
    (hb : isBytes [a0, a1, a2, a3]) (hi : i ≠ reply.replyDocs)
    (hopen : s.conn.closed = false)
    (hstream : s.conn.incoming.flatten = [a0, a1, a2, a3] ++ rest) :
    (int32At [a0, a1, a2, a3] 0 < 0 →
      newDocBuffer [a0, a1, a2, a3] = .error (.panic "makeslice: len out of range")) ∧
    (0 ≤ int32At [a0, a1, a2, a3] 0 → int32At [a0, a1, a2, a3] 0 < 4 →
      newDocBuffer [a0, a1, a2, a3] = .error (.panic "index out of range")) ∧
    (4 ≤ int32At [a0, a1, a2, a3] 0 →
      ∃ b, newDocBuffer [a0, a1, a2, a3] = .ok b ∧
        (b.length : Int) = int32At [a0, a1, a2, a3] 0) ∧
    (int32At [a0, a1, a2, a3] 0 < 4 →
      ∃ c1, docLoop f reply (fuel + 1) i s calls = .crash { s with conn := c1 } calls ∧
        c1.incoming.flatten = rest ∧ c1.closed = false ∧
        ({ s with conn := c1 } : mongoSocket).dead = s.dead ∧
        ({ s with conn := c1 } : mongoSocket).replyFuncs = s.replyFuncs) := by
  have hget := getInt32_four a0 a1 a2 a3 hb
  generalize int32At [a0, a1, a2, a3] 0 = n at hget
  have hneg : n < 0 →
      newDocBuffer [a0, a1, a2, a3] = .error (.panic "makeslice: len out of range") :=
    fun h => newDocBuffer_negative _ n hget h
  have hshort : 0 ≤ n → n < 4 →
      newDocBuffer [a0, a1, a2, a3] = .error (.panic "index out of range") := by
    intro h0 h4
    obtain ⟨k, rfl⟩ := Int.eq_ofNat_of_zero_le h0
    exact newDocBuffer_short a0 a1 a2 a3 k hget (by omega)
  refine ⟨hneg, hshort, ?_, ?_⟩
  · intro h4
    obtain ⟨k, hk⟩ := Int.eq_ofNat_of_zero_le (by omega : 0 ≤ n - 4)
    have hn : n = ((k + 4 : Nat) : Int) := by push_cast; omega
    rw [hn] at hget
    refine ⟨_, newDocBuffer_ok a0 a1 a2 a3 k hget, ?_⟩
    rw [hn]
    simp only [List.length_append, List.length_cons, List.length_nil, List.length_replicate]
    push_cast
    omega
  · intro hlt
    by_cases h0 : n < 0
    · obtain ⟨c1, h1, h2, h3⟩ := docLoop_crash f reply fuel i s calls a0 a1 a2 a3 rest _ hi hopen
        hstream (hneg h0)
      exact ⟨c1, h1, h2, h3, rfl, rfl⟩
    · obtain ⟨c1, h1, h2, h3⟩ := docLoop_crash f reply fuel i s calls a0 a1 a2 a3 rest _ hi hopen
        hstream (hshort (by omega) hlt)
      exact ⟨c1, h1, h2, h3, rfl, rfl⟩

theorem docLoop_short_length_crashes_witness :
    isBytes [3, 0, 0, 0] ∧ int32At [3, 0, 0, 0] 0 < 4 ∧
    (0 : Int) ≠ (replyOf (sampleHeader 3 2)).replyDocs ∧
    newDocBuffer [3, 0, 0, 0] = .error (.panic "index out of range") ∧
    ∃ c1, docLoop (some 33) (replyOf (sampleHeader 3 2)) 3 0
        (sampleReader [[3, 0], [0, 0, 7, 8, 9]]) [] =
      .crash { sampleReader [[3, 0], [0, 0, 7, 8, 9]] with conn := c1 } [] ∧
      c1.incoming.flatten = [7, 8, 9] :=
  ⟨by decide, by decide, by decide,
    (docLoop_short_length_crashes (some 33) (replyOf (sampleHeader 3 2)) 2 0
      (sampleReader [[3, 0], [0, 0, 7, 8, 9]]) [] 3 0 0 0 [7, 8, 9] (by decide) (by decide) rfl
      (by decide)).2.1 (by decide) (by decide),
    let ⟨c1, h1, h2, _⟩ := (docLoop_short_length_crashes (some 33) (replyOf (sampleHeader 3 2))
      2 0 (sampleReader [[3, 0], [0, 0, 7, 8, 9]]) [] 3 0 0 0 [7, 8, 9] (by decide) (by decide)
      rfl (by decide)).2.2.2 (by decide)
    ⟨c1, h1, h2⟩⟩


/-! ## Lemmas: a negative document count -/

theorem docCalls_getElem?_wrap [Platform] (f : replyFunc) (reply : replyOp) (i : Int)
    (docs : List Bytes) (j : Nat) (hi : toInt i = i) :
    (docCalls f reply i docs)[j]? = docs[j]?.map fun d =>
      { fn := f, err := none, reply := some reply, docNum := toInt (i + j),
        docData := some d } := by
  induction docs generalizing i j with
  | nil => simp [docCalls]
  | cons d ds ih =>
    cases j with
    | zero => simp [docCalls, hi]
    | succ j =>
      simp only [docCalls, List.getElem?_cons_succ, ih (toInt (i + 1)) j (toInt_toInt _),
        toInt_add]
      congr 1
      funext x
      congr 2
      push_cast
      ring

/-- With a negative document count the counter, which starts at 0, meets the
count only after wrapping around: not within the first `2 * (maxInt + 1) +
count` steps, and at that step. -/
theorem toInt_negative_count [Platform] (r : Int) (j : Nat) (hneg : r < 0)
    (hlo : -2147483648 ≤ r) (hj : (j : Int) ≤ 2 * (maxInt + 1) + r) :
    toInt (0 + (j : Int)) = r ↔ (j : Int) = 2 * (maxInt + 1) + r := by
  rcases platform_cases with ⟨hm, ht⟩ | ⟨hm, ht⟩
  · rw [ht, hm]
    rw [hm] at hj
    unfold toInt32
    omega
  · rw [ht, hm]
    rw [hm] at hj
    unfold toInt64
    omega

/-- Dispatching a reply with a negative document count on a stream that
holds the framed documents `docs`: the loop reads them all; it stops by
itself when their number is `2 * (maxInt + 1) + count`, and with fewer
documents it goes on to the read that fails. -/
theorem dispatchReply_negative [Platform] (s : mongoSocket) (responseTo : Int) (reply : replyOp)
    (docs : List Bytes) (tail : Bytes) (hopen : s.conn.closed = false)
    (hstream : s.conn.incoming.flatten = docs.flatten ++ tail)
    (hneg : reply.replyDocs < 0) (hlo : -2147483648 ≤ reply.replyDocs)
    (hdocs : ∀ d ∈ docs, framedDoc d) :
    ((docs.length : Int) < 2 * (maxInt + 1) + reply.replyDocs → tail.length < 4 →
      ∃ c2, dispatchReply s responseTo reply =
        .stop (kill { s with conn := c2 } s.conn.readErr).1
          (deliveries (s.replyFuncs.lookup (toUint32 responseTo)) reply 0 docs ++
            (kill { s with conn := c2 } s.conn.readErr).2)) ∧
    ((docs.length : Int) = 2 * (maxInt + 1) + reply.replyDocs →
      ∃ c2, dispatchReply s responseTo reply =
          .next { s with conn := c2,
                         replyFuncs :=
                           if (s.replyFuncs.lookup (toUint32 responseTo)).isSome then
                             s.replyFuncs.erase (toUint32 responseTo)
                           else s.replyFuncs }
            (deliveries (s.replyFuncs.lookup (toUint32 responseTo)) reply 0 docs) ∧
        c2.incoming.flatten = tail ∧ c2.closed = false) := by
  have hpend : docs.length + 1 ≤ s.conn.pending + 1 := by
    have h5 := length_le_flatten docs hdocs
    rw [pending_eq, hstream, List.length_append]
    omega
  have hz : decide (reply.replyDocs = 0) = false := by
    rw [decide_eq_false_iff_not]; omega
  have hrun : (docs.length : Int) ≤ 2 * (maxInt + 1) + reply.replyDocs →
      ∃ c, docLoop (s.replyFuncs.lookup (toUint32 responseTo)) reply (s.conn.pending + 1) 0 s [] =
          docLoop (s.replyFuncs.lookup (toUint32 responseTo)) reply
            (s.conn.pending + 1 - docs.length) (toInt (0 + (docs.length : Int)))
            { s with conn := c }
            ([] ++ deliveries (s.replyFuncs.lookup (toUint32 responseTo)) reply 0 docs) ∧
        c.incoming.flatten = tail ∧ c.closed = false ∧ c.readErr = s.conn.readErr := by
    intro hle
    obtain ⟨c, h1, h2, h3, _, h5⟩ := docLoop_run (s.replyFuncs.lookup (toUint32 responseTo)) reply
      docs (s.conn.pending + 1) 0 s [] tail (by omega) toInt_zero
      (by
        intro j hj
        intro hc
        have := (toInt_negative_count reply.replyDocs j hneg hlo (by omega)).1 hc
        omega)
      hopen hstream hdocs
    exact ⟨c, h1, h2, h3, h5⟩
  obtain ⟨f2, hf2⟩ : ∃ f2, s.conn.pending + 1 - docs.length = f2 + 1 :=
    ⟨s.conn.pending - docs.length, by omega⟩
  refine ⟨?_, ?_⟩
  · intro hlt htail
    obtain ⟨c, hall, hsc, hoc, hec⟩ := hrun (by omega)
    have hne : toInt (0 + (docs.length : Int)) ≠ reply.replyDocs := by
      intro hc
      have := (toInt_negative_count reply.replyDocs docs.length hneg hlo (by omega)).1 hc
      omega
    obtain ⟨c2, hend, _⟩ := docLoop_stream_ends (s.replyFuncs.lookup (toUint32 responseTo))
      reply f2 (toInt (0 + (docs.length : Int))) { s with conn := c }
      ([] ++ deliveries (s.replyFuncs.lookup (toUint32 responseTo)) reply 0 docs)
      hne hoc (by dsimp only; rw [hsc]; exact htail)
    rw [hf2, hend] at hall
    dsimp only at hall
    rw [hec, List.nil_append] at hall
    refine ⟨c2, ?_⟩
    unfold dispatchReply
    dsimp only
    rw [hz, hall]
    cases s.replyFuncs.lookup (toUint32 responseTo) <;> rfl
  · intro heq
    obtain ⟨c, hall, hsc, hoc, hec⟩ := hrun (by omega)
    have he : toInt (0 + (docs.length : Int)) = reply.replyDocs :=
      (toInt_negative_count reply.replyDocs docs.length hneg hlo (by omega)).2 heq
    rw [hf2, he, docLoop_done, List.nil_append] at hall
    refine ⟨c, ?_, hsc, hoc⟩
    unfold dispatchReply
    dsimp only
    rw [hz, hall]
    cases s.replyFuncs.lookup (toUint32 responseTo) <;> rfl

/-- A reply header with opcode 1, response to request 3 and a document
count of -1. -/
theorem sampleNegative_fields :
    ([0, 0, 0, 0, 0, 0, 0, 0, 3, 0, 0, 0, 1, 0, 0, 0, 8, 0, 0, 0, 9, 0, 0, 0,
        0, 0, 0, 128, 0, 0, 0, 0, 255, 255, 255, 255] : Bytes).length = 36 ∧
    isBytes [0, 0, 0, 0, 0, 0, 0, 0, 3, 0, 0, 0, 1, 0, 0, 0, 8, 0, 0, 0, 9, 0, 0, 0,
        0, 0, 0, 128, 0, 0, 0, 0, 255, 255, 255, 255] ∧
    int32At [0, 0, 0, 0, 0, 0, 0, 0, 3, 0, 0, 0, 1, 0, 0, 0, 8, 0, 0, 0, 9, 0, 0, 0,
        0, 0, 0, 128, 0, 0, 0, 0, 255, 255, 255, 255] 12 = 1 ∧
    int32At [0, 0, 0, 0, 0, 0, 0, 0, 3, 0, 0, 0, 1, 0, 0, 0, 8, 0, 0, 0, 9, 0, 0, 0,
        0, 0, 0, 128, 0, 0, 0, 0, 255, 255, 255, 255] 32 = -1 ∧
    toUint32 (int32At [0, 0, 0, 0, 0, 0, 0, 0, 3, 0, 0, 0, 1, 0, 0, 0, 8, 0, 0, 0, 9, 0, 0, 0,
        0, 0, 0, 128, 0, 0, 0, 0, 255, 255, 255, 255] 8) = 3 :=
  ⟨rfl, by decide, by decide, by decide, by decide⟩

/-- The reader on a stream that holds a header with a document count of -1
and then as many framed documents as the counter needs to come round to -1:
the pass ends normally behind them. -/
theorem readFrame_count_reached [Platform] (docs : List Bytes)
    (hlen : (docs.length : Int) = 2 * (maxInt + 1) - 1) (hdocs : ∀ d ∈ docs, framedDoc d) :
    ∃ s2, readFrame (sampleReader
        ([0, 0, 0, 0, 0, 0, 0, 0, 3, 0, 0, 0, 1, 0, 0, 0, 8, 0, 0, 0, 9, 0, 0, 0,
          0, 0, 0, 128, 0, 0, 0, 0, 255, 255, 255, 255] :: docs)) =
        .next s2 (docCalls 33 (replyOf [0, 0, 0, 0, 0, 0, 0, 0, 3, 0, 0, 0, 1, 0, 0, 0, 8, 0, 0, 0,
          9, 0, 0, 0, 0, 0, 0, 128, 0, 0, 0, 0, 255, 255, 255, 255]) 0 docs) ∧
      s2.dead = none ∧ s2.conn.incoming.flatten = [] := by
  obtain ⟨h36, hbytes, hop, hcount, hto⟩ := sampleNegative_fields
  obtain ⟨c1, _, hs1, ho1, hrd, _⟩ := readFrame_dispatch
    (sampleReader ([0, 0, 0, 0, 0, 0, 0, 0, 3, 0, 0, 0, 1, 0, 0, 0, 8, 0, 0, 0, 9, 0, 0, 0,
      0, 0, 0, 128, 0, 0, 0, 0, 255, 255, 255, 255] :: docs))
    [0, 0, 0, 0, 0, 0, 0, 0, 3, 0, 0, 0, 1, 0, 0, 0, 8, 0, 0, 0, 9, 0, 0, 0,
      0, 0, 0, 128, 0, 0, 0, 0, 255, 255, 255, 255] (docs.flatten ++ []) rfl
    (by
      show List.flatten (_ :: docs) = _
      rw [List.flatten_cons, List.append_nil])
    h36 hbytes hop
  have hneg : (replyOf [0, 0, 0, 0, 0, 0, 0, 0, 3, 0, 0, 0, 1, 0, 0, 0, 8, 0, 0, 0,
      9, 0, 0, 0, 0, 0, 0, 128, 0, 0, 0, 0, 255, 255, 255, 255]).replyDocs = -1 := hcount
  obtain ⟨c2, h, hs2, _⟩ := (dispatchReply_negative
    { sampleReader ([0, 0, 0, 0, 0, 0, 0, 0, 3, 0, 0, 0, 1, 0, 0, 0, 8, 0, 0, 0, 9, 0, 0, 0,
        0, 0, 0, 128, 0, 0, 0, 0, 255, 255, 255, 255] :: docs) with conn := c1 }
    (int32At [0, 0, 0, 0, 0, 0, 0, 0, 3, 0, 0, 0, 1, 0, 0, 0, 8, 0, 0, 0, 9, 0, 0, 0,
      0, 0, 0, 128, 0, 0, 0, 0, 255, 255, 255, 255] 8)
    (replyOf [0, 0, 0, 0, 0, 0, 0, 0, 3, 0, 0, 0, 1, 0, 0, 0, 8, 0, 0, 0,
      9, 0, 0, 0, 0, 0, 0, 128, 0, 0, 0, 0, 255, 255, 255, 255]) docs [] ho1 hs1
    (by rw [hneg]; omega) (by rw [hneg]; omega) hdocs).2 (by rw [hneg, hlen]; ring)
  have hlook : ({ sampleReader ([0, 0, 0, 0, 0, 0, 0, 0, 3, 0, 0, 0, 1, 0, 0, 0, 8, 0, 0, 0,
      9, 0, 0, 0, 0, 0, 0, 128, 0, 0, 0, 0, 255, 255, 255, 255] :: docs) with
      conn := c1 } : mongoSocket).replyFuncs.lookup
      (toUint32 (int32At [0, 0, 0, 0, 0, 0, 0, 0, 3, 0, 0, 0, 1, 0, 0, 0, 8, 0, 0, 0, 9, 0, 0, 0,
        0, 0, 0, 128, 0, 0, 0, 0, 255, 255, 255, 255] 8)) = some 33 := by
    rw [hto]
    rfl
  rw [hlook] at h
  exact ⟨_, hrd.trans h, rfl, hs2⟩

/-! ## A negative document count -/

theorem lor_shift3 (a b c : Nat) (ha : a < 256) (hb : b < 256) :
    a ||| (b <<< 8) ||| (c <<< 16) = a + 256 * b + 65536 * c := by
  have h1 : a ||| (b <<< 8) = a + 256 * b := lor_shift a b 8 ha
  have h2 : a + 256 * b < 2 ^ 16 := by omega
  rw [h1, lor_shift _ c 16 h2]
  norm_num

theorem lor_shift4 (a b c d : Nat) (ha : a < 256) (hb : b < 256) (hc : c < 256) :
    a ||| (b <<< 8) ||| (c <<< 16) ||| (d <<< 24) = a + 256 * b + 65536 * c + 16777216 * d := by
  have h1 := lor_shift3 a b c ha hb
  have h2 : a + 256 * b + 65536 * c < 2 ^ 24 := by omega
  rw [h1, lor_shift _ d 24 h2]
  norm_num

/-! ## The parts of an object id -/

/-- C23: for every object id of 12 bytes, `Timestamp()` is the big-endian
32-bit value of bytes 0 to 3, as an `int32` (so the value itself when it is
below 2^31); `Machine()` is bytes 4 to 6; `Pid()` is the big-endian 16-bit
value of bytes 7 and 8; `Counter()` is the big-endian 24-bit value of bytes
9 to 11.  For the id written 4d88e15b60f486e428412dc9 these are
1300816219, the bytes 0x60, 0xf4, 0x86, then 0xe428 and 4271561. -/
theorem ObjectId_parts (id : Bytes) (hlen : id.length = 12) (hb : isBytes id) :
    bson.ObjectId.Timestamp id = some (toInt32 (beValue (id.take 4) : Nat)) ∧
    (beValue (id.take 4) < 2147483648 →
      bson.ObjectId.Timestamp id = some ((beValue (id.take 4) : Nat) : Int)) ∧
    bson.ObjectId.Machine id = some ((id.drop 4).take 3) ∧
    bson.ObjectId.Pid id = some (beValue ((id.drop 7).take 2)) ∧
    bson.ObjectId.Counter id = some ((beValue ((id.drop 9).take 3) : Nat) : Int) ∧
    (∃ id0, bson.ObjectIdHex "4d88e15b60f486e428412dc9" = some id0 ∧
      bson.ObjectId.Timestamp id0 = some 1300816219 ∧
      bson.ObjectId.Machine id0 = some [96, 244, 134] ∧
      bson.ObjectId.Pid id0 = some 58408 ∧
      bson.ObjectId.Counter id0 = some 4271561) := by
  match id, hlen, hb with
  | [a0, a1, a2, a3, a4, a5, a6, a7, a8, a9, a10, a11], _, hb =>
    simp only [isBytes, List.mem_cons, List.mem_singleton, List.not_mem_nil, or_false,
      forall_eq_or_imp, forall_eq] at hb
    obtain ⟨h0, h1, h2, h3, h4, h5, h6, h7, h8, h9, h10, h11⟩ := hb
    have hts : bson.ObjectId.Timestamp [a0, a1, a2, a3, a4, a5, a6, a7, a8, a9, a10, a11] =
        some (toInt32 (beValue [a0, a1, a2, a3] : Nat)) := by
      simp only [bson.ObjectId.Timestamp, beValue, List.foldl_cons, List.foldl_nil]
      rw [lor_shift4 a3 a2 a1 a0 h3 h2 h1]
      congr 3
      omega
    refine ⟨hts, ?_, rfl, ?_, ?_, ?_⟩
    · intro hlt
      rw [hts]
      simp only [List.take_succ_cons, List.take_zero] at hlt
      rw [toInt32_of_lt _ hlt]
      rfl
    · simp only [bson.ObjectId.Pid, List.drop_succ_cons, List.drop_zero, List.take_succ_cons,
        List.take_zero, beValue, List.foldl_cons, List.foldl_nil]
      rw [lor_shift a8 a7 8 h8]
      congr 1
      omega
    · simp only [bson.ObjectId.Counter, List.drop_succ_cons, List.drop_zero,
        List.take_succ_cons, List.take_zero, beValue, List.foldl_cons, List.foldl_nil]
      have e : (a9 <<< 16) ||| (a10 <<< 8) ||| a11 = a11 ||| (a10 <<< 8) ||| (a9 <<< 16) := by
        rw [Nat.lor_comm (a9 <<< 16), Nat.lor_comm ((a10 <<< 8) ||| (a9 <<< 16)),
          ← Nat.lor_assoc]
      rw [e, lor_shift3 a11 a10 a9 h11 h10]
      have hlt : a11 + 256 * a10 + 65536 * a9 < 2147483648 := by omega
      rw [toInt32_of_lt _ hlt]
      congr 2
      omega
    · exact ⟨[77, 136, 225, 91, 96, 244, 134, 228, 40, 65, 45, 201], by decide, by decide,
        by decide, by decide, by decide⟩

theorem ObjectId_parts_witness :
    bson.ObjectIdHex "00000000aabbccddee000001" =
      some [0, 0, 0, 0, 170, 187, 204, 221, 238, 0, 0, 1] ∧
    bson.ObjectId.Timestamp [0, 0, 0, 0, 170, 187, 204, 221, 238, 0, 0, 1] = some 0 ∧
    bson.ObjectId.Machine [0, 0, 0, 0, 170, 187, 204, 221, 238, 0, 0, 1] = some [170, 187, 204] ∧
    bson.ObjectId.Pid [0, 0, 0, 0, 170, 187, 204, 221, 238, 0, 0, 1] = some 56814 ∧
    bson.ObjectId.Counter [0, 0, 0, 0, 170, 187, 204, 221, 238, 0, 0, 1] = some 1 :=
  ⟨by decide,
    (ObjectId_parts [0, 0, 0, 0, 170, 187, 204, 221, 238, 0, 0, 1] rfl (by decide)).1,
    (ObjectId_parts [0, 0, 0, 0, 170, 187, 204, 221, 238, 0, 0, 1] rfl (by decide)).2.2.1,
    (ObjectId_parts [0, 0, 0, 0, 170, 187, 204, 221, 238, 0, 0, 1] rfl (by decide)).2.2.2.1,
    (ObjectId_parts [0, 0, 0, 0, 170, 187, 204, 221, 238, 0, 0, 1] rfl (by decide)).2.2.2.2.1⟩

/-! ## Lemmas: reading what the encoder wrote -/

theorem readBytes_append (x rest : Bytes) (n : Nat) (h : n = x.length) :
    bson.readBytes n (x ++ rest) = .ok (x, rest) := by
  subst h
  simp [bson.readBytes]

theorem readInt32_int32LE (i : Int) (rest : Bytes) :
    bson.readInt32 (int32LE i ++ rest) = .ok (toInt32 i, rest) := by
  have hl : 4 ≤ (int32LE i ++ rest).length := by
    rw [List.length_append, int32LE_length]; omega
  have hd : List.drop 4 (int32LE i ++ rest) = rest := by
    exact List.drop_left' (int32LE_length i)
  unfold bson.readInt32
  rw [if_pos hl, int32At_int32LE, hd]

theorem leValue_int64LE (j : Int) :
    ((leValue (int64LE j) : Nat) : Int) = j % 18446744073709551616 := by
  rw [← int64_bytes_value j]
  simp only [int64LE, leValue]
  push_cast
  ring

theorem int64At_int64LE (j : Int) (rest : Bytes) :
    int64At (int64LE j ++ rest) 0 = toInt64 j := by
  have ht : List.take 8 (List.drop 0 (int64LE j ++ rest)) = int64LE j := by
    rw [List.drop_zero]
    have := @List.take_left' Nat (int64LE j) rest 8 (int64LE_length j)
    exact this
  unfold int64At
  rw [ht, leValue_int64LE]
  unfold toInt64
  omega

theorem readInt64_int64LE (j : Int) (rest : Bytes) :
    bson.readInt64 (int64LE j ++ rest) = .ok (toInt64 j, rest) := by
  have hl : 8 ≤ (int64LE j ++ rest).length := by
    rw [List.length_append, int64LE_length]; omega
  have hd : List.drop 8 (int64LE j ++ rest) = rest := by
    exact List.drop_left' (int64LE_length j)
  unfold bson.readInt64
  rw [if_pos hl, int64At_int64LE, hd]

theorem noNul_iff (s : Bytes) : noNul s = true ↔ ∀ x ∈ s, x ≠ 0 := by
  simp [noNul]

theorem readCStr_append (s rest : Bytes) (h : ∀ x ∈ s, x ≠ 0) :
    bson.readCStr (s ++ 0 :: rest) = .ok (s, rest) := by
  induction s with
  | nil => simp [bson.readCStr]
  | cons x xs ih =>
    have hx : x ≠ 0 := h x (List.mem_cons_self _ _)
    have := ih (fun y hy => h y (List.mem_cons_of_mem _ hy))
    simp only [List.cons_append, bson.readCStr, hx, ↓reduceIte, List.append_eq, this]

theorem readCStr_no_nul (s : Bytes) (h : ∀ x ∈ s, x ≠ 0) :
    bson.readCStr s = .error bson.corrupted := by
  induction s with
  | nil => rfl
  | cons x xs ih =>
    have hx : x ≠ 0 := h x (List.mem_cons_self _ _)
    have := ih (fun y hy => h y (List.mem_cons_of_mem _ hy))
    simp only [bson.readCStr, hx, ↓reduceIte, this]

theorem stringPayload_length (s : Bytes) : (bson.stringPayload s).length = s.length + 5 := by
  simp only [bson.stringPayload, List.length_append, int32LE_length, List.length_cons,
    List.length_nil]
  omega

theorem readStr_payload (s rest : Bytes) (h : s.length + 1 < 2147483648) :
    bson.readStr (bson.stringPayload s ++ rest) = .ok (s, rest) := by
  have hv : toInt32 (toInt32 ((s.length + 1 : Nat) : Int)) = ((s.length + 1 : Nat) : Int) := by
    rw [toInt32_of_lt _ h, toInt32_of_lt _ h]
  have hge : ¬ (((s.length + 1 : Nat) : Int) < 1) := by omega
  have hn : (((s.length + 1 : Nat) : Int) - 1).toNat = s.length := by omega
  unfold bson.readStr bson.stringPayload
  rw [List.append_assoc, List.append_assoc, readInt32_int32LE, hv]
  dsimp only
  rw [if_neg hge, hn, readBytes_append s _ _ rfl]
  rfl

theorem leValue_take8 (bits : Nat) (rest : Bytes) (h : bits < 18446744073709551616) :
    bson.readBytes 8 (int64LE (bits : Int) ++ rest) = .ok (int64LE (bits : Int), rest) ∧
      leValue (int64LE (bits : Int)) = bits := by
  refine ⟨readBytes_append _ _ _ (int64LE_length _).symm, ?_⟩
  have := leValue_int64LE (bits : Int)
  omega

/-- Reading back a frame the document encoder wrote. -/
theorem readDoc_encodeDocument (elems : Bytes → Except String bson.M) (body rest : Bytes)
    (h : body.length + 5 < 2147483648) :
    bson.readDoc elems (bson.encodeDocument body ++ rest) =
      match elems body with
      | .error e => .error e
      | .ok m => .ok (m, rest) := by
  have hv : toInt32 (toInt32 ((body.length + 5 : Nat) : Int)) = ((body.length + 5 : Nat) : Int) := by
    rw [toInt32_of_lt _ h, toInt32_of_lt _ h]
  have hlen : (bson.encodeDocument body).length = body.length + 5 := encodeDocument_length body
  have hn : (((body.length + 5 : Nat) : Int)).toNat = (bson.encodeDocument body).length := by
    rw [hlen]; omega
  have hc : ¬ (((body.length + 5 : Nat) : Int) < 5 ∨
      (((bson.encodeDocument body ++ rest).length : Nat) : Int) < ((body.length + 5 : Nat) : Int)) := by
    rw [List.length_append, hlen]
    push_cast
    omega
  have hread : bson.readInt32 (bson.encodeDocument body ++ rest) =
      .ok (((body.length + 5 : Nat) : Int),
        List.drop 4 (bson.encodeDocument body ++ rest)) := by
    have h4 : 4 ≤ (bson.encodeDocument body ++ rest).length := by
      rw [List.length_append, hlen]; omega
    have hat : int32At (bson.encodeDocument body ++ rest) 0 = ((body.length + 5 : Nat) : Int) := by
      rw [encodeDocument_shape, List.append_assoc, List.append_assoc, int32At_int32LE, hv]
    unfold bson.readInt32
    rw [if_pos h4, hat]
  have htake : List.take (bson.encodeDocument body).length (bson.encodeDocument body ++ rest) =
      bson.encodeDocument body := List.take_left' rfl
  have hdrop : List.drop (bson.encodeDocument body).length (bson.encodeDocument body ++ rest) =
      rest := List.drop_left' rfl
  have hlast : ¬ ((bson.encodeDocument body).getLast? ≠ some 0) := by
    rw [encodeDocument_last]
    simp
  have hbody : ((bson.encodeDocument body).drop 4).dropLast = body := by
    rw [encodeDocument_shape, List.append_assoc]
    rw [List.drop_left' (int32LE_length _), List.dropLast_concat]
  unfold bson.readDoc
  rw [hread]
  dsimp only
  rw [if_neg hc, hn, htake, if_neg hlast, hbody, hdrop]
  try rfl

/-- Every digit of an array key is a digit, so no NUL. -/
theorem itoaLoop_no_nul (fuel n : Nat) (acc : Bytes) (h : ∀ x ∈ acc, x ≠ 0) :
    ∀ x ∈ bson.itoaLoop fuel n acc, x ≠ 0 := by
  induction fuel generalizing n acc with
  | zero => exact h
  | succ fuel ih =>
    unfold bson.itoaLoop
    split
    · intro x hx
      rcases List.mem_cons.mp hx with rfl | hx
      · omega
      · exact h x hx
    · apply ih
      intro x hx
      rcases List.mem_cons.mp hx with rfl | hx
      · omega
      · exact h x hx

theorem itoa_no_nul (n : Nat) : ∀ x ∈ bson.itoa n, x ≠ 0 :=
  itoaLoop_no_nul _ _ [] (fun _ hx => by cases hx)

theorem kind_ne_zero (v : bson.Value) : v.kind ≠ 0 := by
  cases v <;> simp [bson.Value.kind]

/-! ## Lemmas: one element read back -/

section ReadElem
variable (doc : Bytes → Except String (bson.M × Bytes))

theorem readElem_float64 (bits : Nat) (rest : Bytes) (h : bits < 18446744073709551616) :
    bson.readElem doc 0x01 (int64LE (bits : Int) ++ rest) = .ok (.float64 bits, rest) := by
  obtain ⟨h1, h2⟩ := leValue_take8 bits rest h
  unfold bson.readElem
  rw [if_pos rfl, h1]
  dsimp only
  rw [h2]

theorem readElem_string (s rest : Bytes) (h : s.length + 1 < 2147483648) :
    bson.readElem doc 0x02 (bson.stringPayload s ++ rest) = .ok (.string s, rest) := by
  have e : bson.readElem doc 0x02 (bson.stringPayload s ++ rest) =
      match bson.readStr (bson.stringPayload s ++ rest) with
      | .error e => .error e
      | .ok (s, b) => .ok (.string s, b) := rfl
  rw [e, readStr_payload s rest h]

theorem readElem_document (b rest : Bytes) (m : bson.M) (h : doc b = .ok (m, rest)) :
    bson.readElem doc 0x03 b = .ok (.document m, rest) := by
  have e : bson.readElem doc 0x03 b =
      match doc b with
      | .error e => .error e
      | .ok (m, b) => .ok (.document m, b) := rfl
  rw [e, h]

theorem readElem_array (b rest : Bytes) (m : bson.M) (h : doc b = .ok (m, rest)) :
    bson.readElem doc 0x04 b = .ok (.array m.items, rest) := by
  have e : bson.readElem doc 0x04 b =
      match doc b with
      | .error e => .error e
      | .ok (m, b) => .ok (.array m.items, b) := rfl
  rw [e, h]

theorem readElem_binary (kind : Nat) (data rest : Bytes) (h : data.length < 2147483648)
    (hk : kind ≠ 2) :
    bson.readElem doc 0x05 (int32LE (toInt32 (data.length : Nat)) ++ [kind] ++ data ++ rest) =
      .ok (if kind = 0 then .bytes data else .binary kind data, rest) := by
  have hv : toInt32 (toInt32 ((data.length : Nat) : Int)) = ((data.length : Nat) : Int) := by
    rw [toInt32_of_lt _ h, toInt32_of_lt _ h]
  have hneg : ¬ (((data.length : Nat) : Int) < 0) := by omega
  have e : ∀ b, bson.readElem doc 0x05 b =
      match bson.readInt32 b with
      | .error e => .error e
      | .ok (l, b) =>
        match b with
        | [] => .error bson.corrupted
        | subtype :: b =>
          if l < 0 then .error bson.corrupted
          else if subtype = 2 then
            match bson.readInt32 b with
            | .error e => .error e
            | .ok (inner, b) =>
              if inner ≠ l - 4 ∨ inner < 0 then .error bson.corrupted
              else
                match bson.readBytes inner.toNat b with
                | .error e => .error e
                | .ok (data, b) => .ok (.bytes data, b)
          else
            match bson.readBytes l.toNat b with
            | .error e => .error e
            | .ok (data, b) =>
              if subtype = 0 then .ok (.bytes data, b) else .ok (.binary subtype data, b) :=
    fun _ => rfl
  rw [e, List.append_assoc, List.append_assoc, readInt32_int32LE, hv]
  dsimp only [List.singleton_append, List.cons_append, List.nil_append]
  rw [if_neg hneg, if_neg hk, Int.toNat_ofNat, readBytes_append data rest _ rfl]
  dsimp only
  split <;> rfl

theorem readElem_binary2 (data rest : Bytes) (h : data.length + 4 < 2147483648) :
    bson.readElem doc 0x05 (int32LE (toInt32 ((data.length + 4 : Nat) : Int)) ++ [2] ++
        int32LE (toInt32 (data.length : Nat)) ++ data ++ rest) = .ok (.bytes data, rest) := by
  have hv : toInt32 (toInt32 ((data.length + 4 : Nat) : Int)) = ((data.length + 4 : Nat) : Int) := by
    rw [toInt32_of_lt _ h, toInt32_of_lt _ h]
  have hv2 : toInt32 (toInt32 ((data.length : Nat) : Int)) = ((data.length : Nat) : Int) := by
    rw [toInt32_of_lt _ (by omega), toInt32_of_lt _ (by omega)]
  have hneg : ¬ (((data.length + 4 : Nat) : Int) < 0) := by omega
  have hin : ¬ (((data.length : Nat) : Int) ≠ ((data.length + 4 : Nat) : Int) - 4 ∨
      ((data.length : Nat) : Int) < 0) := by
    push_cast
    omega
  have e : ∀ b, bson.readElem doc 0x05 b =
      match bson.readInt32 b with
      | .error e => .error e
      | .ok (l, b) =>
        match b with
        | [] => .error bson.corrupted
        | subtype :: b =>
          if l < 0 then .error bson.corrupted
          else if subtype = 2 then
            match bson.readInt32 b with
            | .error e => .error e
            | .ok (inner, b) =>
              if inner ≠ l - 4 ∨ inner < 0 then .error bson.corrupted
              else
                match bson.readBytes inner.toNat b with
                | .error e => .error e
                | .ok (data, b) => .ok (.bytes data, b)
          else
            match bson.readBytes l.toNat b with
            | .error e => .error e
            | .ok (data, b) =>
              if subtype = 0 then .ok (.bytes data, b) else .ok (.binary subtype data, b) :=
    fun _ => rfl
  rw [e, List.append_assoc, List.append_assoc, List.append_assoc, readInt32_int32LE, hv]
  dsimp only [List.singleton_append, List.cons_append, List.nil_append]
  rw [if_neg hneg, if_pos rfl, readInt32_int32LE, hv2]
  dsimp only
  rw [if_neg hin, Int.toNat_ofNat, readBytes_append data rest _ rfl]

theorem readElem_undefined (rest : Bytes) :
    bson.readElem doc 0x06 rest = .ok (.undefined, rest) := rfl

theorem readElem_objectId (id rest : Bytes) (h : id.length = 12) :
    bson.readElem doc 0x07 (id ++ rest) = .ok (.objectId id, rest) := by
  have e : bson.readElem doc 0x07 (id ++ rest) =
      match bson.readBytes 12 (id ++ rest) with
      | .error e => .error e
      | .ok (id, b) => .ok (.objectId id, b) := rfl
  rw [e, readBytes_append id rest 12 h.symm]

theorem readElem_bool (b : Bool) (rest : Bytes) :
    bson.readElem doc 0x08 ([if b then 1 else 0] ++ rest) = .ok (.bool b, rest) := by
  cases b <;> rfl

theorem readElem_timestamp (ns : Int) (rest : Bytes) (h : isInt64 ns)
    (hms : ns % 1000000 = 0) :
    bson.readElem doc 0x09 (int64LE (Int.tdiv ns 1000000) ++ rest) =
      .ok (.timestamp ns, rest) := by
  obtain ⟨k, hk⟩ : ∃ k, ns = 1000000 * k := ⟨ns / 1000000, by omega⟩
  have hdiv : Int.tdiv ns 1000000 = k := by
    rw [hk]
    exact Int.mul_tdiv_cancel_left k (by decide)
  have hr : isInt64 k := by
    unfold isInt64 at h ⊢
    omega
  have e : bson.readElem doc 0x09 (int64LE (Int.tdiv ns 1000000) ++ rest) =
      match bson.readInt64 (int64LE (Int.tdiv ns 1000000) ++ rest) with
      | .error e => .error e
      | .ok (ms, b) => .ok (.timestamp (toInt64 (ms * 1000000)), b) := rfl
  rw [e, readInt64_int64LE, hdiv, toInt64_of_isInt64 k hr]
  dsimp only
  have e2 : k * 1000000 = ns := by omega
  rw [e2, toInt64_of_isInt64 ns h]

theorem readElem_null (rest : Bytes) : bson.readElem doc 0x0A rest = .ok (.null, rest) := rfl

theorem readElem_regEx (pattern options rest : Bytes) (hp : ∀ x ∈ pattern, x ≠ 0)
    (ho : ∀ x ∈ options, x ≠ 0) :
    bson.readElem doc 0x0B (pattern ++ [0] ++ options ++ [0] ++ rest) =
      .ok (.regEx pattern options, rest) := by
  have e : ∀ b, bson.readElem doc 0x0B b =
      match bson.readCStr b with
      | .error e => .error e
      | .ok (pattern, b) =>
        match bson.readCStr b with
        | .error e => .error e
        | .ok (options, b) => .ok (.regEx pattern options, b) := fun _ => rfl
  have e1 : pattern ++ [0] ++ options ++ [0] ++ rest = pattern ++ 0 :: (options ++ 0 :: rest) := by
    simp
  rw [e, e1, readCStr_append pattern _ hp]
  dsimp only
  rw [readCStr_append options _ ho]

theorem readElem_js (s rest : Bytes) (h : s.length + 1 < 2147483648) :
    bson.readElem doc 0x0D (bson.stringPayload s ++ rest) = .ok (.js s, rest) := by
  have e : bson.readElem doc 0x0D (bson.stringPayload s ++ rest) =
      match bson.readStr (bson.stringPayload s ++ rest) with
      | .error e => .error e
      | .ok (s, b) => .ok (.js s, b) := rfl
  rw [e, readStr_payload s rest h]

theorem readElem_symbol (s rest : Bytes) (h : s.length + 1 < 2147483648) :
    bson.readElem doc 0x0E (bson.stringPayload s ++ rest) = .ok (.symbol s, rest) := by
  have e : bson.readElem doc 0x0E (bson.stringPayload s ++ rest) =
      match bson.readStr (bson.stringPayload s ++ rest) with
      | .error e => .error e
      | .ok (s, b) => .ok (.symbol s, b) := rfl
  rw [e, readStr_payload s rest h]

theorem readElem_jsScope (code body rest : Bytes) (scope : bson.M)
    (h : (bson.stringPayload code ++ bson.encodeDocument body).length + 4 < 2147483648)
    (hdoc : doc (bson.encodeDocument body ++ rest) = .ok (scope, rest)) :
    bson.readElem doc 0x0F
        (int32LE (toInt32 (((bson.stringPayload code ++ bson.encodeDocument body).length + 4 : Nat)
            : Int)) ++ (bson.stringPayload code ++ bson.encodeDocument body) ++ rest) =
      .ok (.jsScope code scope, rest) := by
  have hv : toInt32 (toInt32
      (((bson.stringPayload code ++ bson.encodeDocument body).length + 4 : Nat) : Int)) =
      (((bson.stringPayload code ++ bson.encodeDocument body).length + 4 : Nat) : Int) := by
    rw [toInt32_of_lt _ h, toInt32_of_lt _ h]
  have hs : code.length + 1 < 2147483648 := by
    rw [List.length_append, stringPayload_length] at h
    omega
  have e : ∀ b, bson.readElem doc 0x0F b =
      match bson.readInt32 b with
      | .error e => .error e
      | .ok (total, after) =>
        match bson.readStr after with
        | .error e => .error e
        | .ok (code, after) =>
          match doc after with
          | .error e => .error e
          | .ok (scope, after) =>
            if ((b.length : Int) - (after.length : Int)) ≠ total then .error bson.corrupted
            else .ok (.jsScope code scope, after) := fun _ => rfl
  have hlen : ¬ ((((int32LE (toInt32
      (((bson.stringPayload code ++ bson.encodeDocument body).length + 4 : Nat) : Int)) ++
      (bson.stringPayload code ++ bson.encodeDocument body) ++ rest).length : Nat) : Int) -
      ((rest.length : Nat) : Int) ≠
      (((bson.stringPayload code ++ bson.encodeDocument body).length + 4 : Nat) : Int)) := by
    simp only [List.length_append, int32LE_length]
    push_cast
    omega
  rw [e]
  rw [show int32LE (toInt32
      (((bson.stringPayload code ++ bson.encodeDocument body).length + 4 : Nat) : Int)) ++
      (bson.stringPayload code ++ bson.encodeDocument body) ++ rest =
      int32LE (toInt32
      (((bson.stringPayload code ++ bson.encodeDocument body).length + 4 : Nat) : Int)) ++
      (bson.stringPayload code ++ (bson.encodeDocument body ++ rest)) by
    simp only [List.append_assoc]] at hlen ⊢
  rw [readInt32_int32LE, hv]
  dsimp only
  rw [readStr_payload code _ hs]
  dsimp only
  rw [hdoc]
  dsimp only
  rw [if_neg hlen]

theorem readElem_int (i : Int) (rest : Bytes) (h : isInt32 i) :
    bson.readElem doc 0x10 (int32LE i ++ rest) = .ok (.int i, rest) := by
  have e : bson.readElem doc 0x10 (int32LE i ++ rest) =
      match bson.readInt32 (int32LE i ++ rest) with
      | .error e => .error e
      | .ok (i, b) => .ok (.int i, b) := rfl
  rw [e, readInt32_int32LE, toInt32_of_isInt32 i h]

theorem readElem_mongoTimestamp (t : Int) (rest : Bytes) (h : isInt64 t) :
    bson.readElem doc 0x11 (int64LE t ++ rest) = .ok (.mongoTimestamp t, rest) := by
  have e : bson.readElem doc 0x11 (int64LE t ++ rest) =
      match bson.readInt64 (int64LE t ++ rest) with
      | .error e => .error e
      | .ok (t, b) => .ok (.mongoTimestamp t, b) := rfl
  rw [e, readInt64_int64LE, toInt64_of_isInt64 t h]

theorem readElem_int64 (i : Int) (rest : Bytes) (h : isInt64 i) :
    bson.readElem doc 0x12 (int64LE i ++ rest) = .ok (.int64 i, rest) := by
  have e : bson.readElem doc 0x12 (int64LE i ++ rest) =
      match bson.readInt64 (int64LE i ++ rest) with
      | .error e => .error e
      | .ok (i, b) => .ok (.int64 i, b) := rfl
  rw [e, readInt64_int64LE, toInt64_of_isInt64 i h]

theorem readElem_maxKey (rest : Bytes) : bson.readElem doc 0x7F rest = .ok (.maxKey, rest) := rfl

theorem readElem_minKey (rest : Bytes) : bson.readElem doc 0xFF rest = .ok (.minKey, rest) := rfl

end ReadElem

/-! ## Lemmas: documents read back -/

theorem append_nil_M : (m : bson.M) → m.append .nil = m
  | .nil => rfl
  | .cons key v rest => by
      simp only [bson.M.append, append_nil_M rest]

theorem readElems_nil (fuel : Nat) : bson.readElems fuel [] = .ok .nil := by
  cases fuel <;> rfl

theorem readElems_cons (fuel kind : Nat) (b : Bytes) :
    bson.readElems (fuel + 1) (kind :: b) =
      if kind = 0 then .error bson.corrupted
      else
        match bson.readCStr b with
        | .error e => .error e
        | .ok (key, b) =>
          match bson.readElem (bson.readDoc (bson.readElems fuel)) kind b with
          | .error e => .error e
          | .ok (v, b) =>
            match bson.readElems fuel b with
            | .error e => .error e
            | .ok rest => .ok (.cons key v rest) := rfl

/-- One entry read back, given that its payload reads back. -/
theorem readElems_entry (fuel : Nat) (key : Bytes) (v : bson.Value) (p more : Bytes)
    (hkey : ∀ x ∈ key, x ≠ 0)
    (hv : bson.readElem (bson.readDoc (bson.readElems fuel)) v.kind (p ++ more) = .ok (v, more)) :
    bson.readElems (fuel + 1) ([v.kind] ++ key ++ [0] ++ p ++ more) =
      match bson.readElems fuel more with
      | .error e => .error e
      | .ok rest => .ok (.cons key v rest) := by
  have e1 : [v.kind] ++ key ++ [0] ++ p ++ more = v.kind :: (key ++ 0 :: (p ++ more)) := by simp
  rw [e1, readElems_cons, if_neg (kind_ne_zero v), readCStr_append key _ hkey]
  dsimp only
  rw [hv]

mutual
/-- A two-way value encodes, and its payload reads back as the value. -/
theorem readBack_value : (v : bson.Value) → v.twoWay = true →
    ∃ p, v.payload = .ok p ∧
      (p.length < 2147483648 → ∀ (fuel : Nat) (rest : Bytes), p.length ≤ fuel →
        bson.readElem (bson.readDoc (bson.readElems fuel)) v.kind (p ++ rest) = .ok (v, rest))
  | .float64 bits, h => by
      simp only [bson.Value.twoWay, decide_eq_true_eq] at h
      exact ⟨_, rfl, fun _ fuel rest _ => readElem_float64 _ bits rest h⟩
  | .string s, _ => by
      refine ⟨_, rfl, fun hl fuel rest _ => readElem_string _ s rest ?_⟩
      rw [stringPayload_length] at hl
      omega
  | .document m, h => by
      simp only [bson.Value.twoWay] at h
      obtain ⟨body, hb, hread⟩ := readBack_M m h
      refine ⟨bson.encodeDocument body, ?_, ?_⟩
      · simp only [bson.Value.payload, hb, bind, Except.bind, pure, Except.pure]
      · intro hl fuel rest hf
        rw [encodeDocument_length] at hl hf
        have := hread (by omega) fuel [] (by rw [List.append_nil]; omega)
        rw [List.append_nil, readElems_nil] at this
        apply readElem_document
        rw [readDoc_encodeDocument _ body rest (by omega), this]
        simp only [bson.M.before, append_nil_M]
  | .array items, h => by
      simp only [bson.Value.twoWay] at h
      obtain ⟨body, hb, hread⟩ := readBack_Items items h 0
      refine ⟨bson.encodeDocument body, ?_, ?_⟩
      · simp only [bson.Value.payload, hb, bind, Except.bind, pure, Except.pure]
      · intro hl fuel rest hf
        rw [encodeDocument_length] at hl hf
        obtain ⟨m, hm, hitems⟩ := hread (by omega) fuel (by omega)
        have := readElem_array (bson.readDoc (bson.readElems fuel))
          (bson.encodeDocument body ++ rest) rest m
          (by rw [readDoc_encodeDocument _ body rest (by omega), hm])
        rw [hitems] at this
        exact this
  | .bytes data, _ => by
      refine ⟨_, rfl, fun hl fuel rest _ => ?_⟩
      simp only [List.length_append, int32LE_length, List.length_cons, List.length_nil] at hl
      have := readElem_binary (bson.readDoc (bson.readElems fuel)) 0 data rest (by omega)
        (by decide)
      simpa using this
  | .binary kind data, h => by
      simp only [bson.Value.twoWay, Bool.and_eq_true, decide_eq_true_eq] at h
      obtain ⟨h0, h2⟩ := h
      refine ⟨int32LE (toInt32 (data.length : Nat)) ++ [kind] ++ data, ?_, ?_⟩
      · simp only [bson.Value.payload, h2, ↓reduceIte]
      · intro hl fuel rest _
        simp only [List.length_append, int32LE_length, List.length_cons, List.length_nil] at hl
        have := readElem_binary (bson.readDoc (bson.readElems fuel)) kind data rest (by omega) h2
        rw [if_neg h0] at this
        exact this
  | .undefined, _ => ⟨_, rfl, fun _ fuel rest _ => readElem_undefined _ rest⟩
  | .objectId id, h => by
      simp only [bson.Value.twoWay, decide_eq_true_eq] at h
      refine ⟨id, ?_, fun _ fuel rest _ => readElem_objectId _ id rest h⟩
      simp only [bson.Value.payload, h, ↓reduceIte]
  | .bool b, _ => ⟨_, rfl, fun _ fuel rest _ => readElem_bool _ b rest⟩
  | .timestamp ns, h => by
      simp only [bson.Value.twoWay, Bool.and_eq_true, decide_eq_true_eq] at h
      exact ⟨_, rfl, fun _ fuel rest _ => readElem_timestamp _ ns rest h.1 h.2⟩
  | .null, _ => ⟨_, rfl, fun _ fuel rest _ => readElem_null _ rest⟩
  | .regEx pattern options, h => by
      simp only [bson.Value.twoWay, Bool.and_eq_true, noNul_iff] at h
      exact ⟨_, rfl, fun _ fuel rest _ => readElem_regEx _ pattern options rest h.1 h.2⟩
  | .js code, _ => by
      refine ⟨_, rfl, fun hl fuel rest _ => readElem_js _ code rest ?_⟩
      rw [stringPayload_length] at hl
      omega
  | .jsScope code scope, h => by
      simp only [bson.Value.twoWay] at h
      obtain ⟨body, hb, hread⟩ := readBack_M scope h
      refine ⟨int32LE (toInt32 (((bson.stringPayload code ++ bson.encodeDocument body).length + 4
        : Nat) : Int)) ++ (bson.stringPayload code ++ bson.encodeDocument body), ?_, ?_⟩
      · simp only [bson.Value.payload, hb, bind, Except.bind, pure, Except.pure]
      · intro hl fuel rest hf
        simp only [List.length_append, int32LE_length, stringPayload_length,
          encodeDocument_length] at hl hf
        have := hread (by omega) fuel [] (by rw [List.append_nil]; omega)
        rw [List.append_nil, readElems_nil] at this
        apply readElem_jsScope
        · simp only [List.length_append, stringPayload_length, encodeDocument_length]
          omega
        · rw [readDoc_encodeDocument _ body rest (by omega), this]
          simp only [bson.M.before, append_nil_M]
  | .symbol s, _ => by
      refine ⟨_, rfl, fun hl fuel rest _ => readElem_symbol _ s rest ?_⟩
      rw [stringPayload_length] at hl
      omega
  | .int i, h => by
      simp only [bson.Value.twoWay, decide_eq_true_eq] at h
      exact ⟨_, rfl, fun _ fuel rest _ => readElem_int _ i rest h⟩
  | .mongoTimestamp t, h => by
      simp only [bson.Value.twoWay, decide_eq_true_eq] at h
      exact ⟨_, rfl, fun _ fuel rest _ => readElem_mongoTimestamp _ t rest h⟩
  | .int64 i, h => by
      simp only [bson.Value.twoWay, decide_eq_true_eq] at h
      exact ⟨_, rfl, fun _ fuel rest _ => readElem_int64 _ i rest h⟩
  | .maxKey, _ => ⟨_, rfl, fun _ fuel rest _ => readElem_maxKey _ rest⟩
  | .minKey, _ => ⟨_, rfl, fun _ fuel rest _ => readElem_minKey _ rest⟩
/-- A two-way document encodes, and its elements, followed by any bytes,
read back as its entries followed by what those bytes read as. -/
theorem readBack_M : (m : bson.M) → m.twoWay = true →
    ∃ body, m.elements = .ok body ∧
      (body.length < 2147483648 → ∀ (fuel : Nat) (tail : Bytes), (body ++ tail).length ≤ fuel →
        bson.readElems fuel (body ++ tail) = m.before (bson.readElems (fuel - m.length) tail))
  | .nil, _ => by
      refine ⟨[], rfl, fun _ fuel tail _ => ?_⟩
      cases h : bson.readElems (fuel - bson.M.length .nil) tail <;>
        simp only [List.nil_append, bson.M.length, Nat.sub_zero] at h ⊢ <;>
        rw [h] <;> rfl
  | .cons key v rest, h => by
      simp only [bson.M.twoWay, Bool.and_eq_true, noNul_iff] at h
      obtain ⟨⟨hkey, hv⟩, hrest⟩ := h
      obtain ⟨p, hp, hpread⟩ := readBack_value v hv
      obtain ⟨more, hmore, hmread⟩ := readBack_M rest hrest
      refine ⟨[v.kind] ++ key ++ [0] ++ p ++ more, ?_, ?_⟩
      · simp only [bson.M.elements, hp, hmore, bind, Except.bind, pure, Except.pure]
      · intro hl fuel tail hf
        simp only [List.length_append, List.length_cons, List.length_nil] at hl hf
        obtain ⟨f, rfl⟩ : ∃ f, fuel = f + 1 := ⟨fuel - 1, by omega⟩
        have h1 := hpread (by omega) f (more ++ tail) (by omega)
        have h2 := hmread (by omega) f tail (by rw [List.length_append]; omega)
        have h3 := readElems_entry f key v p (more ++ tail) hkey h1
        rw [show [v.kind] ++ key ++ [0] ++ p ++ more ++ tail =
          [v.kind] ++ key ++ [0] ++ p ++ (more ++ tail) by simp only [List.append_assoc], h3, h2]
        have e : f + 1 - (bson.M.cons key v rest).length = f - rest.length := by
          simp only [bson.M.length]
          omega
        rw [e]
        cases bson.readElems (f - rest.length) tail <;> rfl
/-- A two-way array encodes, and its elements read back as a document with
the same values in order. -/
theorem readBack_Items : (items : bson.Items) → items.twoWay = true → ∀ i,
    ∃ body, items.elements i = .ok body ∧
      (body.length < 2147483648 → ∀ (fuel : Nat), body.length ≤ fuel →
        ∃ m, bson.readElems fuel body = .ok m ∧ m.items = items)
  | .nil, _, _ => ⟨[], rfl, fun _ fuel _ => ⟨.nil, readElems_nil fuel, rfl⟩⟩
  | .cons v rest, h, i => by
      simp only [bson.Items.twoWay, Bool.and_eq_true] at h
      obtain ⟨hv, hrest⟩ := h
      obtain ⟨p, hp, hpread⟩ := readBack_value v hv
      obtain ⟨more, hmore, hmread⟩ := readBack_Items rest hrest (i + 1)
      refine ⟨[v.kind] ++ bson.itoa i ++ [0] ++ p ++ more, ?_, ?_⟩
      · simp only [bson.Items.elements, hp, hmore, bind, Except.bind, pure, Except.pure]
      · intro hl fuel hf
        simp only [List.length_append, List.length_cons, List.length_nil] at hl hf
        obtain ⟨f, rfl⟩ : ∃ f, fuel = f + 1 := ⟨fuel - 1, by omega⟩
        have h1 := hpread (by omega) f more (by omega)
        obtain ⟨m, h2, h3⟩ := hmread (by omega) f (by omega)
        refine ⟨.cons (bson.itoa i) v m, ?_, ?_⟩
        · rw [readElems_entry f (bson.itoa i) v p more (itoa_no_nul i) h1, h2]
        · simp only [bson.M.items, h3]
end

theorem readDoc_short_length (elems : Bytes → Except String bson.M) (b : Bytes)
    (h4 : 4 ≤ b.length) (hn : int32At b 0 < 5 ∨ (b.length : Int) < int32At b 0) :
    bson.readDoc elems b = .error bson.corrupted := by
  unfold bson.readDoc bson.readInt32
  rw [if_pos h4]
  dsimp only
  rw [if_pos hn]

theorem Unmarshal_short_length (b : Bytes) (target : bson.Target)
    (h4 : 4 ≤ b.length) (hn : int32At b 0 < 5 ∨ (b.length : Int) < int32At b 0) :
    bson.Unmarshal b target = .error bson.corrupted := by
  unfold bson.Unmarshal
  rw [readDoc_short_length _ b h4 hn]

theorem Unmarshal_oversize (data : Bytes) (h : data.length = 2147483648) :
    ∃ b, bson.Marshal bson.M.elements (.value (.cons [95] (.bytes data) .nil)) = .ok b ∧
      b.length = 2147483661 ∧ bson.Unmarshal b .map = .error bson.corrupted := by
  have hm : bson.Marshal bson.M.elements (.value (.cons [95] (.bytes data) .nil)) =
      .ok (bson.encodeDocument ([5] ++ [95] ++ [0] ++
        (int32LE (toInt32 (data.length : Nat)) ++ [0] ++ data) ++ [])) := by
    simp only [bson.Marshal, bson.M.elements, bson.Value.payload, bson.Value.kind, bind,
      Except.bind, pure, Except.pure]
  have hbody : ([5] ++ [95] ++ [0] ++
      (int32LE (toInt32 (data.length : Nat)) ++ [0] ++ data) ++ []).length =
      data.length + 8 := by
    simp only [List.length_append, List.length_cons, List.length_nil, int32LE_length]
    omega
  generalize ([5] ++ [95] ++ [0] ++
      (int32LE (toInt32 (data.length : Nat)) ++ [0] ++ data) ++ []) = body at hm hbody
  have hlen := encodeDocument_length body
  have hfront := encodeDocument_front body
  rw [hbody] at hlen hfront
  have hneg : toInt32 ((data.length + 8 + 5 : Nat) : Int) < 5 := by
    unfold toInt32
    omega
  have h4 : 4 ≤ (bson.encodeDocument body).length := by omega
  exact ⟨_, hm, hlen.trans (by omega),
    Unmarshal_short_length _ _ h4 (Or.inl (lt_of_eq_of_lt hfront hneg))⟩

/-! ## Encoding and decoding a map document -/

theorem readDoc_frame (elems : Bytes → Except String bson.M) (b : Bytes)
    (h : 4 ≤ b.length → 5 ≤ int32At b 0 → int32At b 0 ≤ (b.length : Int) →
      (b.take (int32At b 0).toNat).getLast? = some 0 →
      elems (bson.frameBody b) = .error bson.corrupted) :
    bson.readDoc elems b = .error bson.corrupted := by
  unfold bson.readDoc bson.readInt32
  by_cases h4 : 4 ≤ b.length
  · rw [if_pos h4]
    dsimp only
    by_cases hn : int32At b 0 < 5 ∨ (b.length : Int) < int32At b 0
    · rw [if_pos hn]
    · rw [if_neg hn]
      by_cases hl : (b.take (int32At b 0).toNat).getLast? ≠ some 0
      · rw [if_pos hl]
      · rw [if_neg hl]
        have h5 := h h4 (by omega) (by omega) (not_not.1 hl)
        unfold bson.frameBody at h5
        rw [h5]
  · rw [if_neg h4]

theorem Unmarshal_frame (b : Bytes) (target : bson.Target)
    (h : 4 ≤ b.length → 5 ≤ int32At b 0 → int32At b 0 ≤ (b.length : Int) →
      (b.take (int32At b 0).toNat).getLast? = some 0 →
      bson.readElems b.length (bson.frameBody b) = .error bson.corrupted) :
    bson.Unmarshal b target = .error bson.corrupted := by
  unfold bson.Unmarshal
  rw [readDoc_frame _ b h]

theorem frameBody_length (b : Bytes) :
    (bson.frameBody b).length ≤ b.length ∧ (bson.frameBody b).length < 2147483648 := by
  have := int32At_lt b 0
  unfold bson.frameBody
  rw [List.length_dropLast, List.length_drop, List.length_take]
  omega


/-! ### The decoder reads at the front of its input -/

theorem M_append_nil : (m : bson.M) → m.append .nil = m
  | .nil => rfl
  | .cons key v rest => by
      show bson.M.cons key v (rest.append .nil) = bson.M.cons key v rest
      rw [M_append_nil rest]

theorem M_before_nil (r : Except String bson.M) : bson.M.before .nil r = r := by
  cases r <;> rfl

theorem readBytes_more (n : Nat) (b x rest tail : Bytes)
    (h : bson.readBytes n b = .ok (x, rest)) :
    bson.readBytes n (b ++ tail) = .ok (x, rest ++ tail) ∧ rest.length ≤ b.length := by
  unfold bson.readBytes at h ⊢
  by_cases hn : n ≤ b.length
  · have hn2 : n ≤ (b ++ tail).length := by rw [List.length_append]; omega
    rw [if_pos hn] at h
    rw [if_pos hn2]
    injection h with h
    injection h with hx hr
    subst hx hr
    rw [List.take_append_of_le_length hn, List.drop_append_of_le_length hn]
    exact ⟨rfl, by rw [List.length_drop]; omega⟩
  · rw [if_neg hn] at h
    cases h

theorem int32At_front (b tail : Bytes) (h : 4 ≤ b.length) :
    int32At (b ++ tail) 0 = int32At b 0 := by
  unfold int32At
  rw [List.drop_zero, List.drop_zero, List.take_append_of_le_length h]

theorem int64At_front (b tail : Bytes) (h : 8 ≤ b.length) :
    int64At (b ++ tail) 0 = int64At b 0 := by
  unfold int64At
  rw [List.drop_zero, List.drop_zero, List.take_append_of_le_length h]

theorem readInt32_more (b : Bytes) (v : Int) (rest tail : Bytes)
    (h : bson.readInt32 b = .ok (v, rest)) :
    bson.readInt32 (b ++ tail) = .ok (v, rest ++ tail) ∧ rest.length ≤ b.length ∧
      4 ≤ b.length ∧ v = int32At b 0 := by
  unfold bson.readInt32 at h ⊢
  by_cases hn : 4 ≤ b.length
  · have hn2 : 4 ≤ (b ++ tail).length := by rw [List.length_append]; omega
    rw [if_pos hn] at h
    rw [if_pos hn2]
    injection h with h
    injection h with hx hr
    subst hx hr
    rw [int32At_front b tail hn, List.drop_append_of_le_length hn]
    exact ⟨rfl, by rw [List.length_drop]; omega, hn, rfl⟩
  · rw [if_neg hn] at h
    cases h

theorem readInt64_more (b : Bytes) (v : Int) (rest tail : Bytes)
    (h : bson.readInt64 b = .ok (v, rest)) :
    bson.readInt64 (b ++ tail) = .ok (v, rest ++ tail) ∧ rest.length ≤ b.length := by
  unfold bson.readInt64 at h ⊢
  by_cases hn : 8 ≤ b.length
  · have hn2 : 8 ≤ (b ++ tail).length := by rw [List.length_append]; omega
    rw [if_pos hn] at h
    rw [if_pos hn2]
    injection h with h
    injection h with hx hr
    subst hx hr
    rw [int64At_front b tail hn, List.drop_append_of_le_length hn]
    exact ⟨rfl, by rw [List.length_drop]; omega⟩
  · rw [if_neg hn] at h
    cases h

theorem readCStr_cons (x : Nat) (b : Bytes) :
    bson.readCStr (x :: b) =
      if x = 0 then .ok ([], b)
      else
        match bson.readCStr b with
        | .error e => .error e
        | .ok (s, after) => .ok (x :: s, after) := rfl

theorem readCStr_more (tail : Bytes) : ∀ (b s rest : Bytes), bson.readCStr b = .ok (s, rest) →
    bson.readCStr (b ++ tail) = .ok (s, rest ++ tail) ∧ rest.length ≤ b.length
  | [], _, _, h => by
      have e : bson.readCStr [] = .error bson.corrupted := rfl
      rw [e] at h
      cases h
  | x :: b, s, rest, h => by
      rw [List.cons_append, readCStr_cons]
      rw [readCStr_cons] at h
      by_cases hx : x = 0
      · rw [if_pos hx] at h ⊢
        injection h with h
        injection h with hs hr
        subst hs hr
        exact ⟨rfl, by rw [List.length_cons]; omega⟩
      · rw [if_neg hx] at h ⊢
        cases hr : bson.readCStr b with
        | error e =>
          rw [hr] at h
          cases h
        | ok p =>
          obtain ⟨s1, after⟩ := p
          obtain ⟨g1, g2⟩ := readCStr_more tail b s1 after hr
          rw [hr] at h
          rw [g1]
          injection h with h
          injection h with hs hr
          subst hs hr
          exact ⟨rfl, by rw [List.length_cons]; omega⟩

theorem readStr_more (b s rest tail : Bytes) (h : bson.readStr b = .ok (s, rest)) :
    bson.readStr (b ++ tail) = .ok (s, rest ++ tail) ∧ rest.length ≤ b.length := by
  unfold bson.readStr at h ⊢
  cases h1 : bson.readInt32 b with
  | error e =>
    rw [h1] at h
    cases h
  | ok p =>
    obtain ⟨l, b1⟩ := p
    obtain ⟨g1, g1l, _, _⟩ := readInt32_more b l b1 tail h1
    rw [h1] at h
    rw [g1]
    dsimp only at h ⊢
    by_cases hl : l < 1
    · rw [if_pos hl] at h
      cases h
    · rw [if_neg hl] at h ⊢
      cases h2 : bson.readBytes (l - 1).toNat b1 with
      | error e =>
        rw [h2] at h
        cases h
      | ok q =>
        obtain ⟨s1, b2⟩ := q
        obtain ⟨g2, g2l⟩ := readBytes_more _ b1 s1 b2 tail h2
        rw [h2] at h
        rw [g2]
        dsimp only at h ⊢
        cases b2 with
        | nil => cases h
        | cons y b3 =>
          cases y with
          | zero =>
            injection h with h
            injection h with hs hr
            subst hs hr
            refine ⟨rfl, ?_⟩
            rw [List.length_cons] at g2l
            omega
          | succ k => cases h

theorem readDoc_more (e1 e2 : Bytes → Except String bson.M)
    (hmono : ∀ y m, e1 y = .ok m → e2 y = .ok m)
    (b : Bytes) (m : bson.M) (rest tail : Bytes)
    (h : bson.readDoc e1 b = .ok (m, rest)) :
    bson.readDoc e2 (b ++ tail) = .ok (m, rest ++ tail) ∧ rest.length ≤ b.length := by
  unfold bson.readDoc at h ⊢
  cases h1 : bson.readInt32 b with
  | error e =>
    rw [h1] at h
    cases h
  | ok p =>
    obtain ⟨n, b1⟩ := p
    obtain ⟨g1, _, h4, hn⟩ := readInt32_more b n b1 tail h1
    rw [h1] at h
    rw [g1]
    dsimp only at h ⊢
    clear h1 g1 hn
    by_cases hc : n < 5 ∨ (b.length : Int) < n
    · rw [if_pos hc] at h
      cases h
    · rw [if_neg hc] at h
      have hle : n.toNat ≤ b.length := by omega
      have hc2 : ¬ (n < 5 ∨ ((b ++ tail).length : Int) < n) := by
        rw [List.length_append]
        push_cast
        omega
      rw [if_neg hc2, List.take_append_of_le_length hle, List.drop_append_of_le_length hle]
      by_cases hl : (b.take n.toNat).getLast? ≠ some 0
      · rw [if_pos hl] at h
        cases h
      · rw [if_neg hl] at h ⊢
        cases h2 : e1 (((b.take n.toNat).drop 4).dropLast) with
        | error e =>
          rw [h2] at h
          cases h
        | ok m1 =>
          rw [h2] at h
          rw [hmono _ _ h2]
          injection h with h
          injection h with hm hr
          subst hm hr
          exact ⟨rfl, by rw [List.length_drop]; omega⟩

/-- The decoder of an element reads at the front of its input: what it
reads from `b` it reads from `b` followed by anything, and leaves the rest
and what follows. -/
theorem readElem_more (doc1 doc2 : Bytes → Except String (bson.M × Bytes)) (tail : Bytes)
    (hdoc : ∀ x r rest, doc1 x = .ok (r, rest) →
      doc2 (x ++ tail) = .ok (r, rest ++ tail) ∧ rest.length ≤ x.length)
    (kind : Nat) (b : Bytes) (v : bson.Value) (rest : Bytes)
    (h : bson.readElem doc1 kind b = .ok (v, rest)) :
    bson.readElem doc2 kind (b ++ tail) = .ok (v, rest ++ tail) ∧ rest.length ≤ b.length := by
  have hbytes : ∀ n b x rest, bson.readBytes n b = .ok (x, rest) →
      bson.readBytes n (b ++ tail) = .ok (x, rest ++ tail) ∧ rest.length ≤ b.length :=
    fun n b x rest h => readBytes_more n b x rest tail h
  have hstr : ∀ b x rest, bson.readStr b = .ok (x, rest) →
      bson.readStr (b ++ tail) = .ok (x, rest ++ tail) ∧ rest.length ≤ b.length :=
    fun b x rest h => readStr_more b x rest tail h
  have hi32 : ∀ b x rest, bson.readInt32 b = .ok (x, rest) →
      bson.readInt32 (b ++ tail) = .ok (x, rest ++ tail) ∧ rest.length ≤ b.length :=
    fun b x rest h => ⟨(readInt32_more b x rest tail h).1, (readInt32_more b x rest tail h).2.1⟩
  have hcstr : ∀ b x rest, bson.readCStr b = .ok (x, rest) →
      bson.readCStr (b ++ tail) = .ok (x, rest ++ tail) ∧ rest.length ≤ b.length :=
    fun b x rest h => readCStr_more tail b x rest h
  have hi64 : ∀ b x rest, bson.readInt64 b = .ok (x, rest) →
      bson.readInt64 (b ++ tail) = .ok (x, rest ++ tail) ∧ rest.length ≤ b.length :=
    fun b x rest h => readInt64_more b x rest tail h
  have hret : ∀ (c : bson.Value), (.ok (c, b) : Except String (bson.Value × Bytes)) =
      .ok (v, rest) →
      (.ok (c, b ++ tail) : Except String (bson.Value × Bytes)) = .ok (v, rest ++ tail) ∧
        rest.length ≤ b.length := by
    intro c hc
    injection hc with hc
    injection hc with hv hb
    subst hv hb
    exact ⟨rfl, Nat.le_refl _⟩
  unfold bson.readElem at h ⊢
  by_cases k1 : kind = 0x01
  · rw [if_pos k1] at h ⊢
    cases h1 : bson.readBytes 8 b with
    | error e =>
      rw [h1] at h
      cases h
    | ok p =>
      obtain ⟨x, bx⟩ := p
      obtain ⟨gx, gxl⟩ := hbytes 8 b x bx h1
      rw [h1] at h
      rw [gx]
      injection h with h
      injection h with hv hb
      subst hv hb
      exact ⟨rfl, gxl⟩
  rw [if_neg k1] at h ⊢
  by_cases k2 : kind = 0x02
  · rw [if_pos k2] at h ⊢
    cases h1 : bson.readStr b with
    | error e =>
      rw [h1] at h
      cases h
    | ok p =>
      obtain ⟨x, bx⟩ := p
      obtain ⟨gx, gxl⟩ := hstr b x bx h1
      rw [h1] at h
      rw [gx]
      injection h with h
      injection h with hv hb
      subst hv hb
      exact ⟨rfl, gxl⟩
  rw [if_neg k2] at h ⊢
  by_cases k3 : kind = 0x03
  · rw [if_pos k3] at h ⊢
    cases h1 : doc1 b with
    | error e =>
      rw [h1] at h
      cases h
    | ok p =>
      obtain ⟨x, bx⟩ := p
      obtain ⟨gx, gxl⟩ := hdoc b x bx h1
      rw [h1] at h
      rw [gx]
      injection h with h
      injection h with hv hb
      subst hv hb
      exact ⟨rfl, gxl⟩
  rw [if_neg k3] at h ⊢
  by_cases k4 : kind = 0x04
  · rw [if_pos k4] at h ⊢
    cases h1 : doc1 b with
    | error e =>
      rw [h1] at h
      cases h
    | ok p =>
      obtain ⟨x, bx⟩ := p
      obtain ⟨gx, gxl⟩ := hdoc b x bx h1
      rw [h1] at h
      rw [gx]
      injection h with h
      injection h with hv hb
      subst hv hb
      exact ⟨rfl, gxl⟩
  rw [if_neg k4] at h ⊢
  by_cases k5 : kind = 0x05
  · rw [if_pos k5] at h ⊢
    cases h1 : bson.readInt32 b with
    | error e =>
      rw [h1] at h
      cases h
    | ok p =>
      obtain ⟨l, b1⟩ := p
      obtain ⟨g1, g1l⟩ := hi32 b l b1 h1
      rw [h1] at h
      rw [g1]
      dsimp only at h ⊢
      cases b1 with
      | nil => cases h
      | cons subtype b2 =>
        rw [List.cons_append]
        dsimp only at h ⊢
        rw [List.length_cons] at g1l
        by_cases hl : l < 0
        · rw [if_pos hl] at h
          cases h
        · rw [if_neg hl] at h ⊢
          by_cases hs : subtype = 2
          · rw [if_pos hs] at h ⊢
            cases h2 : bson.readInt32 b2 with
            | error e =>
              rw [h2] at h
              cases h
            | ok q =>
              obtain ⟨inner, b3⟩ := q
              obtain ⟨g2, g2l⟩ := hi32 b2 inner b3 h2
              rw [h2] at h
              rw [g2]
              dsimp only at h ⊢
              by_cases hin : inner ≠ l - 4 ∨ inner < 0
              · rw [if_pos hin] at h
                cases h
              · rw [if_neg hin] at h ⊢
                cases hq : bson.readBytes inner.toNat b3 with
                | error e =>
                  rw [hq] at h
                  cases h
                | ok p =>
                  obtain ⟨x, bx⟩ := p
                  obtain ⟨gx, gxl⟩ := hbytes inner.toNat b3 x bx hq
                  rw [hq] at h
                  rw [gx]
                  injection h with h
                  injection h with hv hb
                  subst hv hb
                  exact ⟨rfl, by omega⟩
          · rw [if_neg hs] at h ⊢
            cases h2 : bson.readBytes l.toNat b2 with
            | error e =>
              rw [h2] at h
              cases h
            | ok q =>
              obtain ⟨data, b3⟩ := q
              obtain ⟨g2, g2l⟩ := hbytes l.toNat b2 data b3 h2
              rw [h2] at h
              rw [g2]
              dsimp only at h ⊢
              by_cases h0 : subtype = 0
              · rw [if_pos h0] at h ⊢
                injection h with h
                injection h with hv hb
                subst hv hb
                exact ⟨rfl, by omega⟩
              · rw [if_neg h0] at h ⊢
                injection h with h
                injection h with hv hb
                subst hv hb
                exact ⟨rfl, by omega⟩
  rw [if_neg k5] at h ⊢
  by_cases k6 : kind = 0x06
  · rw [if_pos k6] at h ⊢
    exact hret _ h
  rw [if_neg k6] at h ⊢
  by_cases k7 : kind = 0x07
  · rw [if_pos k7] at h ⊢
    cases h1 : bson.readBytes 12 b with
    | error e =>
      rw [h1] at h
      cases h
    | ok p =>
      obtain ⟨x, bx⟩ := p
      obtain ⟨gx, gxl⟩ := hbytes 12 b x bx h1
      rw [h1] at h
      rw [gx]
      injection h with h
      injection h with hv hb
      subst hv hb
      exact ⟨rfl, gxl⟩
  rw [if_neg k7] at h ⊢
  by_cases k8 : kind = 0x08
  · rw [if_pos k8] at h ⊢
    cases b with
    | nil => cases h
    | cons x b1 =>
      rw [List.cons_append]
      dsimp only at h ⊢
      injection h with h
      injection h with hv hb
      subst hv hb
      exact ⟨rfl, by rw [List.length_cons]; omega⟩
  rw [if_neg k8] at h ⊢
  by_cases k9 : kind = 0x09
  · rw [if_pos k9] at h ⊢
    cases h1 : bson.readInt64 b with
    | error e =>
      rw [h1] at h
      cases h
    | ok p =>
      obtain ⟨x, bx⟩ := p
      obtain ⟨gx, gxl⟩ := hi64 b x bx h1
      rw [h1] at h
      rw [gx]
      injection h with h
      injection h with hv hb
      subst hv hb
      exact ⟨rfl, gxl⟩
  rw [if_neg k9] at h ⊢
  by_cases kA : kind = 0x0A
  · rw [if_pos kA] at h ⊢
    exact hret _ h
  rw [if_neg kA] at h ⊢
  by_cases kB : kind = 0x0B
  · rw [if_pos kB] at h ⊢
    cases h1 : bson.readCStr b with
    | error e =>
      rw [h1] at h
      cases h
    | ok p =>
      obtain ⟨pattern, b1⟩ := p
      obtain ⟨g1, g1l⟩ := readCStr_more tail b pattern b1 h1
      rw [h1] at h
      rw [g1]
      dsimp only at h ⊢
      cases hq : bson.readCStr b1 with
      | error e =>
        rw [hq] at h
        cases h
      | ok p =>
        obtain ⟨x, bx⟩ := p
        obtain ⟨gx, gxl⟩ := hcstr b1 x bx hq
        rw [hq] at h
        rw [gx]
        injection h with h
        injection h with hv hb
        subst hv hb
        exact ⟨rfl, by omega⟩
  rw [if_neg kB] at h ⊢
  by_cases kD : kind = 0x0D
  · rw [if_pos kD] at h ⊢
    cases h1 : bson.readStr b with
    | error e =>
      rw [h1] at h
      cases h
    | ok p =>
      obtain ⟨x, bx⟩ := p
      obtain ⟨gx, gxl⟩ := hstr b x bx h1
      rw [h1] at h
      rw [gx]
      injection h with h
      injection h with hv hb
      subst hv hb
      exact ⟨rfl, gxl⟩
  rw [if_neg kD] at h ⊢
  by_cases kE : kind = 0x0E
  · rw [if_pos kE] at h ⊢
    cases h1 : bson.readStr b with
    | error e =>
      rw [h1] at h
      cases h
    | ok p =>
      obtain ⟨x, bx⟩ := p
      obtain ⟨gx, gxl⟩ := hstr b x bx h1
      rw [h1] at h
      rw [gx]
      injection h with h
      injection h with hv hb
      subst hv hb
      exact ⟨rfl, gxl⟩
  rw [if_neg kE] at h ⊢
  by_cases kF : kind = 0x0F
  · rw [if_pos kF] at h ⊢
    cases h1 : bson.readInt32 b with
    | error e =>
      rw [h1] at h
      cases h
    | ok p =>
      obtain ⟨total, b1⟩ := p
      obtain ⟨g1, g1l⟩ := hi32 b total b1 h1
      rw [h1] at h
      rw [g1]
      dsimp only at h ⊢
      cases h2 : bson.readStr b1 with
      | error e =>
        rw [h2] at h
        cases h
      | ok q =>
        obtain ⟨code, b2⟩ := q
        obtain ⟨g2, g2l⟩ := hstr b1 code b2 h2
        rw [h2] at h
        rw [g2]
        dsimp only at h ⊢
        cases h3 : doc1 b2 with
        | error e =>
          rw [h3] at h
          cases h
        | ok q3 =>
          obtain ⟨scope, b3⟩ := q3
          obtain ⟨g3, g3l⟩ := hdoc b2 scope b3 h3
          rw [h3] at h
          rw [g3]
          dsimp only at h ⊢
          by_cases hc : ((b.length : Int) - (b3.length : Int)) ≠ total
          · rw [if_pos hc] at h
            cases h
          · have hc2 : ¬ ((((b ++ tail).length : Nat) : Int) -
                (((b3 ++ tail).length : Nat) : Int) ≠ total) := by
              rw [List.length_append, List.length_append]
              push_cast
              omega
            rw [if_neg hc] at h
            rw [if_neg hc2]
            injection h with h
            injection h with hv hb
            subst hv hb
            exact ⟨rfl, by omega⟩
  rw [if_neg kF] at h ⊢
  by_cases k10 : kind = 0x10
  · rw [if_pos k10] at h ⊢
    cases h1 : bson.readInt32 b with
    | error e =>
      rw [h1] at h
      cases h
    | ok p =>
      obtain ⟨x, bx⟩ := p
      obtain ⟨gx, gxl⟩ := hi32 b x bx h1
      rw [h1] at h
      rw [gx]
      injection h with h
      injection h with hv hb
      subst hv hb
      exact ⟨rfl, gxl⟩
  rw [if_neg k10] at h ⊢
  by_cases k11 : kind = 0x11
  · rw [if_pos k11] at h ⊢
    cases h1 : bson.readInt64 b with
    | error e =>
      rw [h1] at h
      cases h
    | ok p =>
      obtain ⟨x, bx⟩ := p
      obtain ⟨gx, gxl⟩ := hi64 b x bx h1
      rw [h1] at h
      rw [gx]
      injection h with h
      injection h with hv hb
      subst hv hb
      exact ⟨rfl, gxl⟩
  rw [if_neg k11] at h ⊢
  by_cases k12 : kind = 0x12
  · rw [if_pos k12] at h ⊢
    cases h1 : bson.readInt64 b with
    | error e =>
      rw [h1] at h
      cases h
    | ok p =>
      obtain ⟨x, bx⟩ := p
      obtain ⟨gx, gxl⟩ := hi64 b x bx h1
      rw [h1] at h
      rw [gx]
      injection h with h
      injection h with hv hb
      subst hv hb
      exact ⟨rfl, gxl⟩
  rw [if_neg k12] at h ⊢
  by_cases k7F : kind = 0x7F
  · rw [if_pos k7F] at h ⊢
    exact hret _ h
  rw [if_neg k7F] at h ⊢
  by_cases kFF : kind = 0xFF
  · rw [if_pos kFF] at h ⊢
    exact hret _ h
  rw [if_neg kFF] at h
  cases h

/-- The reader of elements reads at the front of its input, and a larger
bound changes nothing: the entries read from `good` alone are read from
`good` followed by anything, and the reading goes on behind them. -/
theorem readElems_more : ∀ (f : Nat) (good : Bytes) (m : bson.M),
    bson.readElems f good = .ok m → ∀ (f2 : Nat) (tail : Bytes), f ≤ f2 →
      bson.readElems f2 (good ++ tail) = m.before (bson.readElems (f2 - m.length) tail)
  | f, [], m, h => by
      intro f2 tail _
      rw [readElems_nil] at h
      injection h with h
      subst h
      rw [List.nil_append, M_before_nil]
      rfl
  | 0, _ :: _, m, h => by
      have e : ∀ x (b : Bytes), bson.readElems 0 (x :: b) =
          .error "bson.readElems: bound too small" := fun _ _ => rfl
      rw [e] at h
      cases h
  | f + 1, kind :: b, m, h => by
      intro f2 tail hf
      obtain ⟨f3, rfl⟩ : ∃ f3, f2 = f3 + 1 := ⟨f2 - 1, by omega⟩
      have hf3 : f ≤ f3 := by omega
      rw [readElems_cons] at h
      rw [List.cons_append, readElems_cons]
      by_cases hk : kind = 0
      · rw [if_pos hk] at h
        cases h
      · rw [if_neg hk] at h ⊢
        cases h1 : bson.readCStr b with
        | error e =>
          rw [h1] at h
          cases h
        | ok p =>
          obtain ⟨key, b1⟩ := p
          obtain ⟨g1, _⟩ := readCStr_more tail b key b1 h1
          rw [h1] at h
          rw [g1]
          dsimp only at h ⊢
          cases h2 : bson.readElem (bson.readDoc (bson.readElems f)) kind b1 with
          | error e =>
            rw [h2] at h
            cases h
          | ok q =>
            obtain ⟨v, b2⟩ := q
            have hmono : ∀ y m, bson.readElems f y = .ok m → bson.readElems f3 y = .ok m := by
              intro y m1 hy
              have := readElems_more f y m1 hy f3 [] hf3
              rw [List.append_nil, readElems_nil] at this
              rw [this]
              show Except.ok (m1.append .nil) = Except.ok m1
              rw [M_append_nil]
            obtain ⟨g2, _⟩ := readElem_more (bson.readDoc (bson.readElems f))
              (bson.readDoc (bson.readElems f3)) tail
              (fun x r rest hx => readDoc_more _ _ hmono x r rest tail hx) kind b1 v b2 h2
            rw [h2] at h
            rw [g2]
            dsimp only at h ⊢
            cases h3 : bson.readElems f b2 with
            | error e =>
              rw [h3] at h
              cases h
            | ok more =>
              rw [h3] at h
              rw [readElems_more f b2 more h3 f3 tail hf3]
              injection h with h
              subst h
              have hsub : f3 + 1 - (bson.M.cons key v more).length = f3 - more.length := by
                show f3 + 1 - (more.length + 1) = f3 - more.length
                omega
              rw [hsub]
              cases bson.readElems (f3 - more.length) tail <;> rfl

theorem readElems_length : ∀ (f : Nat) (good : Bytes) (m : bson.M),
    bson.readElems f good = .ok m → m.length ≤ good.length
  | f, [], m, h => by
      rw [readElems_nil] at h
      injection h with h
      subst h
      exact Nat.le_refl _
  | 0, _ :: _, m, h => by
      have e : ∀ x (b : Bytes), bson.readElems 0 (x :: b) =
          .error "bson.readElems: bound too small" := fun _ _ => rfl
      rw [e] at h
      cases h
  | f + 1, kind :: b, m, h => by
      rw [readElems_cons] at h
      by_cases hk : kind = 0
      · rw [if_pos hk] at h
        cases h
      · rw [if_neg hk] at h
        cases h1 : bson.readCStr b with
        | error e =>
          rw [h1] at h
          cases h
        | ok p =>
          obtain ⟨key, b1⟩ := p
          obtain ⟨_, g1⟩ := readCStr_more [] b key b1 h1
          rw [h1] at h
          dsimp only at h
          cases h2 : bson.readElem (bson.readDoc (bson.readElems f)) kind b1 with
          | error e =>
            rw [h2] at h
            cases h
          | ok q =>
            obtain ⟨v, b2⟩ := q
            obtain ⟨_, g2⟩ := readElem_more (bson.readDoc (bson.readElems f))
              (bson.readDoc (bson.readElems f)) []
              (fun x r rest hx => readDoc_more _ _ (fun _ _ hy => hy) x r rest [] hx)
              kind b1 v b2 h2
            rw [h2] at h
            dsimp only at h
            cases h3 : bson.readElems f b2 with
            | error e =>
              rw [h3] at h
              cases h
            | ok more =>
              have ih := readElems_length f b2 more h3
              rw [h3] at h
              injection h with h
              subst h
              show more.length + 1 ≤ (kind :: b).length
              rw [List.length_cons]
              omega

/-- A defective element behind elements that are read without error: the
elements are read, and then the defect is met. -/
theorem readElems_defect (m : bson.M) (good bad : Bytes) (hg : bson.readsAs good m)
    (hne : 0 < bad.length)
    (hbad : ∀ f, bad.length ≤ f + 1 → bson.readElems (f + 1) bad = .error bson.corrupted)
    (fuel : Nat) (hfuel : (good ++ bad).length ≤ fuel) :
    bson.readElems fuel (good ++ bad) = .error bson.corrupted := by
  have hlen := readElems_length _ good m hg
  rw [List.length_append] at hfuel
  rw [readElems_more _ good m hg fuel bad (by omega)]
  obtain ⟨f, hf⟩ : ∃ f, fuel - m.length = f + 1 := ⟨fuel - m.length - 1, by omega⟩
  rw [hf, hbad f (by omega)]
  rfl

theorem readElems_key_no_nul (f kind : Nat) (rest : Bytes) (h : noNul rest = true) :
    bson.readElems (f + 1) (kind :: rest) = .error bson.corrupted := by
  rw [readElems_cons]
  by_cases hk : kind = 0
  · rw [if_pos hk]
  · rw [if_neg hk, readCStr_no_nul rest ((noNul_iff rest).1 h)]

theorem readStr_not_nul (s : Bytes) (x : Nat) (rest : Bytes) (hx : x ≠ 0)
    (hs : s.length + 1 < 2147483648) :
    bson.readStr (int32LE ((s.length + 1 : Nat) : Int) ++ s ++ x :: rest) =
      .error bson.corrupted := by
  have hv : toInt32 ((s.length + 1 : Nat) : Int) = ((s.length + 1 : Nat) : Int) :=
    toInt32_of_lt _ hs
  have hl : ¬ (((s.length + 1 : Nat) : Int) < 1) := by omega
  have hn : (((s.length + 1 : Nat) : Int) - 1).toNat = s.length := by omega
  unfold bson.readStr
  rw [List.append_assoc, readInt32_int32LE, hv]
  dsimp only
  rw [if_neg hl, hn, readBytes_append s _ _ rfl]
  cases x with
  | zero => exact absurd rfl hx
  | succ n => rfl

theorem readElems_string_not_nul (f kind : Nat) (key s : Bytes) (x : Nat) (rest : Bytes)
    (hk : kind = 0x02 ∨ kind = 0x0D ∨ kind = 0x0E) (hkey : noNul key = true) (hx : x ≠ 0)
    (hs : s.length + 1 < 2147483648) :
    bson.readElems (f + 1)
      ([kind] ++ key ++ [0] ++ int32LE ((s.length + 1 : Nat) : Int) ++ s ++ x :: rest) =
      .error bson.corrupted := by
  have e1 : [kind] ++ key ++ [0] ++ int32LE ((s.length + 1 : Nat) : Int) ++ s ++ x :: rest =
      kind :: (key ++ 0 :: (int32LE ((s.length + 1 : Nat) : Int) ++ s ++ x :: rest)) := by
    simp only [List.append_assoc, List.cons_append, List.nil_append]
  have hstr := readStr_not_nul s x rest hx hs
  have e2 : ∀ (doc : Bytes → Except String (bson.M × Bytes)) (b : Bytes),
      bson.readStr b = .error bson.corrupted →
      bson.readElem doc kind b = .error bson.corrupted := by
    intro doc b hb
    rcases hk with hk | hk | hk <;> subst hk <;> unfold bson.readElem <;>
      simp only [hb] <;> rfl
  have hk0 : kind ≠ 0 := by omega
  rw [e1, readElems_cons, if_neg hk0, readCStr_append key _ ((noNul_iff key).1 hkey)]
  dsimp only
  rw [e2 _ _ hstr]

theorem readDoc_past (elems : Bytes → Except String bson.M) (rest : Bytes)
    (h : (rest.length : Int) < int32At rest 0) :
    bson.readDoc elems rest = .error bson.corrupted := by
  by_cases h4 : 4 ≤ rest.length
  · exact readDoc_short_length elems rest h4 (Or.inr h)
  · unfold bson.readDoc bson.readInt32
    rw [if_neg h4]


theorem readElems_nested (f kind : Nat) (key rest : Bytes)
    (hk : kind = 0x03 ∨ kind = 0x04) (hkey : noNul key = true)
    (h : bson.readDoc (bson.readElems f) rest = .error bson.corrupted) :
    bson.readElems (f + 1) ([kind] ++ key ++ [0] ++ rest) = .error bson.corrupted := by
  have e1 : [kind] ++ key ++ [0] ++ rest = kind :: (key ++ 0 :: rest) := by
    simp only [List.append_assoc, List.cons_append, List.nil_append]
  have e2 : ∀ (doc : Bytes → Except String (bson.M × Bytes)) (b : Bytes),
      doc b = .error bson.corrupted →
      bson.readElem doc kind b = .error bson.corrupted := by
    intro doc b hb
    rcases hk with hk | hk <;> subst hk <;> unfold bson.readElem <;>
      simp only [hb] <;> rfl
  have hk0 : kind ≠ 0 := by omega
  rw [e1, readElems_cons, if_neg hk0, readCStr_append key _ ((noNul_iff key).1 hkey)]
  dsimp only
  rw [e2 _ _ h]

/-- The document reader rejects every ill-framed input as corrupted, with
any bound that is at least the length of the input. -/
theorem readDoc_illFramed (b : Bytes) (h : bson.IllFramed b) :
    ∀ f, b.length ≤ f → bson.readDoc (bson.readElems f) b = .error bson.corrupted := by
  induction h with
  | tooShort b h =>
    intro f _
    exact readDoc_frame _ b (fun h4 _ _ _ => absurd h4 (by omega))
  | lengthBelow5 b h =>
    intro f _
    exact readDoc_frame _ b (fun _ h5 _ _ => absurd h (by omega))
  | lengthPastInput b h =>
    intro f _
    exact readDoc_frame _ b (fun _ _ hle _ => absurd h (by omega))
  | lastNotNul b h =>
    intro f _
    exact readDoc_frame _ b (fun _ _ _ hl => absurd hl h)
  | keyWithoutNul b good m kind rest hg hrest hbody =>
    intro f hf
    apply readDoc_frame
    intro _ _ _ _
    have hl := frameBody_length b
    rw [hbody.eq] at hl ⊢
    exact readElems_defect m good (kind :: rest) hg (by rw [List.length_cons]; omega)
      (fun f2 _ => readElems_key_no_nul f2 kind rest hrest) f (by omega)
  | stringNotNul b good m kind key s x rest hg hk hkey hx hbody =>
    intro f hf
    apply readDoc_frame
    intro _ _ _ _
    have hl := frameBody_length b
    rw [hbody.eq] at hl ⊢
    have hs : s.length + 1 < 2147483648 := by
      have := hl.2
      simp only [List.length_append, List.length_cons, List.length_nil, int32LE_length] at this
      omega
    exact readElems_defect m good _ hg
      (by simp only [List.length_append, List.length_cons, List.length_nil]; omega)
      (fun f2 _ => readElems_string_not_nul f2 kind key s x rest hk hkey hx hs) f (by omega)
  | nested b good m kind key rest hg hk hkey hrest hbody ih =>
    intro f hf
    apply readDoc_frame
    intro _ _ _ _
    have hl := frameBody_length b
    rw [hbody.eq] at hl ⊢
    exact readElems_defect m good _ hg
      (by simp only [List.length_append, List.length_cons, List.length_nil]; omega)
      (fun f2 hf2 => readElems_nested f2 kind key rest hk hkey
        (ih f2 (by
          simp only [List.length_append, List.length_cons, List.length_nil] at hf2
          omega))) f (by omega)

/-- C22, as stated, fails: a string whose last byte is not NUL, an element
key without a NUL inside the frame, and an array whose own length runs past
the enclosing frame, each behind an element of the unknown kind 0xEE with
the key "a".  None of the three byte strings is a well-framed document, and
`Unmarshal` into a `bson.M` and into a pointer to a struct fails on each
with "Unknown element kind (0xEE)", not with "Document is corrupted": the
decoder stops at the first element it cannot read. -/
theorem Unmarshal_unknown_kind_first :
    (bson.HasBody [17, 0, 0, 0, 238, 97, 0, 2, 0, 3, 0, 0, 0, 121, 111, 255, 0]
        ([238, 97, 0] ++ ([2] ++ [] ++ [0] ++ int32LE 3 ++ [121, 111] ++ 255 :: [])) ∧
      bson.Unmarshal [17, 0, 0, 0, 238, 97, 0, 2, 0, 3, 0, 0, 0, 121, 111, 255, 0] .map =
        .error "Unknown element kind (0xEE)" ∧
      bson.Unmarshal [17, 0, 0, 0, 238, 97, 0, 2, 0, 3, 0, 0, 0, 121, 111, 255, 0]
        (.structPtr []) = .error "Unknown element kind (0xEE)") ∧
    (bson.HasBody [13, 0, 0, 0, 238, 97, 0, 10, 111, 111, 111, 112, 0]
        ([238, 97, 0] ++ 10 :: [111, 111, 111, 112]) ∧
      noNul [111, 111, 111, 112] = true ∧
      bson.Unmarshal [13, 0, 0, 0, 238, 97, 0, 10, 111, 111, 111, 112, 0] .map =
        .error "Unknown element kind (0xEE)" ∧
      bson.Unmarshal [13, 0, 0, 0, 238, 97, 0, 10, 111, 111, 111, 112, 0]
        (.structPtr []) = .error "Unknown element kind (0xEE)") ∧
    (bson.HasBody [17, 0, 0, 0, 238, 97, 0, 4, 0, 9, 0, 0, 0, 10, 0, 0, 0]
        ([238, 97, 0] ++ ([4] ++ [] ++ [0] ++ [9, 0, 0, 0, 10, 0, 0])) ∧
      (([9, 0, 0, 0, 10, 0, 0] : Bytes).length : Int) < int32At [9, 0, 0, 0, 10, 0, 0] 0 ∧
      bson.Unmarshal [17, 0, 0, 0, 238, 97, 0, 4, 0, 9, 0, 0, 0, 10, 0, 0, 0] .map =
        .error "Unknown element kind (0xEE)" ∧
      bson.Unmarshal [17, 0, 0, 0, 238, 97, 0, 4, 0, 9, 0, 0, 0, 10, 0, 0, 0]
        (.structPtr []) = .error "Unknown element kind (0xEE)") ∧
    (.error "Unknown element kind (0xEE)" : Except String bson.M) ≠
      .error "Document is corrupted" :=
  ⟨⟨⟨by decide⟩, rfl, rfl⟩, ⟨⟨by decide⟩, rfl, rfl, rfl⟩, ⟨⟨by decide⟩, by decide, rfl, rfl⟩,
    fun h => absurd (Except.error.inj h) (by decide)⟩

/-- C22, amended: every byte string that is not a well-framed document
makes `Unmarshal` fail with exactly "Document is corrupted", into a
`bson.M` and into a pointer to a struct alike, when its defect is the first
thing the decoder cannot read: fewer than four bytes; a length below 5; a
length larger than the input; a last byte of the frame other than 0x00; or,
behind elements that the decoder reads without error, an element key
without a NUL inside the frame, a string whose last byte is not NUL, or a
sub-document or array that is itself such a byte string within what is left
of the enclosing frame, to any depth. -/
theorem Unmarshal_corrupted (b : Bytes) (h : bson.IllFramed b) :
    bson.Unmarshal b .map = .error "Document is corrupted" ∧
    ∀ fields, bson.Unmarshal b (.structPtr fields) = .error "Document is corrupted" := by
  have key : ∀ target, bson.Unmarshal b target = .error bson.corrupted := by
    intro target
    unfold bson.Unmarshal
    rw [readDoc_illFramed b h b.length (Nat.le_refl _)]
  exact ⟨key .map, fun fields => key (.structPtr fields)⟩

theorem Unmarshal_corrupted_witness :
    (bson.IllFramed [4, 0, 0, 0, 0] ∧
      bson.Unmarshal [4, 0, 0, 0, 0] .map =
        .error "Document is corrupted" ∧
      bson.Unmarshal [4, 0, 0, 0, 0]
        (.structPtr []) = .error "Document is corrupted") ∧
    (bson.IllFramed [6, 0, 0, 0, 0] ∧
      bson.Unmarshal [6, 0, 0, 0, 0] .map =
        .error "Document is corrupted" ∧
      bson.Unmarshal [6, 0, 0, 0, 0]
        (.structPtr []) = .error "Document is corrupted") ∧
    (bson.IllFramed [5, 0, 0] ∧
      bson.Unmarshal [5, 0, 0] .map =
        .error "Document is corrupted" ∧
      bson.Unmarshal [5, 0, 0]
        (.structPtr []) = .error "Document is corrupted") ∧
    (bson.IllFramed [5, 0, 0, 0, 255] ∧
      bson.Unmarshal [5, 0, 0, 0, 255] .map =
        .error "Document is corrupted" ∧
      bson.Unmarshal [5, 0, 0, 0, 255]
        (.structPtr []) = .error "Document is corrupted") ∧
    (bson.IllFramed [10, 0, 0, 0, 10, 111, 111, 111, 112, 0] ∧
      bson.Unmarshal [10, 0, 0, 0, 10, 111, 111, 111, 112, 0] .map =
        .error "Document is corrupted" ∧
      bson.Unmarshal [10, 0, 0, 0, 10, 111, 111, 111, 112, 0]
        (.structPtr []) = .error "Document is corrupted") ∧
    (bson.IllFramed [14, 0, 0, 0, 4, 0, 9, 0, 0, 0, 10, 0, 0, 0] ∧
      bson.Unmarshal [14, 0, 0, 0, 4, 0, 9, 0, 0, 0, 10, 0, 0, 0] .map =
        .error "Document is corrupted" ∧
      bson.Unmarshal [14, 0, 0, 0, 4, 0, 9, 0, 0, 0, 10, 0, 0, 0]
        (.structPtr []) = .error "Document is corrupted") ∧
    (bson.IllFramed [14, 0, 0, 0, 4, 0, 8, 0, 0, 0, 10, 0, 0, 0] ∧
      bson.Unmarshal [14, 0, 0, 0, 4, 0, 8, 0, 0, 0, 10, 0, 0, 0] .map =
        .error "Document is corrupted" ∧
      bson.Unmarshal [14, 0, 0, 0, 4, 0, 8, 0, 0, 0, 10, 0, 0, 0]
        (.structPtr []) = .error "Document is corrupted") ∧
    (bson.IllFramed [14, 0, 0, 0, 3, 0, 8, 0, 0, 0, 10, 0, 0, 0] ∧
      bson.Unmarshal [14, 0, 0, 0, 3, 0, 8, 0, 0, 0, 10, 0, 0, 0] .map =
        .error "Document is corrupted" ∧
      bson.Unmarshal [14, 0, 0, 0, 3, 0, 8, 0, 0, 0, 10, 0, 0, 0]
        (.structPtr []) = .error "Document is corrupted") ∧
    (bson.IllFramed [14, 0, 0, 0, 2, 0, 3, 0, 0, 0, 121, 111, 255, 0] ∧
      bson.Unmarshal [14, 0, 0, 0, 2, 0, 3, 0, 0, 0, 121, 111, 255, 0] .map =
        .error "Document is corrupted" ∧
      bson.Unmarshal [14, 0, 0, 0, 2, 0, 3, 0, 0, 0, 121, 111, 255, 0]
        (.structPtr []) = .error "Document is corrupted") ∧
    (bson.IllFramed [20, 0, 0, 0, 2, 95, 0, 3, 0, 0, 0, 121, 111, 0, 10, 111, 111, 111, 112, 0] ∧
      bson.Unmarshal [20, 0, 0, 0, 2, 95, 0, 3, 0, 0, 0, 121, 111, 0, 10, 111, 111, 111, 112, 0] .map =
        .error "Document is corrupted" ∧
      bson.Unmarshal [20, 0, 0, 0, 2, 95, 0, 3, 0, 0, 0, 121, 111, 0, 10, 111, 111, 111, 112, 0]
        (.structPtr [[95]]) = .error "Document is corrupted") ∧
    (bson.IllFramed [14, 0, 0, 0, 8, 98, 0, 2, 10, 111, 111, 111, 112, 0] ∧
      bson.Unmarshal [14, 0, 0, 0, 8, 98, 0, 2, 10, 111, 111, 111, 112, 0] .map =
        .error "Document is corrupted" ∧
      bson.Unmarshal [14, 0, 0, 0, 8, 98, 0, 2, 10, 111, 111, 111, 112, 0]
        (.structPtr [[98]]) = .error "Document is corrupted") ∧
    (bson.IllFramed [21, 0, 0, 0, 3, 0, 14, 0, 0, 0, 2, 0, 3, 0, 0, 0, 121, 111, 255, 0, 0] ∧
      bson.Unmarshal [21, 0, 0, 0, 3, 0, 14, 0, 0, 0, 2, 0, 3, 0, 0, 0, 121, 111, 255, 0, 0] .map =
        .error "Document is corrupted" ∧
      bson.Unmarshal [21, 0, 0, 0, 3, 0, 14, 0, 0, 0, 2, 0, 3, 0, 0, 0, 121, 111, 255, 0, 0]
        (.structPtr []) = .error "Document is corrupted") :=
  have h1 : bson.IllFramed [4, 0, 0, 0, 0] :=
    .lengthBelow5 _ (by decide)
  have h2 : bson.IllFramed [6, 0, 0, 0, 0] :=
    .lengthPastInput _ (by decide)
  have h3 : bson.IllFramed [5, 0, 0] :=
    .tooShort _ (by decide)
  have h4 : bson.IllFramed [5, 0, 0, 0, 255] :=
    .lastNotNul _ (by decide)
  have h5 : bson.IllFramed [10, 0, 0, 0, 10, 111, 111, 111, 112, 0] :=
    .keyWithoutNul _ [] .nil 10 [111, 111, 111, 112] rfl rfl ⟨by decide⟩
  have h6 : bson.IllFramed [14, 0, 0, 0, 4, 0, 9, 0, 0, 0, 10, 0, 0, 0] :=
    .nested _ [] .nil 4 [] [9, 0, 0, 0, 10, 0, 0] rfl (Or.inr rfl) rfl
      (.lengthPastInput _ (by decide)) ⟨by decide⟩
  have h7 : bson.IllFramed [14, 0, 0, 0, 4, 0, 8, 0, 0, 0, 10, 0, 0, 0] :=
    .nested _ [] .nil 4 [] [8, 0, 0, 0, 10, 0, 0] rfl (Or.inr rfl) rfl
      (.lengthPastInput _ (by decide)) ⟨by decide⟩
  have h8 : bson.IllFramed [14, 0, 0, 0, 3, 0, 8, 0, 0, 0, 10, 0, 0, 0] :=
    .nested _ [] .nil 3 [] [8, 0, 0, 0, 10, 0, 0] rfl (Or.inl rfl) rfl
      (.lengthPastInput _ (by decide)) ⟨by decide⟩
  have h9 : bson.IllFramed [14, 0, 0, 0, 2, 0, 3, 0, 0, 0, 121, 111, 255, 0] :=
    .stringNotNul _ [] .nil 2 [] [121, 111] 255 [] rfl (Or.inl rfl) rfl (by decide)
      ⟨by decide⟩
  have h10 : bson.IllFramed [20, 0, 0, 0, 2, 95, 0, 3, 0, 0, 0, 121, 111, 0, 10, 111, 111, 111, 112, 0] :=
    .keyWithoutNul _ [2, 95, 0, 3, 0, 0, 0, 121, 111, 0]
      (.cons [95] (.string [121, 111]) .nil) 10 [111, 111, 111, 112] rfl rfl ⟨by decide⟩
  have h11 : bson.IllFramed [14, 0, 0, 0, 8, 98, 0, 2, 10, 111, 111, 111, 112, 0] :=
    .keyWithoutNul _ [8, 98, 0, 2] (.cons [98] (.bool false) .nil) 10 [111, 111, 111, 112]
      rfl rfl ⟨by decide⟩
  have h12 : bson.IllFramed [21, 0, 0, 0, 3, 0, 14, 0, 0, 0, 2, 0, 3, 0, 0, 0, 121, 111, 255, 0, 0] :=
    .nested _ [] .nil 3 [] [14, 0, 0, 0, 2, 0, 3, 0, 0, 0, 121, 111, 255, 0] rfl (Or.inl rfl) rfl
      (.stringNotNul _ [] .nil 2 [] [121, 111] 255 [] rfl (Or.inl rfl) rfl (by decide)
        ⟨by decide⟩) ⟨by decide⟩
  ⟨⟨h1, (Unmarshal_corrupted _ h1).1, (Unmarshal_corrupted _ h1).2 []⟩,
    ⟨h2, (Unmarshal_corrupted _ h2).1, (Unmarshal_corrupted _ h2).2 []⟩,
    ⟨h3, (Unmarshal_corrupted _ h3).1, (Unmarshal_corrupted _ h3).2 []⟩,
    ⟨h4, (Unmarshal_corrupted _ h4).1, (Unmarshal_corrupted _ h4).2 []⟩,
    ⟨h5, (Unmarshal_corrupted _ h5).1, (Unmarshal_corrupted _ h5).2 []⟩,
    ⟨h6, (Unmarshal_corrupted _ h6).1, (Unmarshal_corrupted _ h6).2 []⟩,
    ⟨h7, (Unmarshal_corrupted _ h7).1, (Unmarshal_corrupted _ h7).2 []⟩,
    ⟨h8, (Unmarshal_corrupted _ h8).1, (Unmarshal_corrupted _ h8).2 []⟩,
    ⟨h9, (Unmarshal_corrupted _ h9).1, (Unmarshal_corrupted _ h9).2 []⟩,
    ⟨h10, (Unmarshal_corrupted _ h10).1, (Unmarshal_corrupted _ h10).2 [[95]]⟩,
    ⟨h11, (Unmarshal_corrupted _ h11).1, (Unmarshal_corrupted _ h11).2 [[98]]⟩,
    ⟨h12, (Unmarshal_corrupted _ h12).1, (Unmarshal_corrupted _ h12).2 []⟩⟩

end Mgo
